import Mathlib

/-!
# RC5 / RC5X / RC6 infrared codecs (`ir_RC5_RC6.cpp`)

A shallow embedding of the level quantizer `IRrecv::getRClevel`, the decoders
`IRrecv::decodeRC5` / `IRrecv::decodeRC6` and the encoders `IRsend::sendRC5`,
`IRsend::encodeRC5`, `IRsend::sendRC5x`, `IRsend::sendRC6`.

* The output primitives `enableIROut`, `mark`, `space` are external; a send
  routine is modelled by the list of calls it makes, in order.
* The raw buffer is a list of durations; `rawlen` is its length.
* `unsigned long` is 32 bits wide (Arduino); values are `Nat` reduced
  modulo `2 ^ 32` where the C type truncates.
-/

namespace IRremote

/-! ## Constants of the source file -/

/-- Source: `#define MIN_RC5_SAMPLES 11` -/
def MIN_RC5_SAMPLES : Nat := 11
/-- Source: `#define RC5_T1 889` -/
def RC5_T1 : Nat := 889
/-- Source: `const uint16_t kRC5RawBits = 14;` -/
def kRC5RawBits : Nat := 14
/-- Source: `const uint16_t kRC5Bits = kRC5RawBits - 2;` -/
def kRC5Bits : Nat := kRC5RawBits - 2
/-- Source: `#define MIN_RC6_SAMPLES 1` -/
def MIN_RC6_SAMPLES : Nat := 1
/-- Source: `#define RC6_HDR_MARK 2666` -/
def RC6_HDR_MARK : Nat := 2666
/-- Source: `#define RC6_HDR_SPACE 889` -/
def RC6_HDR_SPACE : Nat := 889
/-- Source: `#define RC6_T1 444` -/
def RC6_T1 : Nat := 444

/-! ## What the headers provide -/

/-- Modelled from the spec: the constants and predicates of `IRremoteInt.h`
that `ir_RC5_RC6.cpp` uses but does not define.  `MARK` and `SPACE` are the two
logical level tokens, `MARK_EXCESS` the fixed timing bias, `MATCH` the
tolerance-based duration-match predicate (measured value, desired value) and
`MATCH_MARK` / `MATCH_SPACE` its variants for direct comparisons of a mark or a
space.  They are parameters of the embedding.  The two level tokens are
distinct from each other and from the quantizer's "no match" value `-1`. -/
structure Env where
  MARK : Int
  SPACE : Int
  MARK_EXCESS : Int
  MATCH : Int → Int → Bool
  MATCH_MARK : Int → Int → Bool
  MATCH_SPACE : Int → Int → Bool
  mark_ne_space : MARK ≠ SPACE
  mark_ne_err : MARK ≠ -1
  space_ne_err : SPACE ≠ -1

/-- Modelled from the spec: the protocol tag of a decoded result,
"enum {RC5, RC6}" (the enumeration is declared in `IRremote.h`). -/
inductive decode_type_t where
  | RC5
  | RC6
  deriving DecidableEq, Repr

/-- The fields of `decode_results` the decoders touch: the result triple and
the raw buffer (`rawbuf`, whose length is `rawlen`; `irparams.rawlen` names the
same count). -/
structure decode_results where
  decode_type : decode_type_t
  value : Nat
  bits : Nat
  rawbuf : List Nat
  deriving DecidableEq, Repr

/-- The field `results->rawlen`. -/
def decode_results.rawlen (results : decode_results) : Nat := results.rawbuf.length

/-! ## The level quantizer -/

/-- The function `IRrecv::getRClevel`.  The cursor `(*offset, *used)` is passed in and the
updated cursor is returned with the level: the result is
`(level, offset, used)`, the level being `MARK`, `SPACE` or `-1`. -/
def getRClevel (E : Env) (results : decode_results) (offset used : Nat) (t1 : Int) :
    Int × Nat × Nat :=
  if h : offset < results.rawbuf.length then
    let width : Int := (results.rawbuf[offset] : Nat)
    let val : Int := if offset % 2 ≠ 0 then E.MARK else E.SPACE
    let correction : Int := if val = E.MARK then E.MARK_EXCESS else - E.MARK_EXCESS
    let avail : Option Nat :=
      if E.MATCH width (t1 + correction) then some 1
      else if E.MATCH width (2 * t1 + correction) then some 2
      else if E.MATCH width (3 * t1 + correction) then some 3
      else none
    match avail with
    | none => (-1, offset, used)
    | some avail =>
      if used + 1 ≥ avail then (val, offset + 1, 0) else (val, offset, used + 1)
  else (E.SPACE, offset, used)

/-! ## RC5 -/

/-- The calls a send routine makes on the output collaborator. -/
inductive Out where
  | enableIROut (khz : Nat)
  | mark (time : Nat)
  | space (time : Nat)
  deriving DecidableEq, Repr

/-- The data loop of `sendRC5`:
`for (mask = ...; mask; mask >>= 1) { if (data & mask) ... else ... }`. -/
def sendRC5Loop (data mask : Nat) : List Out :=
  if _hm : mask = 0 then []
  else
    (if data &&& mask ≠ 0 then [Out.space RC5_T1, Out.mark RC5_T1]
     else [Out.mark RC5_T1, Out.space RC5_T1])
      ++ sendRC5Loop data (mask >>> 1)
termination_by mask
decreasing_by
  have hpos : mask ≠ 0 := by assumption
  simp only [Nat.shiftRight_eq_div_pow, pow_one]
  omega

/-- The function `IRsend::sendRC5`.  `1UL << (nbits - 1)` is a 32-bit shift, defined for
`nbits` in `1 .. 32`. -/
def sendRC5 (data nbits : Nat) : List Out :=
  [Out.enableIROut 36, Out.mark RC5_T1, Out.space RC5_T1, Out.mark RC5_T1]
    ++ sendRC5Loop (data % 2 ^ 32) ((1 <<< (nbits - 1)) % 2 ^ 32)
    ++ [Out.space 0]

/-- The function `IRsend::encodeRC5` (arguments `uint8_t`, `uint8_t`, `bool`; result
`uint16_t`). -/
def encodeRC5 (address command : Nat) (key_released : Bool) : Nat :=
  ((((if key_released then 1 else 0) <<< (kRC5Bits - 1)) |||
    (((address % 256) &&& 0x1f) <<< 6)) ||| ((command % 256) &&& 0x3F)) % 2 ^ 16

/-- The bit loop of `decodeRC5`, started with the cursor `(offset, used)`, the
bit count `nbits` and the accumulator `data` (a 32-bit `long`).  `none` is the
`return false` inside the loop; `some (nbits, data)` is the state at loop
exit. -/
def decodeRC5Loop (E : Env) (results : decode_results) (offset used nbits data : Nat) :
    Option (Nat × Nat) :=
  if h : offset < results.rawlen then
    let a := getRClevel E results offset used RC5_T1
    let b := getRClevel E results a.2.1 a.2.2 RC5_T1
    if h1 : a.1 = E.SPACE ∧ b.1 = E.MARK then
      decodeRC5Loop E results b.2.1 b.2.2 (nbits + 1) ((data * 2 + 1) % 2 ^ 32)
    else if h0 : a.1 = E.MARK ∧ b.1 = E.SPACE then
      decodeRC5Loop E results b.2.1 b.2.2 (nbits + 1) ((data * 2) % 2 ^ 32)
    else none
  else some (nbits, data)
termination_by 4 * (results.rawlen - offset) + (3 - used)
decreasing_by
  all_goals
    have key : ∀ o u : Nat,
        4 * (results.rawlen - (getRClevel E results o u RC5_T1).2.1)
            + (3 - (getRClevel E results o u RC5_T1).2.2)
          ≤ 4 * (results.rawlen - o) + (3 - u)
        ∧ (o < results.rawlen → (getRClevel E results o u RC5_T1).1 ≠ -1 →
          4 * (results.rawlen - (getRClevel E results o u RC5_T1).2.1)
              + (3 - (getRClevel E results o u RC5_T1).2.2)
            < 4 * (results.rawlen - o) + (3 - u)) := by
      intro o u
      unfold getRClevel decode_results.rawlen
      by_cases ho : o < results.rawbuf.length
      · simp only [ho, dite_true]
        split_ifs <;> simp <;> (try split_ifs) <;> (try simp) <;> omega
      · simp [ho]
    have ha := (key offset used).2 h
    have hb := (key (getRClevel E results offset used RC5_T1).2.1
      (getRClevel E results offset used RC5_T1).2.2).1
    have hane : (getRClevel E results offset used RC5_T1).1 ≠ -1 := by
      first
        | (rw [h1.1]; exact E.space_ne_err)
        | (rw [h0.1]; exact E.mark_ne_err)
    have := ha hane
    omega

/-- The function `IRrecv::decodeRC5`.  Returns the boolean and the result record as the
call leaves it. -/
def decodeRC5 (E : Env) (results : decode_results) : Bool × decode_results :=
  if results.rawlen < MIN_RC5_SAMPLES + 2 then (false, results) else
  let s1 := getRClevel E results 1 0 RC5_T1
  if s1.1 ≠ E.MARK then (false, results) else
  let s2 := getRClevel E results s1.2.1 s1.2.2 RC5_T1
  if s2.1 ≠ E.SPACE then (false, results) else
  let s3 := getRClevel E results s2.2.1 s2.2.2 RC5_T1
  if s3.1 ≠ E.MARK then (false, results) else
  match decodeRC5Loop E results s3.2.1 s3.2.2 0 0 with
  | none => (false, results)
  | some (nbits, data) =>
    (true, { results with bits := nbits, value := data, decode_type := decode_type_t.RC5 })

/-! ## RC5X -/

/-- The frame `data` that `sendRC5x` assembles before sending (source lines
138-155); the arguments are `unsigned char`. -/
def sendRC5xData (toggle system command extension : Nat) : Nat :=
  let toggle := toggle % 256
  let system := system % 256
  let command := command % 256
  let extension := extension % 256
  let data : Nat := if command &&& 64 ≠ 0 then 2 else 3
  let data := ((data <<< 1) ||| (toggle &&& 1)) % 2 ^ 32
  let data := ((data <<< 5) ||| (system &&& 0x1F)) % 2 ^ 32
  let data := ((data <<< 6) ||| (command &&& 0x3F)) % 2 ^ 32
  let data := ((data <<< 6) ||| (extension &&& 0x3F)) % 2 ^ 32
  data

/-- The send loop of `sendRC5x`: `for (int i = 0; i < 20; i++) { ... mask >>= 1; }`. -/
def sendRC5xLoop (data mask i : Nat) : List Out :=
  if i < 20 then
    (if data &&& mask ≠ 0 then [Out.space RC5_T1, Out.mark RC5_T1]
     else [Out.mark RC5_T1, Out.space RC5_T1])
      ++ (if i = 7 then [Out.space (4 * RC5_T1)] else [])
      ++ sendRC5xLoop data (mask >>> 1) (i + 1)
  else []
termination_by 20 - i

/-- The function `IRsend::sendRC5x`. -/
def sendRC5x (toggle system command extension : Nat) : List Out :=
  [Out.enableIROut 36]
    ++ sendRC5xLoop (sendRC5xData toggle system command extension) ((1 <<< 19) % 2 ^ 32) 0
    ++ [Out.space 0]

/-! ## RC6 -/

/-- The data loop of `sendRC6`:
`for (i = 1, mask = ...; mask; i++, mask >>= 1) { ... }`. -/
def sendRC6Loop (data i mask : Nat) : List Out :=
  if _hm : mask = 0 then []
  else
    let t : Nat := if i = 4 then RC6_T1 * 2 else RC6_T1
    (if data &&& mask ≠ 0 then [Out.mark t, Out.space t]
     else [Out.space t, Out.mark t])
      ++ sendRC6Loop data ((i + 1) % 2 ^ 32) (mask >>> 1)
termination_by mask
decreasing_by
  have hpos : mask ≠ 0 := by assumption
  simp only [Nat.shiftRight_eq_div_pow, pow_one]
  omega

/-- The function `IRsend::sendRC6`. -/
def sendRC6 (data nbits : Nat) : List Out :=
  [Out.enableIROut 36, Out.mark RC6_HDR_MARK, Out.space RC6_HDR_SPACE,
   Out.mark RC6_T1, Out.space RC6_T1]
    ++ sendRC6Loop (data % 2 ^ 32) 1 ((1 <<< (nbits - 1)) % 2 ^ 32)
    ++ [Out.space 0]

/-- The bit loop of `decodeRC6`; `none` is a `return false` inside the loop,
`some (nbits, data)` the state at loop exit. -/
def decodeRC6Loop (E : Env) (results : decode_results) (offset used nbits data : Nat) :
    Option (Nat × Nat) :=
  if h : offset < results.rawlen then
    let a := getRClevel E results offset used RC6_T1
    let a2 := if nbits = 3 then getRClevel E results a.2.1 a.2.2 RC6_T1 else a
    if ha : nbits = 3 ∧ a.1 ≠ a2.1 then none else
    let b := getRClevel E results a2.2.1 a2.2.2 RC6_T1
    let b2 := if nbits = 3 then getRClevel E results b.2.1 b.2.2 RC6_T1 else b
    if hb : nbits = 3 ∧ b.1 ≠ b2.1 then none else
    if h1 : a.1 = E.MARK ∧ b.1 = E.SPACE then
      decodeRC6Loop E results b2.2.1 b2.2.2 (nbits + 1) ((data * 2 + 1) % 2 ^ 32)
    else if h0 : a.1 = E.SPACE ∧ b.1 = E.MARK then
      decodeRC6Loop E results b2.2.1 b2.2.2 (nbits + 1) ((data * 2) % 2 ^ 32)
    else none
  else some (nbits, data)
termination_by 4 * (results.rawlen - offset) + (3 - used)
decreasing_by
  all_goals
    have key : ∀ o u : Nat,
        4 * (results.rawlen - (getRClevel E results o u RC6_T1).2.1)
            + (3 - (getRClevel E results o u RC6_T1).2.2)
          ≤ 4 * (results.rawlen - o) + (3 - u)
        ∧ (o < results.rawlen → (getRClevel E results o u RC6_T1).1 ≠ -1 →
          4 * (results.rawlen - (getRClevel E results o u RC6_T1).2.1)
              + (3 - (getRClevel E results o u RC6_T1).2.2)
            < 4 * (results.rawlen - o) + (3 - u)) := by
      intro o u
      unfold getRClevel decode_results.rawlen
      by_cases ho : o < results.rawbuf.length
      · simp only [ho, dite_true]
        split_ifs <;> simp <;> (try split_ifs) <;> (try simp) <;> omega
      · simp [ho]
    have hane : (getRClevel E results offset used RC6_T1).1 ≠ -1 := by
      first
        | (rw [h1.1]; exact E.mark_ne_err)
        | (rw [h0.1]; exact E.space_ne_err)
    have k1 := (key offset used).2 h hane
    have k2 := (key (getRClevel E results offset used RC6_T1).2.1
      (getRClevel E results offset used RC6_T1).2.2).1
    by_cases h3 : nbits = 3
    · simp only [h3, ↓reduceDIte, ↓reduceIte] at *
      have k3 := (key
        (getRClevel E results (getRClevel E results offset used RC6_T1).2.1
          (getRClevel E results offset used RC6_T1).2.2 RC6_T1).2.1
        (getRClevel E results (getRClevel E results offset used RC6_T1).2.1
          (getRClevel E results offset used RC6_T1).2.2 RC6_T1).2.2).1
      have k4 := (key
        (getRClevel E results
          (getRClevel E results (getRClevel E results offset used RC6_T1).2.1
            (getRClevel E results offset used RC6_T1).2.2 RC6_T1).2.1
          (getRClevel E results (getRClevel E results offset used RC6_T1).2.1
            (getRClevel E results offset used RC6_T1).2.2 RC6_T1).2.2 RC6_T1).2.1
        (getRClevel E results
          (getRClevel E results (getRClevel E results offset used RC6_T1).2.1
            (getRClevel E results offset used RC6_T1).2.2 RC6_T1).2.1
          (getRClevel E results (getRClevel E results offset used RC6_T1).2.1
            (getRClevel E results offset used RC6_T1).2.2 RC6_T1).2.2 RC6_T1).2.2).1
      omega
    · simp only [h3, ↓reduceDIte, ↓reduceIte] at *
      omega

/-- The function `IRrecv::decodeRC6`.  `rawbuf[offset++]` is read at index 1 and then at
index 2; a read at an index that is not below `rawlen` yields `none` (the
access is outside the recorded samples).  Otherwise the result is the boolean
and the result record as the call leaves it. -/
def decodeRC6 (E : Env) (results : decode_results) : Option (Bool × decode_results) :=
  if results.rawlen < MIN_RC6_SAMPLES then some (false, results) else
  match (results.rawbuf[1]? : Option Nat) with
  | none => none
  | some w1 =>
    if !E.MATCH_MARK (w1 : Nat) RC6_HDR_MARK then some (false, results) else
    match (results.rawbuf[2]? : Option Nat) with
    | none => none
    | some w2 =>
      if !E.MATCH_SPACE (w2 : Nat) RC6_HDR_SPACE then some (false, results) else
      let s1 := getRClevel E results 3 0 RC6_T1
      if s1.1 ≠ E.MARK then some (false, results) else
      let s2 := getRClevel E results s1.2.1 s1.2.2 RC6_T1
      if s2.1 ≠ E.SPACE then some (false, results) else
      match decodeRC6Loop E results s2.2.1 s2.2.2 0 0 with
      | none => some (false, results)
      | some (nbits, data) =>
        some (true,
          { results with bits := nbits, value := data, decode_type := decode_type_t.RC6 })

/-! ## The capture of an emission

The receiver side of a transmission, as the round-trip properties describe it: the
raw buffer holds a leading gap at index 0 and then the durations of the
alternating marks and spaces seen, the first of them a mark. -/

/-- The level/duration segments of a list of output calls (`true` = mark);
`enableIROut` emits nothing. -/
def segments : List Out → List (Bool × Nat)
  | [] => []
  | Out.enableIROut _ :: r => segments r
  | Out.mark t :: r => (true, t) :: segments r
  | Out.space t :: r => (false, t) :: segments r

/-- Drops the spaces that follow the last mark (they run into the silence
after the frame). -/
def dropTrailingSpace : List (Bool × Nat) → List (Bool × Nat)
  | [] => []
  | s :: r =>
    match dropTrailingSpace r with
    | [] => if s.1 then [s] else []
    | r' => s :: r'

/-- Merges adjacent segments of the same level into one, adding their
durations. -/
def mergeRuns : List (Bool × Nat) → List (Bool × Nat)
  | [] => []
  | s :: r =>
    match mergeRuns r with
    | [] => [s]
    | s' :: t => if s.1 = s'.1 then (s.1, s.2 + s'.2) :: t else s :: s' :: t

/-- The raw buffer captured from an emission: the leading gap entry, then the
mark/space durations with zero-length segments dropped, the spaces before the
first mark (part of the gap) and after the last mark dropped, and adjacent
segments of the same level merged. -/
def capture (gap : Nat) (outs : List Out) : List Nat :=
  gap :: (mergeRuns (dropTrailingSpace
    (((segments outs).filter (fun s => s.2 ≠ 0)).dropWhile (fun s => !s.1)))).map Prod.snd

/-- The bits of `data` at positions `n - 1` down to `0`, most significant first. -/
def msbBits (data n : Nat) : List Bool := (List.range n).reverse.map data.testBit

/-! ## Devices for stating the properties -/

/-- The result of `n` successive calls of `getRClevel` at unit `t1`, started
with the cursor `(offset, used)`: the levels returned, in order, and the cursor
after the last call. -/
def getRClevels (E : Env) (results : decode_results) (t1 : Int) :
    Nat → Nat → Nat → List Int × Nat × Nat
  | 0, offset, used => ([], offset, used)
  | n + 1, offset, used =>
    let r := getRClevel E results offset used t1
    let rest := getRClevels E results t1 n r.2.1 r.2.2
    (r.1 :: rest.1, rest.2)

/-- A concrete environment for examples: durations in microseconds, a bias of
100 and a match predicate that accepts a measured value within 150 of the
desired one. -/
def exampleEnv : Env where
  MARK := 1
  SPACE := 0
  MARK_EXCESS := 100
  MATCH := fun measured desired => decide ((measured - desired).natAbs ≤ 150)
  MATCH_MARK := fun measured desired => decide ((measured - (desired + 100)).natAbs ≤ 150)
  MATCH_SPACE := fun measured desired => decide ((measured - (desired - 100)).natAbs ≤ 150)
  mark_ne_space := by decide
  mark_ne_err := by decide
  space_ne_err := by decide

/-- An empty result record around a raw buffer. -/
def resultsOf (rawbuf : List Nat) : decode_results :=
  { decode_type := decode_type_t.RC6, value := 0, bits := 0, rawbuf := rawbuf }

/-- The match predicate accepts an interval of `k` units (`k` in `1 .. 3`),
captured as `k * T`, against the target `k * T` with the bias of its level
(`+MARK_EXCESS` for a mark, `-MARK_EXCESS` for a space) and against no smaller
multiple of `T`. -/
def acceptsUnits (E : Env) (T : Nat) : Bool :=
  [1, 2, 3].all fun k => [true, false].all fun mark =>
    E.MATCH ((k * T : Nat) : Int)
        ((k : Int) * T + (if mark then E.MARK_EXCESS else - E.MARK_EXCESS))
      && (List.range k).all fun j =>
        j == 0 || !E.MATCH ((k * T : Nat) : Int)
          ((j : Int) * T + (if mark then E.MARK_EXCESS else - E.MARK_EXCESS))

/-- The unit levels a list of runs `(level, count)` stands for. -/
def unitsOf (runs : List (Bool × Nat)) : List Bool :=
  runs.flatMap (fun p => List.replicate p.2 p.1)

/-- A run of `p.2` units as a segment of duration `p.2 * T`. -/
def scaleRun (T : Nat) (p : Bool × Nat) : Bool × Nat := (p.1, p.2 * T)

/-- The level token of a unit level (`true` = mark). -/
def levelOf (E : Env) (b : Bool) : Int := if b then E.MARK else E.SPACE

/-- The cursor `(o, u)` stands in a buffer `buf` whose samples from index `o`
on are alternating runs of 1 to 3 units of `T`, the run at `o` of the level of
`o`'s parity and with `u` of its units used; `R` lists the unit levels not yet
read. -/
def CursorAt (T : Nat) (buf : List Nat) (o u : Nat) (R : List Bool) : Prop :=
  ∃ (pre : List Nat) (runs : List (Bool × Nat)),
    buf = pre ++ runs.map (fun p => p.2 * T) ∧ pre.length = o
    ∧ List.Chain' (fun p q : Bool × Nat => p.1 ≠ q.1) runs
    ∧ (∀ p ∈ runs, 1 ≤ p.2 ∧ p.2 ≤ 3)
    ∧ (∀ p ∈ runs.head?, p.1 = decide (o % 2 = 1) ∧ u < p.2)
    ∧ R = (unitsOf runs).drop u

/-- From the cursor `(o, u)` the quantizer will read the unit levels `U`: those
left in the buffer, then spaces only (the silence after the last sample). -/
def ReadsFrom (T : Nat) (buf : List Nat) (o u : Nat) (U : List Bool) : Prop :=
  ∃ (R pad : List Bool), CursorAt T buf o u R ∧ (∀ b ∈ pad, b = false) ∧ R ++ pad = U

/-- The unit levels of RC5 data bits: a 1 is space then mark, a 0 is mark then
space. -/
def rc5Units (bs : List Bool) : List Bool :=
  bs.flatMap (fun b => if b then [false, true] else [true, false])

/-- The accumulator of the decoders after shifting in the bits `bs`, most
significant first: `data = (data << 1) | bit` on a 32-bit value. -/
def shiftIn (data : Nat) (bs : List Bool) : Nat :=
  bs.foldl (fun d b => (d * 2 + b.toNat) % 2 ^ 32) data

/-- One step of merging a segment `x` in front of merged, trimmed runs `F`. -/
def mergeStep (x : Bool × Nat) (F : List (Bool × Nat)) : List (Bool × Nat) :=
  match F with
  | [] => if x.1 then [x] else []
  | y :: t => if x.1 = y.1 then (x.1, x.2 + y.2) :: t else x :: y :: t

/-- The unit segments of RC5 data bits. -/
def rc5Segs (bs : List Bool) : List (Bool × Nat) :=
  bs.flatMap (fun b => if b then [(false, 1), (true, 1)] else [(true, 1), (false, 1)])

/-- The unit segments of RC6 data bits, the first of them being bit number `j`
(counted from 0): a 1 is mark then space, a 0 is space then mark, and bit
number 3 is two units wide in each half. -/
def rc6Segs : Nat → List Bool → List (Bool × Nat)
  | _, [] => []
  | j, b :: bs =>
    (b, if j = 3 then 2 else 1) :: (!b, if j = 3 then 2 else 1) :: rc6Segs (j + 1) bs

/-- The unit levels of RC6 data bits, the first of them being bit number `j`. -/
def rc6Units : Nat → List Bool → List Bool
  | _, [] => []
  | j, b :: bs =>
    (if j = 3 then [b, b, !b, !b] else [b, !b]) ++ rc6Units (j + 1) bs

/-! ## The bit loops, one pass at a time -/

/-- One pass through the body of the bit loop of `decodeRC5`, entered with the
cursor `(offset, used)`, the bit count `nbits` and the accumulator `data`:
`none` is `return false`, `some` the state after the pass (`nbits++`
included). -/
def decodeRC5Body (E : Env) (results : decode_results) (offset used nbits data : Nat) :
    Option (Nat × Nat × Nat × Nat) :=
  let a := getRClevel E results offset used RC5_T1
  let b := getRClevel E results a.2.1 a.2.2 RC5_T1
  if a.1 = E.SPACE ∧ b.1 = E.MARK then
    some (b.2.1, b.2.2, nbits + 1, (data * 2 + 1) % 2 ^ 32)
  else if a.1 = E.MARK ∧ b.1 = E.SPACE then
    some (b.2.1, b.2.2, nbits + 1, (data * 2) % 2 ^ 32)
  else none

/-- The state `(offset, used, nbits, data)` of the bit loop of `decodeRC5`
after `k` passes through its body, each entered with the loop condition
`offset < rawlen` true; `none` if one of these passes returned false or the loop
had ended before. -/
def decodeRC5Iter (E : Env) (results : decode_results) :
    Nat → Nat × Nat × Nat × Nat → Option (Nat × Nat × Nat × Nat)
  | 0, s => some s
  | k + 1, (offset, used, nbits, data) =>
    if offset < results.rawlen then
      match decodeRC5Body E results offset used nbits data with
      | none => none
      | some s => decodeRC5Iter E results k s
    else none

/-- One pass through the body of the bit loop of `decodeRC6`; `none` is
`return false`, `some` the state after the pass. -/
def decodeRC6Body (E : Env) (results : decode_results) (offset used nbits data : Nat) :
    Option (Nat × Nat × Nat × Nat) :=
  let a := getRClevel E results offset used RC6_T1
  let a2 := if nbits = 3 then getRClevel E results a.2.1 a.2.2 RC6_T1 else a
  if nbits = 3 ∧ a.1 ≠ a2.1 then none else
  let b := getRClevel E results a2.2.1 a2.2.2 RC6_T1
  let b2 := if nbits = 3 then getRClevel E results b.2.1 b.2.2 RC6_T1 else b
  if nbits = 3 ∧ b.1 ≠ b2.1 then none else
  if a.1 = E.MARK ∧ b.1 = E.SPACE then
    some (b2.2.1, b2.2.2, nbits + 1, (data * 2 + 1) % 2 ^ 32)
  else if a.1 = E.SPACE ∧ b.1 = E.MARK then
    some (b2.2.1, b2.2.2, nbits + 1, (data * 2) % 2 ^ 32)
  else none

/-- The state `(offset, used, nbits, data)` of the bit loop of `decodeRC6`
after `k` passes through its body, each entered with `offset < rawlen`; `none`
if one of these passes returned false or the loop had ended before. -/
def decodeRC6Iter (E : Env) (results : decode_results) :
    Nat → Nat × Nat × Nat × Nat → Option (Nat × Nat × Nat × Nat)
  | 0, s => some s
  | k + 1, (offset, used, nbits, data) =>
    if offset < results.rawlen then
      match decodeRC6Body E results offset used nbits data with
      | none => none
      | some s => decodeRC6Iter E results k s
    else none

/-- The number of units (1, 2 or 3) that `getRClevel` takes the sample at
`offset` for: the first of `t1`, `2 * t1`, `3 * t1`, each plus the bias
correction of the sample's level, that the sample matches (source lines
22-29); `none` if it matches none of them, or if `offset` is not below
`rawlen`. -/
def matchedUnits (E : Env) (results : decode_results) (t1 : Int) (offset : Nat) : Option Nat :=
  if h : offset < results.rawbuf.length then
    let width : Int := (results.rawbuf[offset] : Nat)
    let val : Int := if offset % 2 ≠ 0 then E.MARK else E.SPACE
    let correction : Int := if val = E.MARK then E.MARK_EXCESS else - E.MARK_EXCESS
    if E.MATCH width (t1 + correction) then some 1
    else if E.MATCH width (2 * t1 + correction) then some 2
    else if E.MATCH width (3 * t1 + correction) then some 3
    else none
  else none


/-- The match predicate accepts no interval of 4, 5 or 6 units, captured as
`d * T`, against a target of 1, 2 or 3 units of `T` with either bias. -/
def rejectsGap (E : Env) (T : Nat) : Bool :=
  [4, 5, 6].all fun d => [1, 2, 3].all fun k => [true, false].all fun mark =>
    !E.MATCH ((d * T : Nat) : Int)
      ((k : Int) * T + (if mark then E.MARK_EXCESS else - E.MARK_EXCESS))

/-! ## Devices for the soundness of the RC5 decoder -/

/-- The unit levels that the samples at indexes `o .. rawlen - 1` stand for:
each sample is expanded into its matched number (1, 2 or 3) of levels of its
index's polarity (`true` = mark, at the odd indexes); a sample that matches
nothing stands for no level. -/
def unitLevelsFrom (E : Env) (results : decode_results) (t1 : Int) (o : Nat) : List Bool :=
  (List.range' o (results.rawlen - o)).flatMap fun i =>
    List.replicate ((matchedUnits E results t1 i).getD 0) (decide (i % 2 ≠ 0))

/-- The unit levels of an emission at the unit `T`: a mark or space of duration
`t` stands for `t / T` levels, so that `space(0)` stands for none. -/
def emittedUnits (T : Nat) (outs : List Out) : List Bool :=
  (segments outs).flatMap fun p => List.replicate (p.2 / T) p.1

/-- A level sequence followed by one implicit SPACE if its length is even. -/
def padIfEven (l : List Bool) : List Bool := if l.length % 2 = 0 then l ++ [false] else l

/-- A level sequence followed by one implicit SPACE if its length is odd. -/
def padIfOdd (l : List Bool) : List Bool := if l.length % 2 = 1 then l ++ [false] else l

/-! ## Bit masks -/

theorem and_two_pow_ne_zero (d k : Nat) : (d &&& 2 ^ k ≠ 0) ↔ d.testBit k = true := by
  rw [Nat.and_two_pow]
  cases d.testBit k <;> simp

theorem two_pow_shiftRight_one (k : Nat) : (2 ^ (k + 1)) >>> 1 = 2 ^ k := by
  simp [Nat.shiftRight_eq_div_pow, pow_succ]

theorem msbBits_succ (d k : Nat) : msbBits d (k + 1) = d.testBit k :: msbBits d k := by
  simp [msbBits, List.range_succ]

theorem one_shiftLeft_mod (n : Nat) (h1 : 1 ≤ n) (h32 : n ≤ 32) :
    (1 <<< (n - 1)) % 2 ^ 32 = 2 ^ (n - 1) := by
  rw [Nat.one_shiftLeft]
  apply Nat.mod_eq_of_lt
  apply Nat.pow_lt_pow_right (by norm_num)
  omega

theorem msbBits_mod (d n : Nat) (h32 : n ≤ 32) : msbBits (d % 2 ^ 32) n = msbBits d n := by
  unfold msbBits
  apply List.map_congr_left
  intro i hi
  have : i < n := by simpa using hi
  rw [Nat.testBit_mod_two_pow]
  have h : i < 32 := by omega
  simp [h]

/-! ## The send loops in closed form -/

theorem sendRC5Loop_zero (d : Nat) : sendRC5Loop d 0 = [] := by
  rw [sendRC5Loop]; simp

theorem sendRC5Loop_step (d k : Nat) :
    sendRC5Loop d (2 ^ k)
      = (if d.testBit k then [Out.space 889, Out.mark 889] else [Out.mark 889, Out.space 889])
        ++ sendRC5Loop d ((2 ^ k) >>> 1) := by
  rw [sendRC5Loop]
  have hne : (2 : Nat) ^ k ≠ 0 := by positivity
  simp only [hne, dite_false, and_two_pow_ne_zero, RC5_T1]

theorem sendRC5Loop_two_pow (d k : Nat) :
    sendRC5Loop d (2 ^ k) = (msbBits d (k + 1)).flatMap (fun b =>
      if b then [Out.space 889, Out.mark 889] else [Out.mark 889, Out.space 889]) := by
  induction k with
  | zero =>
    rw [sendRC5Loop_step, msbBits_succ]
    have h0 : (2 ^ 0) >>> 1 = 0 := by decide
    rw [h0, sendRC5Loop_zero]
    simp [msbBits]
  | succ k ih =>
    rw [sendRC5Loop_step, two_pow_shiftRight_one, ih, msbBits_succ d (k + 1)]
    simp

theorem sendRC5_eq (data nbits : Nat) (h1 : 1 ≤ nbits) (h32 : nbits ≤ 32) :
    sendRC5 data nbits
      = [Out.enableIROut 36, Out.mark 889, Out.space 889, Out.mark 889]
        ++ (msbBits data nbits).flatMap (fun b =>
            if b then [Out.space 889, Out.mark 889] else [Out.mark 889, Out.space 889])
        ++ [Out.space 0] := by
  obtain ⟨k, rfl⟩ : ∃ k, nbits = k + 1 := ⟨nbits - 1, by omega⟩
  unfold sendRC5
  rw [one_shiftLeft_mod (k + 1) h1 h32]
  simp only [Nat.add_sub_cancel]
  rw [sendRC5Loop_two_pow, msbBits_mod _ _ h32]
  rfl

theorem length_flatMap_pairs {α : Type} (l : List Bool) (f : Bool → List α)
    (hf : ∀ b, (f b).length = 2) : (l.flatMap f).length = 2 * l.length := by
  induction l with
  | nil => simp
  | cons b t ih => simp [List.flatMap_cons, ih, hf]; omega

theorem length_msbBits (d n : Nat) : (msbBits d n).length = n := by
  simp [msbBits]

/-- C3: for `nbits` in `1 .. 32` and every `data`, `sendRC5 data nbits` calls
`enableIROut(36)`, `mark(889)`, `space(889)`, `mark(889)`, then for each bit of
`data` from bit `nbits - 1` down to bit 0 `space(889), mark(889)` for a 1 and
`mark(889), space(889)` for a 0, then `space(0)`; that is `2 * nbits + 5`
calls. -/
theorem sendRC5_emission (data nbits : Nat) (h1 : 1 ≤ nbits) (h32 : nbits ≤ 32) :
    sendRC5 data nbits
      = [Out.enableIROut 36, Out.mark 889, Out.space 889, Out.mark 889]
        ++ ((List.range nbits).reverse.map data.testBit).flatMap (fun b =>
            if b then [Out.space 889, Out.mark 889] else [Out.mark 889, Out.space 889])
        ++ [Out.space 0]
    ∧ (sendRC5 data nbits).length = 2 * nbits + 5 := by
  have h := sendRC5_eq data nbits h1 h32
  refine ⟨h, ?_⟩
  rw [h]
  simp only [List.length_append, List.length_cons, List.length_nil]
  rw [length_flatMap_pairs _ _ (by intro b; cases b <;> rfl), length_msbBits]
  omega

/-- C3, witness: `data = 0b10101`, `nbits = 5`. -/
theorem sendRC5_emission_witness :
    sendRC5 0b10101 5
      = [Out.enableIROut 36, Out.mark 889, Out.space 889, Out.mark 889,
         Out.space 889, Out.mark 889, Out.mark 889, Out.space 889,
         Out.space 889, Out.mark 889, Out.mark 889, Out.space 889,
         Out.space 889, Out.mark 889, Out.space 0]
    ∧ (sendRC5 0b10101 5).length = 15 :=
  sendRC5_emission 0b10101 5 (by decide) (by decide)

theorem sendRC6Loop_zero (d i : Nat) : sendRC6Loop d i 0 = [] := by
  rw [sendRC6Loop]; simp

theorem sendRC6Loop_step (d i k : Nat) :
    sendRC6Loop d i (2 ^ k)
      = (if d.testBit k then
            [Out.mark (if i = 4 then 888 else 444), Out.space (if i = 4 then 888 else 444)]
          else [Out.space (if i = 4 then 888 else 444), Out.mark (if i = 4 then 888 else 444)])
        ++ sendRC6Loop d ((i + 1) % 2 ^ 32) ((2 ^ k) >>> 1) := by
  rw [sendRC6Loop]
  have hne : (2 : Nat) ^ k ≠ 0 := by positivity
  simp only [hne, dite_false, and_two_pow_ne_zero, RC6_T1]

theorem sendRC6Loop_two_pow (d k : Nat) :
    ∀ i, i + k + 1 < 2 ^ 32 →
    sendRC6Loop d i (2 ^ k) = (List.range' i (k + 1)).flatMap (fun c =>
      if d.testBit (k + i - c) then
        [Out.mark (if c = 4 then 888 else 444), Out.space (if c = 4 then 888 else 444)]
      else [Out.space (if c = 4 then 888 else 444), Out.mark (if c = 4 then 888 else 444)]) := by
  induction k with
  | zero =>
    intro i _
    rw [sendRC6Loop_step]
    have h0 : (2 ^ 0) >>> 1 = 0 := by decide
    rw [h0, sendRC6Loop_zero]
    simp [List.range']
  | succ k ih =>
    intro i hi
    have e1 : k + 1 + i - i = k + 1 := by omega
    rw [sendRC6Loop_step, two_pow_shiftRight_one, Nat.mod_eq_of_lt (by omega)]
    conv_rhs => rw [List.range'_succ, List.flatMap_cons, e1]
    rw [ih (i + 1) (by omega)]
    congr 1
    apply List.flatMap_congr
    intro c _
    have e2 : k + (i + 1) - c = k + 1 + i - c := by omega
    rw [e2]

/-- C4: for `nbits` in `1 .. 32` and every `data`, `sendRC6 data nbits` calls
`enableIROut(36)`, `mark(2666)`, `space(889)`, `mark(444)`, `space(444)`, then
for the `i`-th bit sent (`i = 1` for bit `nbits - 1`, up to `i = nbits` for
bit 0), with `d = 888` if `i = 4` and `d = 444` otherwise, `mark(d), space(d)`
for a 1 and `space(d), mark(d)` for a 0, then `space(0)`. -/
theorem sendRC6_emission (data nbits : Nat) (h1 : 1 ≤ nbits) (h32 : nbits ≤ 32) :
    sendRC6 data nbits
      = [Out.enableIROut 36, Out.mark 2666, Out.space 889, Out.mark 444, Out.space 444]
        ++ (List.range' 1 nbits).flatMap (fun i =>
            if data.testBit (nbits - i) then
              [Out.mark (if i = 4 then 888 else 444), Out.space (if i = 4 then 888 else 444)]
            else [Out.space (if i = 4 then 888 else 444), Out.mark (if i = 4 then 888 else 444)])
        ++ [Out.space 0] := by
  obtain ⟨k, rfl⟩ : ∃ k, nbits = k + 1 := ⟨nbits - 1, by omega⟩
  unfold sendRC6
  rw [one_shiftLeft_mod (k + 1) h1 h32]
  simp only [Nat.add_sub_cancel]
  rw [sendRC6Loop_two_pow _ _ 1 (by omega)]
  congr 2
  apply List.flatMap_congr
  intro c hc
  have hc1 : 1 ≤ c := by
    have := List.mem_range'.1 hc
    omega
  have e : k + 1 - c < 32 := by omega
  rw [Nat.testBit_mod_two_pow]
  simp [e]

/-- C4, witness: `data = 0b100110`, `nbits = 6`; the fourth bit sent is the
double-width one. -/
theorem sendRC6_emission_witness :
    sendRC6 0b100110 6
      = [Out.enableIROut 36, Out.mark 2666, Out.space 889, Out.mark 444, Out.space 444,
         Out.mark 444, Out.space 444, Out.space 444, Out.mark 444,
         Out.space 444, Out.mark 444, Out.mark 888, Out.space 888,
         Out.mark 444, Out.space 444, Out.space 444, Out.mark 444, Out.space 0] :=
  sendRC6_emission 0b100110 6 (by decide) (by decide)

/-! ## RC5X frame -/

theorem testBit_and_63 (x k : Nat) : (x &&& 0x3F).testBit k = (decide (k < 6) && x.testBit k) := by
  have h : (0x3F : Nat) = 2 ^ 6 - 1 := by decide
  rw [h, Nat.and_pow_two_sub_one_eq_mod, Nat.testBit_mod_two_pow]

theorem testBit_and_31 (x k : Nat) : (x &&& 0x1F).testBit k = (decide (k < 5) && x.testBit k) := by
  have h : (0x1F : Nat) = 2 ^ 5 - 1 := by decide
  rw [h, Nat.and_pow_two_sub_one_eq_mod, Nat.testBit_mod_two_pow]

theorem testBit_and_1 (x k : Nat) : (x &&& 1).testBit k = (decide (k = 0) && x.testBit k) := by
  have h : Nat.testBit 1 k = decide (0 = k) := by
    have := @Nat.testBit_two_pow 0 k
    simpa using this
  rw [Nat.testBit_and, h, Bool.and_comm]
  simp [eq_comm]

theorem testBit_mod_256 (x k : Nat) : (x % 256).testBit k = (decide (k < 8) && x.testBit k) := by
  have h : (256 : Nat) = 2 ^ 8 := by decide
  rw [h, Nat.testBit_mod_two_pow]

theorem and_64_ne_zero (x : Nat) : (x % 256 &&& 64 ≠ 0) ↔ x.testBit 6 = true := by
  have h : (64 : Nat) = 2 ^ 6 := by decide
  rw [h, and_two_pow_ne_zero, testBit_mod_256]
  simp

theorem testBit_two (k : Nat) : Nat.testBit 2 k = decide (k = 1) := by
  have h : (2 : Nat) = 2 ^ 1 := by decide
  rw [h, Nat.testBit_two_pow]
  simp [eq_comm]

theorem testBit_three (k : Nat) : Nat.testBit 3 k = decide (k < 2) := by
  have h : (3 : Nat) = 2 ^ 2 - 1 := by decide
  rw [h, Nat.testBit_two_pow_sub_one]

theorem sendRC5xData_testBit (toggle system command extension k : Nat) :
    (sendRC5xData toggle system command extension).testBit k
      = (decide (k < 32) &&
          ((decide (k ≥ 6) && (decide (k - 6 < 32) &&
            ((decide (k - 6 ≥ 6) && (decide (k - 6 - 6 < 32) &&
              ((decide (k - 6 - 6 ≥ 5) && (decide (k - 6 - 6 - 5 < 32) &&
                ((decide (k - 6 - 6 - 5 ≥ 1) &&
                    (if command.testBit 6 then decide (k - 6 - 6 - 5 - 1 = 1)
                     else decide (k - 6 - 6 - 5 - 1 < 2))) ||
                  (decide (k - 6 - 6 - 5 = 0) &&
                    (decide (k - 6 - 6 - 5 < 8) && toggle.testBit (k - 6 - 6 - 5)))))) ||
                (decide (k - 6 - 6 < 5) &&
                  (decide (k - 6 - 6 < 8) && system.testBit (k - 6 - 6)))))) ||
              (decide (k - 6 < 6) && (decide (k - 6 < 8) && command.testBit (k - 6)))))) ||
            (decide (k < 6) && (decide (k < 8) && extension.testBit k)))) := by
  unfold sendRC5xData
  simp only [and_64_ne_zero, Nat.testBit_mod_two_pow, Nat.testBit_or, Nat.testBit_shiftLeft,
    testBit_and_63, testBit_and_31, testBit_and_1, testBit_mod_256]
  split_ifs <;> simp only [testBit_two, testBit_three]

theorem sendRC5xData_bits (toggle system command extension : Nat) :
    msbBits (sendRC5xData toggle system command extension) 20
      = [true, !command.testBit 6, toggle.testBit 0,
         system.testBit 4, system.testBit 3, system.testBit 2, system.testBit 1,
         system.testBit 0,
         command.testBit 5, command.testBit 4, command.testBit 3, command.testBit 2,
         command.testBit 1, command.testBit 0,
         extension.testBit 5, extension.testBit 4, extension.testBit 3, extension.testBit 2,
         extension.testBit 1, extension.testBit 0] := by
  simp only [msbBits, List.range_succ, List.range_zero, List.nil_append, List.cons_append,
    List.reverse_cons, List.reverse_nil, List.map_cons, List.map_nil, List.append_assoc,
    sendRC5xData_testBit]
  cases command.testBit 6 <;> simp

theorem sendRC5xLoop_eq (data : Nat) :
    ∀ n i mask, i + n = 20 → (1 ≤ n → mask = 2 ^ (n - 1)) →
    sendRC5xLoop data mask i = (List.range' i n).flatMap (fun j =>
      (if data.testBit (19 - j) then [Out.space 889, Out.mark 889]
       else [Out.mark 889, Out.space 889])
        ++ (if j = 7 then [Out.space 3556] else [])) := by
  intro n
  induction n with
  | zero =>
    intro i mask hi _
    rw [sendRC5xLoop]
    simp [show ¬ i < 20 by omega]
  | succ n ih =>
    intro i mask hi hm
    have hmask : mask = 2 ^ n := by simpa using hm (by omega)
    subst hmask
    rw [sendRC5xLoop]
    have hi20 : i < 20 := by omega
    have hbit : 19 - i = n := by omega
    rw [List.range'_succ, List.flatMap_cons, hbit]
    simp only [hi20, if_true, and_two_pow_ne_zero, RC5_T1]
    rw [ih (i + 1) ((2 ^ n) >>> 1) (by omega)
      (by
        intro h1
        obtain ⟨m, rfl⟩ : ∃ m, n = m + 1 := ⟨n - 1, by omega⟩
        rw [two_pow_shiftRight_one]
        simp)]

/-- C6: `sendRC5x` calls `enableIROut(36)`, then emits 20 biphase bit pairs
(1 = `space(889), mark(889)`; 0 = `mark(889), space(889)`) for the bits
`[1, f, toggle mod 2, system bits 4..0, command bits 5..0, extension bits 5..0]`,
`f` being the second framing bit (the complement of bit 6 of `command`), with
one extra `space(4 * 889)` right after the 8th pair and nowhere else, and ends
with `space(0)`. -/
theorem sendRC5x_emission (toggle system command extension : Nat) :
    sendRC5x toggle system command extension
      = [Out.enableIROut 36]
        ++ ([true, !command.testBit 6, decide (toggle % 2 = 1),
             system.testBit 4, system.testBit 3, system.testBit 2, system.testBit 1,
             system.testBit 0]).flatMap (fun b =>
            if b then [Out.space 889, Out.mark 889] else [Out.mark 889, Out.space 889])
        ++ [Out.space (4 * 889)]
        ++ ([command.testBit 5, command.testBit 4, command.testBit 3, command.testBit 2,
             command.testBit 1, command.testBit 0,
             extension.testBit 5, extension.testBit 4, extension.testBit 3,
             extension.testBit 2, extension.testBit 1, extension.testBit 0]).flatMap (fun b =>
            if b then [Out.space 889, Out.mark 889] else [Out.mark 889, Out.space 889])
        ++ [Out.space 0] := by
  have hb := sendRC5xData_bits toggle system command extension
  simp only [msbBits, List.range_succ, List.range_zero, List.nil_append, List.cons_append,
    List.reverse_cons, List.reverse_nil, List.map_cons, List.map_nil, List.append_assoc,
    List.cons.injEq, and_true] at hb
  obtain ⟨h19, h18, h17, h16, h15, h14, h13, h12, h11, h10, h9, h8, h7, h6, h5, h4, h3, h2,
    h1, h0⟩ := hb
  have ht : toggle.testBit 0 = decide (toggle % 2 = 1) := by
    simp [Nat.testBit_to_div_mod]
  unfold sendRC5x
  rw [sendRC5xLoop_eq _ 20 0 _ (by omega) (by intro _; decide)]
  simp only [List.range', List.flatMap_cons, List.flatMap_nil, h19, h18, h17, h16, h15, h14,
    h13, h12, h11, h10, h9, h8, h7, h6, h5, h4, h3, h2, h1, h0, ht]
  simp

/-- C5, the failing input: with `command = 128` (greater than 63) the frame
sent by `sendRC5x` has its first framing bit (bit 19) set and its second
framing bit (bit 18) set as well, not cleared. -/
theorem sendRC5x_second_bit_at_128 :
    (63 : Nat) < 128 ∧ (128 : Nat) < 256
    ∧ (sendRC5xData 0 0 128 0).testBit 19 = true
    ∧ (sendRC5xData 0 0 128 0).testBit 18 = true := by
  decide

/-! ## `encodeRC5` -/

theorem shiftLeft_or_eq (x y k : Nat) (hy : y < 2 ^ k) : (x <<< k) ||| y = x * 2 ^ k + y := by
  rw [Nat.shiftLeft_eq, Nat.mul_comm, ← Nat.mul_add_lt_is_or hy]

theorem and_31_eq_mod (x : Nat) : x &&& 0x1f = x % 32 := by
  have h : (0x1f : Nat) = 2 ^ 5 - 1 := by decide
  rw [h, Nat.and_pow_two_sub_one_eq_mod]

theorem and_63_eq_mod (x : Nat) : x &&& 0x3F = x % 64 := by
  have h : (0x3F : Nat) = 2 ^ 6 - 1 := by decide
  rw [h, Nat.and_pow_two_sub_one_eq_mod]

theorem encodeRC5_eq (address command : Nat) (key_released : Bool) :
    encodeRC5 address command key_released
      = (if key_released then 1 else 0) * 2 ^ 11 + (address % 32) * 2 ^ 6 + command % 64 := by
  unfold encodeRC5 kRC5Bits kRC5RawBits
  rw [and_31_eq_mod, and_63_eq_mod]
  have ha : address % 256 % 32 = address % 32 := Nat.mod_mod_of_dvd _ (by decide)
  have hc : command % 256 % 64 = command % 64 := Nat.mod_mod_of_dvd _ (by decide)
  rw [ha, hc]
  have h11 : ((if key_released then 1 else 0) <<< (14 - 2 - 1) : Nat)
      = 2 ^ 6 * ((if key_released then 1 else 0) * 32) := by
    rw [Nat.shiftLeft_eq]; cases key_released <;> simp
  have h6 : (address % 32) <<< 6 = 2 ^ 6 * (address % 32) := by
    rw [Nat.shiftLeft_eq, Nat.mul_comm]
  have hor : ∀ a b : Nat, b < 32 → 2 ^ 6 * (a * 32) ||| 2 ^ 6 * b = 2 ^ 6 * (a * 32 + b) := by
    intro a b hb
    have e1 : 2 ^ 6 * (a * 32) = 2 ^ 11 * a := by ring
    have h2 : 2 ^ 6 * b < 2 ^ 11 := by omega
    rw [e1, ← Nat.mul_add_lt_is_or h2]
    ring
  rw [h11, h6, hor _ _ (Nat.mod_lt _ (by decide)),
    ← Nat.mul_add_lt_is_or (show command % 64 < 2 ^ 6 from Nat.mod_lt _ (by decide))]
  have hlt : 2 ^ 6 * ((if key_released then 1 else 0) * 32 + address % 32) + command % 64
      < 2 ^ 16 := by
    have := Nat.mod_lt address (show 32 > 0 by decide)
    have := Nat.mod_lt command (show 64 > 0 by decide)
    cases key_released <;> simp <;> omega
  rw [Nat.mod_eq_of_lt hlt]
  ring

/-- C7: for every 8-bit `address` and `command` (the arguments are reduced to
8 bits on entry) and boolean toggle flag `key_released`, `encodeRC5` returns
`r = toggle * 2^11 + (address mod 32) * 2^6 + (command mod 64)`; so `r < 2^12`
and the fields are recovered as `(r >> 11) & 1 = toggle`,
`(r >> 6) & 0x1F = address & 0x1F` and `r & 0x3F = command & 0x3F`. -/
theorem encodeRC5_packing (address command : Nat) (key_released : Bool) :
    encodeRC5 address command key_released
      = (if key_released then 1 else 0) * 2 ^ 11 + (address % 32) * 2 ^ 6 + command % 64
    ∧ encodeRC5 address command key_released < 2 ^ 12
    ∧ (encodeRC5 address command key_released >>> 11) &&& 1 = (if key_released then 1 else 0)
    ∧ (encodeRC5 address command key_released >>> 6) &&& 0x1F = address &&& 0x1F
    ∧ encodeRC5 address command key_released &&& 0x3F = command &&& 0x3F := by
  have h := encodeRC5_eq address command key_released
  refine ⟨h, ?_, ?_, ?_, ?_⟩
  · rw [h]; cases key_released <;> simp <;> omega
  · rw [Nat.and_one_is_mod, Nat.shiftRight_eq_div_pow, h]
    cases key_released <;> simp <;> omega
  · rw [and_31_eq_mod, and_31_eq_mod, Nat.shiftRight_eq_div_pow, h]
    cases key_released <;> simp <;> omega
  · rw [and_63_eq_mod, and_63_eq_mod, h]
    cases key_released <;> simp <;> omega

/-! ## The quantizer -/

theorem getRClevel_past_end (E : Env) (results : decode_results) (offset used : Nat) (t1 : Int)
    (h : results.rawbuf.length ≤ offset) :
    getRClevel E results offset used t1 = (E.SPACE, offset, used) := by
  unfold getRClevel
  simp [Nat.not_lt.2 h]

theorem getRClevel_avail (E : Env) (results : decode_results) (offset used k : Nat) (t1 : Int)
    (ho : offset < results.rawbuf.length) (hk1 : 1 ≤ k) (hk3 : k ≤ 3)
    (hm : E.MATCH (results.rawbuf[offset] : Nat)
      ((k : Int) * t1 + (if offset % 2 = 1 then E.MARK_EXCESS else - E.MARK_EXCESS)) = true)
    (hn : ∀ j : Nat, 1 ≤ j → j < k → E.MATCH (results.rawbuf[offset] : Nat)
      ((j : Int) * t1 + (if offset % 2 = 1 then E.MARK_EXCESS else - E.MARK_EXCESS)) = false) :
    getRClevel E results offset used t1
      = (if offset % 2 = 1 then E.MARK else E.SPACE,
         if used + 1 ≥ k then (offset + 1, 0) else (offset, used + 1)) := by
  have hsm : E.SPACE ≠ E.MARK := fun h => E.mark_ne_space h.symm
  unfold getRClevel
  simp only [ho, dite_true]
  rcases Nat.mod_two_eq_zero_or_one offset with hpar | hpar
  · simp only [hpar] at hm hn ⊢
    simp only [show ¬ ((0 : Nat) ≠ 0) by simp, if_false, hsm, show ¬ ((0 : Nat) = 1) by decide]
      at hm hn ⊢
    have h1 := hn 1
    have h2 := hn 2
    interval_cases k <;> simp_all <;> split_ifs <;> rfl
  · simp only [hpar] at hm hn ⊢
    simp only [show ((1 : Nat) ≠ 0) by decide, if_true, ne_eq, not_false_eq_true] at hm hn ⊢
    have h1 := hn 1
    have h2 := hn 2
    interval_cases k <;> simp_all <;> split_ifs <;> rfl

theorem getRClevels_run (E : Env) (results : decode_results) (offset k : Nat) (t1 : Int)
    (ho : offset < results.rawbuf.length) (hk1 : 1 ≤ k) (hk3 : k ≤ 3)
    (hm : E.MATCH (results.rawbuf[offset] : Nat)
      ((k : Int) * t1 + (if offset % 2 = 1 then E.MARK_EXCESS else - E.MARK_EXCESS)) = true)
    (hn : ∀ j : Nat, 1 ≤ j → j < k → E.MATCH (results.rawbuf[offset] : Nat)
      ((j : Int) * t1 + (if offset % 2 = 1 then E.MARK_EXCESS else - E.MARK_EXCESS)) = false) :
    ∀ m u, u < k → u + m ≤ k →
      getRClevels E results t1 m offset u
        = (List.replicate m (if offset % 2 = 1 then E.MARK else E.SPACE),
           if u + m = k then (offset + 1, 0) else (offset, u + m)) := by
  intro m
  induction m with
  | zero =>
    intro u hlt _
    have h : ¬ u = k := by omega
    simp [getRClevels, h]
  | succ m ih =>
    intro u hlt hu
    simp only [getRClevels, getRClevel_avail E results offset u k t1 ho hk1 hk3 hm hn]
    by_cases hadv : u + 1 ≥ k
    · have hm0 : m = 0 := by omega
      subst hm0
      have : u + (0 + 1) = k := by omega
      simp [hadv, getRClevels, this]
    · simp only [hadv, if_false]
      rw [ih (u + 1) (by omega) (by omega)]
      simp [List.replicate_succ, Nat.add_assoc, Nat.add_comm 1 m]

/-- C8: for every buffer, unit `t1`, offset below `rawlen` and `k` in
`{1, 2, 3}`, if the sample at `offset` matches `k * t1 + correction`
(`correction` is `+MARK_EXCESS` at an odd offset, `-MARK_EXCESS` at an even one)
and matches no smaller multiple, then, starting with `used = 0`, the first `m`
successive `getRClevel` calls (`m ≤ k`) all return `MARK` when `offset` is odd
and `SPACE` when it is even; after `m < k` calls the cursor is `(offset, m)`,
and after the `k`-th call it is `(offset + 1, 0)`. -/
theorem getRClevel_k_levels (E : Env) (results : decode_results) (offset k : Nat) (t1 : Int)
    (ho : offset < results.rawbuf.length) (hk1 : 1 ≤ k) (hk3 : k ≤ 3)
    (hm : E.MATCH (results.rawbuf[offset] : Nat)
      ((k : Int) * t1 + (if offset % 2 = 1 then E.MARK_EXCESS else - E.MARK_EXCESS)) = true)
    (hn : ∀ j : Nat, 1 ≤ j → j < k → E.MATCH (results.rawbuf[offset] : Nat)
      ((j : Int) * t1 + (if offset % 2 = 1 then E.MARK_EXCESS else - E.MARK_EXCESS)) = false)
    (m : Nat) (hmk : m ≤ k) :
    getRClevels E results t1 m offset 0
      = (List.replicate m (if offset % 2 = 1 then E.MARK else E.SPACE),
         if m = k then (offset + 1, 0) else (offset, m)) := by
  have h := getRClevels_run E results offset k t1 ho hk1 hk3 hm hn m 0 (by omega) (by omega)
  simpa using h

/-- C8, witness: a space of two units at offset 2 yields `SPACE, SPACE` and
then the cursor moves to offset 3. -/
theorem getRClevel_k_levels_witness :
    getRClevels exampleEnv (resultsOf [0, 889, 1778, 889]) 889 2 2 0
      = ([exampleEnv.SPACE, exampleEnv.SPACE], (3, 0)) :=
  getRClevel_k_levels exampleEnv (resultsOf [0, 889, 1778, 889]) 2 2 889
    (by decide) (by decide) (by decide) (by decide) (by decide) 2 (by decide)

/-- C9: for every buffer, unit `t1` and cursor `(offset, used)` with `offset`
below `rawlen`, if the sample at `offset` matches none of `t1`, `2 * t1`,
`3 * t1` plus its bias correction, `getRClevel` returns `-1`, which is neither
`MARK` nor `SPACE`, and leaves `offset` and `used` unchanged. -/
theorem getRClevel_mismatch (E : Env) (results : decode_results) (offset used : Nat) (t1 : Int)
    (ho : offset < results.rawbuf.length)
    (h1 : E.MATCH (results.rawbuf[offset] : Nat)
      (t1 + (if offset % 2 = 1 then E.MARK_EXCESS else - E.MARK_EXCESS)) = false)
    (h2 : E.MATCH (results.rawbuf[offset] : Nat)
      (2 * t1 + (if offset % 2 = 1 then E.MARK_EXCESS else - E.MARK_EXCESS)) = false)
    (h3 : E.MATCH (results.rawbuf[offset] : Nat)
      (3 * t1 + (if offset % 2 = 1 then E.MARK_EXCESS else - E.MARK_EXCESS)) = false) :
    getRClevel E results offset used t1 = (-1, offset, used)
    ∧ (-1 : Int) ≠ E.MARK ∧ (-1 : Int) ≠ E.SPACE := by
  refine ⟨?_, fun h => E.mark_ne_err h.symm, fun h => E.space_ne_err h.symm⟩
  have hsm : E.SPACE ≠ E.MARK := fun h => E.mark_ne_space h.symm
  unfold getRClevel
  simp only [ho, dite_true]
  rcases Nat.mod_two_eq_zero_or_one offset with hpar | hpar
  · simp only [hpar] at h1 h2 h3 ⊢
    simp_all
  · simp only [hpar] at h1 h2 h3 ⊢
    simp_all

/-- C9, witness: a mark of 5000 at offset 1 with the cursor `(1, 1)`. -/
theorem getRClevel_mismatch_witness :
    getRClevel exampleEnv (resultsOf [0, 5000, 889]) 1 1 889 = (-1, 1, 1)
    ∧ (-1 : Int) ≠ exampleEnv.MARK ∧ (-1 : Int) ≠ exampleEnv.SPACE :=
  getRClevel_mismatch exampleEnv (resultsOf [0, 5000, 889]) 1 1 889
    (by decide) (by decide) (by decide) (by decide)

/-! ## `decodeRC5`: start framing -/

/-- C10: for every raw buffer, if the first three levels the quantizer yields
from offset 1 at unit `RC5_T1` are not exactly `MARK, SPACE, MARK` (a `-1`
among them included), `decodeRC5` returns false. -/
theorem decodeRC5_start_framing (E : Env) (results : decode_results)
    (h : (getRClevels E results RC5_T1 3 1 0).1 ≠ [E.MARK, E.SPACE, E.MARK]) :
    (decodeRC5 E results).1 = false := by
  simp only [getRClevels] at h
  by_cases h0 : results.rawlen < MIN_RC5_SAMPLES + 2
  · simp [decodeRC5, h0]
  by_cases h1 : (getRClevel E results 1 0 RC5_T1).1 = E.MARK
  swap
  · simp [decodeRC5, h0, h1]
  by_cases h2 : (getRClevel E results (getRClevel E results 1 0 RC5_T1).2.1
      (getRClevel E results 1 0 RC5_T1).2.2 RC5_T1).1 = E.SPACE
  swap
  · simp [decodeRC5, h0, h1, h2]
  by_cases h3 : (getRClevel E results
      (getRClevel E results (getRClevel E results 1 0 RC5_T1).2.1
        (getRClevel E results 1 0 RC5_T1).2.2 RC5_T1).2.1
      (getRClevel E results (getRClevel E results 1 0 RC5_T1).2.1
        (getRClevel E results 1 0 RC5_T1).2.2 RC5_T1).2.2 RC5_T1).1 = E.MARK
  swap
  · simp [decodeRC5, h0, h1, h2, h3]
  exfalso
  apply h
  rw [h1, h2, h3]

/-- C10, witness: a buffer of 13 samples whose third level is a mismatch. -/
theorem decodeRC5_start_framing_witness :
    (decodeRC5 exampleEnv
      (resultsOf [0, 889, 889, 5000, 889, 889, 889, 889, 889, 889, 889, 889, 889])).1 = false :=
  decodeRC5_start_framing exampleEnv
    (resultsOf [0, 889, 889, 5000, 889, 889, 889, 889, 889, 889, 889, 889, 889]) (by decide)

/-! ## Merging and trimming runs -/

theorem dropTrailingSpace_cons (x : Bool × Nat) (r : List (Bool × Nat)) :
    dropTrailingSpace (x :: r)
      = if dropTrailingSpace r = [] then (if x.1 then [x] else []) else x :: dropTrailingSpace r := by
  cases h : dropTrailingSpace r <;> simp [dropTrailingSpace, h]

theorem mergeRuns_cons (x : Bool × Nat) (r : List (Bool × Nat)) :
    mergeRuns (x :: r)
      = match mergeRuns r with
        | [] => [x]
        | y :: t => if x.1 = y.1 then (x.1, x.2 + y.2) :: t else x :: y :: t := by
  simp [mergeRuns]

theorem mergeRuns_eq_nil (s : List (Bool × Nat)) : mergeRuns s = [] ↔ s = [] := by
  cases s with
  | nil => simp [mergeRuns]
  | cons x r =>
    rw [mergeRuns_cons]
    cases mergeRuns r with
    | nil => simp
    | cons y t => by_cases h : x.1 = y.1 <;> simp [h]

theorem dropTrailingSpace_map_scale (T : Nat) (s : List (Bool × Nat)) :
    dropTrailingSpace (s.map (scaleRun T)) = (dropTrailingSpace s).map (scaleRun T) := by
  induction s with
  | nil => simp [dropTrailingSpace]
  | cons x r ih =>
    rw [List.map_cons, dropTrailingSpace_cons, dropTrailingSpace_cons, ih]
    by_cases h : dropTrailingSpace r = []
    · by_cases hx : x.1 <;> simp [h, hx, scaleRun]
    · simp [h]

theorem mergeRuns_map_scale (T : Nat) (s : List (Bool × Nat)) :
    mergeRuns (s.map (scaleRun T)) = (mergeRuns s).map (scaleRun T) := by
  induction s with
  | nil => simp [mergeRuns]
  | cons x r ih =>
    rw [List.map_cons, mergeRuns_cons, mergeRuns_cons, ih]
    cases mergeRuns r with
    | nil => simp
    | cons y t =>
      by_cases h : x.1 = y.1
      · simp [h, scaleRun, Nat.add_mul]
      · simp [h, scaleRun]

theorem chain_mergeRuns (s : List (Bool × Nat)) :
    List.Chain' (fun p q : Bool × Nat => p.1 ≠ q.1) (mergeRuns s) := by
  induction s with
  | nil => simp [mergeRuns]
  | cons x r ih =>
    rw [mergeRuns_cons]
    cases hm : mergeRuns r with
    | nil => simp
    | cons y t =>
      rw [hm] at ih
      by_cases h : x.1 = y.1
      · simp only [h, if_true]
        cases t with
        | nil => simp
        | cons z t' =>
          rw [List.chain'_cons] at ih ⊢
          exact ih
      · simp only [h, if_false]
        exact List.Chain'.cons h ih

theorem unitsOf_cons (p : Bool × Nat) (r : List (Bool × Nat)) :
    unitsOf (p :: r) = List.replicate p.2 p.1 ++ unitsOf r := by
  simp [unitsOf]

theorem unitsOf_mergeRuns (s : List (Bool × Nat)) : unitsOf (mergeRuns s) = unitsOf s := by
  induction s with
  | nil => simp [mergeRuns]
  | cons x r ih =>
    rw [mergeRuns_cons, unitsOf_cons, ← ih]
    cases mergeRuns r with
    | nil => simp [unitsOf]
    | cons y t =>
      by_cases h : x.1 = y.1
      · simp only [if_pos h]
        rw [unitsOf_cons, unitsOf_cons]
        simp only
        rw [List.replicate_add, h, List.append_assoc]
      · simp only [if_neg h]
        rw [unitsOf_cons]

theorem unitsOf_dropTrailingSpace (s : List (Bool × Nat)) :
    ∃ pad : List Bool, (∀ b ∈ pad, b = false) ∧
      unitsOf (dropTrailingSpace s) ++ pad = unitsOf s := by
  induction s with
  | nil => exact ⟨[], by simp, by simp [dropTrailingSpace]⟩
  | cons x r ih =>
    obtain ⟨pad, hpad, he⟩ := ih
    rw [dropTrailingSpace_cons]
    by_cases h : dropTrailingSpace r = []
    · rw [h] at he
      simp only [h, if_true]
      by_cases hx : x.1 = true
      · refine ⟨pad, hpad, ?_⟩
        simp only [hx, if_true]
        rw [unitsOf_cons, unitsOf_cons, ← he]
        simp [unitsOf]
      · refine ⟨List.replicate x.2 false ++ pad, ?_, ?_⟩
        · intro b hb
          rcases List.mem_append.1 hb with hb | hb
          · exact (List.mem_replicate.1 hb).2
          · exact hpad b hb
        · have hx' : x.1 = false := by simpa using hx
          simp only [hx', Bool.false_eq_true, if_false]
          rw [unitsOf_cons, ← he, hx']
          simp [unitsOf]
    · refine ⟨pad, hpad, ?_⟩
      simp only [h, if_false]
      rw [unitsOf_cons, unitsOf_cons, ← he, List.append_assoc]

theorem mem_dropTrailingSpace (s : List (Bool × Nat)) :
    ∀ p ∈ dropTrailingSpace s, p ∈ s := by
  induction s with
  | nil => simp [dropTrailingSpace]
  | cons x r ih =>
    intro p hp
    rw [dropTrailingSpace_cons] at hp
    by_cases h : dropTrailingSpace r = []
    · by_cases hx : x.1 = true
      · simp [h, hx] at hp
        simp [hp]
      · simp [h, hx] at hp
    · simp only [h, if_false, List.mem_cons] at hp
      rcases hp with hp | hp
      · simp [hp]
      · exact List.mem_cons_of_mem _ (ih p hp)

theorem pos_mergeRuns (s : List (Bool × Nat)) (hs : ∀ p ∈ s, 1 ≤ p.2) :
    ∀ p ∈ mergeRuns s, 1 ≤ p.2 := by
  induction s with
  | nil => simp [mergeRuns]
  | cons x r ih =>
    have hx : 1 ≤ x.2 := hs x (List.mem_cons_self _ _)
    have ih' := ih (fun p hp => hs p (List.mem_cons_of_mem _ hp))
    rw [mergeRuns_cons]
    cases hm : mergeRuns r with
    | nil => simpa using hx
    | cons y t =>
      rw [hm] at ih'
      intro p hp
      by_cases h : x.1 = y.1
      · simp only [h, if_true, List.mem_cons] at hp
        rcases hp with hp | hp
        · rw [hp]
          simp only
          omega
        · exact ih' p (List.mem_cons_of_mem _ hp)
      · simp only [h, if_false, List.mem_cons] at hp
        rcases hp with hp | hp | hp
        · rw [hp]; exact hx
        · rw [hp]; exact ih' y (List.mem_cons_self _ _)
        · exact ih' p (List.mem_cons_of_mem _ hp)

/-! ## The quantizer on a buffer of unit runs -/

theorem acceptsUnits_spec (E : Env) (T : Nat) (h : acceptsUnits E T = true)
    (k : Nat) (hk1 : 1 ≤ k) (hk3 : k ≤ 3) (mark : Bool) :
    E.MATCH ((k * T : Nat) : Int)
        ((k : Int) * T + (if mark then E.MARK_EXCESS else - E.MARK_EXCESS)) = true
    ∧ ∀ j : Nat, 1 ≤ j → j < k → E.MATCH ((k * T : Nat) : Int)
        ((j : Int) * T + (if mark then E.MARK_EXCESS else - E.MARK_EXCESS)) = false := by
  unfold acceptsUnits at h
  simp only [List.all_cons, List.all_nil, Bool.and_true, Bool.and_eq_true, List.all_eq_true,
    List.mem_range, Bool.or_eq_true, beq_iff_eq, Bool.not_eq_true', if_true,
    Bool.false_eq_true, if_false] at h
  obtain ⟨⟨h1t, h1f⟩, ⟨h2t, h2f⟩, ⟨h3t, h3f⟩⟩ := h
  have hk : k = 1 ∨ k = 2 ∨ k = 3 := by omega
  rcases hk with rfl | rfl | rfl
  · cases mark
    · exact ⟨h1f.1, fun j hj1 hj2 => by omega⟩
    · exact ⟨h1t.1, fun j hj1 hj2 => by omega⟩
  · cases mark
    · refine ⟨h2f.1, fun j hj1 hj2 => ?_⟩
      rcases h2f.2 j hj2 with h0 | h0
      · omega
      · exact h0
    · refine ⟨h2t.1, fun j hj1 hj2 => ?_⟩
      rcases h2t.2 j hj2 with h0 | h0
      · omega
      · exact h0
  · cases mark
    · refine ⟨h3f.1, fun j hj1 hj2 => ?_⟩
      rcases h3f.2 j hj2 with h0 | h0
      · omega
      · exact h0
    · refine ⟨h3t.1, fun j hj1 hj2 => ?_⟩
      rcases h3t.2 j hj2 with h0 | h0
      · omega
      · exact h0

theorem cursorAt_nil (T : Nat) (buf : List Nat) (o u : Nat) (h : CursorAt T buf o u []) :
    buf.length ≤ o := by
  obtain ⟨pre, runs, hbuf, hlen, _, hb, hh, hR⟩ := h
  cases runs with
  | nil =>
    simp at hbuf
    rw [hbuf]
    omega
  | cons p r =>
    exfalso
    have hu := (hh p (by simp)).2
    have hl := congrArg List.length hR
    rw [unitsOf_cons] at hl
    simp at hl
    omega

theorem cursorAt_cons_lt (T : Nat) (buf : List Nat) (o u : Nat) (l : Bool) (rest : List Bool)
    (h : CursorAt T buf o u (l :: rest)) : o < buf.length := by
  obtain ⟨pre, runs, hbuf, hlen, _, hb, hh, hR⟩ := h
  cases runs with
  | nil => simp [unitsOf] at hR
  | cons p r =>
    rw [hbuf]
    simp
    omega

theorem cursorAt_step (E : Env) (T : Nat) (hE : acceptsUnits E T = true)
    (results : decode_results) (o u : Nat) (l : Bool) (rest : List Bool)
    (h : CursorAt T results.rawbuf o u (l :: rest)) :
    ∃ o' u', getRClevel E results o u T = (levelOf E l, o', u')
      ∧ CursorAt T results.rawbuf o' u' rest := by
  obtain ⟨pre, runs, hbuf, hlen, hch, hb, hh, hR⟩ := h
  cases runs with
  | nil => simp [unitsOf] at hR
  | cons p r =>
    obtain ⟨l0, k⟩ := p
    have hk := hb (l0, k) (by simp)
    have hpar := (hh (l0, k) (by simp)).1
    have hu := (hh (l0, k) (by simp)).2
    simp only at hk hpar hu
    have ho : o < results.rawbuf.length := by
      rw [hbuf]; simp; omega
    have hget : results.rawbuf[o] = k * T := by
      exact List.getElem_of_append
        (show results.rawbuf = pre ++ (k * T) :: r.map (fun p => p.2 * T) by simpa using hbuf)
        hlen
    -- the unread levels
    rw [unitsOf_cons] at hR
    simp only at hR
    have hdrop : List.drop u (List.replicate k l0 ++ unitsOf r)
        = l0 :: (List.replicate (k - u - 1) l0 ++ unitsOf r) := by
      rw [List.drop_append_of_le_length (by simp; omega), List.drop_replicate]
      have : k - u = (k - u - 1) + 1 := by omega
      rw [this, List.replicate_succ]
      simp
    rw [hdrop] at hR
    have hl : l = l0 := (List.cons.inj hR).1
    have hrest : rest = List.replicate (k - u - 1) l0 ++ unitsOf r := (List.cons.inj hR).2
    -- the call
    have hspec := acceptsUnits_spec E T hE k hk.1 hk.2 l0
    have hcorr : (if l0 then E.MARK_EXCESS else - E.MARK_EXCESS)
        = (if o % 2 = 1 then E.MARK_EXCESS else - E.MARK_EXCESS) := by
      rw [hpar]; simp
    rw [hcorr] at hspec
    have hcall := getRClevel_avail E results o u k T ho hk.1 hk.2
      (by rw [hget]; exact hspec.1) (by intro j hj1 hj2; rw [hget]; exact hspec.2 j hj1 hj2)
    have hlev : (if o % 2 = 1 then E.MARK else E.SPACE) = levelOf E l := by
      rw [hl, hpar]; simp [levelOf]
    rw [hlev] at hcall
    by_cases hadv : u + 1 ≥ k
    · refine ⟨o + 1, 0, by simpa [hadv] using hcall, ?_⟩
      have hku : k - u - 1 = 0 := by omega
      refine ⟨pre ++ [k * T], r, by simpa using hbuf, by simp [hlen], hch.tail,
        fun p hp => hb p (List.mem_cons_of_mem _ hp), ?_, by simp [hrest, hku]⟩
      intro p hp
      cases r with
      | nil => simp at hp
      | cons q r' =>
        simp only [List.head?_cons, Option.mem_def, Option.some.injEq] at hp
        subst hp
        have hne : l0 ≠ q.1 := (List.chain'_cons.1 hch).1
        have hq := hb q (by simp)
        refine ⟨?_, by omega⟩
        rw [hpar] at hne
        rcases Nat.mod_two_eq_zero_or_one o with h0 | h0
        · have h1 : (o + 1) % 2 = 1 := by omega
          simp [h0] at hne
          simp [h1, hne]
        · have h1 : (o + 1) % 2 = 0 := by omega
          simp [h0] at hne
          simp [h1, hne]
    · refine ⟨o, u + 1, by simpa [hadv] using hcall, ?_⟩
      refine ⟨pre, (l0, k) :: r, hbuf, hlen, hch, hb, ?_, ?_⟩
      · intro p hp
        simp only [List.head?_cons, Option.mem_def, Option.some.injEq] at hp
        subst hp
        exact ⟨hpar, by simp only; omega⟩
      · rw [unitsOf_cons]
        simp only
        rw [List.drop_append_of_le_length (by simp; omega), List.drop_replicate, hrest]
        have : k - (u + 1) = k - u - 1 := by omega
        rw [this]

theorem readsFrom_step (E : Env) (T : Nat) (hE : acceptsUnits E T = true)
    (results : decode_results) (o u : Nat) (x : Bool) (U : List Bool)
    (h : ReadsFrom T results.rawbuf o u (x :: U)) :
    ∃ o' u', getRClevel E results o u T = (levelOf E x, o', u')
      ∧ ReadsFrom T results.rawbuf o' u' U := by
  obtain ⟨R, pad, hc, hpad, he⟩ := h
  cases R with
  | nil =>
    simp only [List.nil_append] at he
    subst he
    have hx : x = false := hpad x (by simp)
    refine ⟨o, u, ?_, [], U, hc, fun b hb => hpad b (List.mem_cons_of_mem _ hb), by simp⟩
    rw [getRClevel_past_end E results o u T (cursorAt_nil T _ o u hc), hx]
    simp [levelOf]
  | cons l rest =>
    simp only [List.cons_append, List.cons.injEq] at he
    obtain ⟨o', u', hcall, hc'⟩ := cursorAt_step E T hE results o u l rest hc
    exact ⟨o', u', by rw [← he.1]; exact hcall, rest, pad, hc', hpad, he.2⟩

theorem readsFrom_nil (T : Nat) (buf : List Nat) (o u : Nat) (h : ReadsFrom T buf o u []) :
    buf.length ≤ o := by
  obtain ⟨R, pad, hc, _, he⟩ := h
  have hR : R = [] := (List.append_eq_nil.1 he).1
  subst hR
  exact cursorAt_nil T buf o u hc

theorem readsFrom_lt (T : Nat) (buf : List Nat) (o u : Nat) (U : List Bool)
    (h : ReadsFrom T buf o u U) (hU : true ∈ U) : o < buf.length := by
  obtain ⟨R, pad, hc, hpad, he⟩ := h
  cases R with
  | nil =>
    exfalso
    simp only [List.nil_append] at he
    subst he
    have := hpad true hU
    simp at this
  | cons l rest => exact cursorAt_cons_lt T buf o u l rest hc

/-! ## The RC5 bit loop on a buffer of unit runs -/

theorem levelOf_true (E : Env) : levelOf E true = E.MARK := by simp [levelOf]

theorem levelOf_false (E : Env) : levelOf E false = E.SPACE := by simp [levelOf]

theorem decodeRC5Loop_bits (E : Env) (hE : acceptsUnits E RC5_T1 = true)
    (results : decode_results) :
    ∀ (bs : List Bool) (o u nbits data : Nat),
      ReadsFrom RC5_T1 results.rawbuf o u (rc5Units bs) →
      decodeRC5Loop E results o u nbits data = some (nbits + bs.length, shiftIn data bs) := by
  have hsm : E.SPACE ≠ E.MARK := fun h => E.mark_ne_space h.symm
  intro bs
  induction bs with
  | nil =>
    intro o u nbits data h
    have hlen := readsFrom_nil _ _ o u h
    rw [decodeRC5Loop]
    simp [decode_results.rawlen, Nat.not_lt.2 hlen, shiftIn]
  | cons b bs ih =>
    intro o u nbits data h
    have hU : rc5Units (b :: bs)
        = (if b then false else true) :: (if b then true else false) :: rc5Units bs := by
      cases b <;> simp [rc5Units]
    rw [hU] at h
    have hlt : o < results.rawbuf.length :=
      readsFrom_lt _ _ o u _ h (by cases b <;> simp)
    obtain ⟨o1, u1, hc1, h1⟩ := readsFrom_step E RC5_T1 hE results o u _ _ h
    obtain ⟨o2, u2, hc2, h2⟩ := readsFrom_step E RC5_T1 hE results o1 u1 _ _ h1
    have hrec := ih o2 u2 (nbits + 1)
    rw [decodeRC5Loop]
    simp only [decode_results.rawlen, hlt, dite_true, hc1, hc2]
    cases b
    · simp only [Bool.false_eq_true, if_false, levelOf_true, levelOf_false, E.mark_ne_space,
        false_and, dite_false, and_self, dite_true]
      rw [hrec _ h2]
      simp [shiftIn, Nat.add_assoc, Nat.add_comm 1]
    · simp only [if_true, levelOf_true, levelOf_false, and_self, dite_true]
      rw [hrec _ h2]
      simp [shiftIn, Nat.add_assoc, Nat.add_comm 1]

theorem shiftIn_msbBits (v : Nat) :
    ∀ (n acc : Nat), acc < 2 ^ 32 →
      shiftIn acc (msbBits v n) = (acc * 2 ^ n + v % 2 ^ n) % 2 ^ 32 := by
  intro n
  induction n with
  | zero =>
    intro acc hacc
    have h0 : shiftIn acc (msbBits v 0) = acc := by simp [shiftIn, msbBits]
    rw [h0, pow_zero, Nat.mod_one, Nat.mul_one, Nat.add_zero, Nat.mod_eq_of_lt hacc]
  | succ n ih =>
    intro acc hacc
    rw [msbBits_succ]
    have hstep : shiftIn acc (v.testBit n :: msbBits v n)
        = shiftIn ((acc * 2 + (v.testBit n).toNat) % 2 ^ 32) (msbBits v n) := by
      simp [shiftIn]
    rw [hstep, ih _ (Nat.mod_lt _ (by positivity)), Nat.toNat_testBit,
      show v % 2 ^ (n + 1) = v % 2 ^ n + 2 ^ n * (v / 2 ^ n % 2) from Nat.mod_pow_succ]
    have hmod : ((acc * 2 + v / 2 ^ n % 2) % 2 ^ 32 * 2 ^ n + v % 2 ^ n) % 2 ^ 32
        = ((acc * 2 + v / 2 ^ n % 2) * 2 ^ n + v % 2 ^ n) % 2 ^ 32 :=
      Nat.ModEq.add_right _ (Nat.ModEq.mul_right _ (Nat.mod_modEq _ _))
    rw [hmod]
    congr 1
    ring

theorem shiftIn_msbBits_zero (v n : Nat) (hn : n ≤ 32) (hv : v < 2 ^ n) :
    shiftIn 0 (msbBits v n) = v := by
  rw [shiftIn_msbBits v n 0 (by positivity), Nat.zero_mul, Nat.zero_add, Nat.mod_eq_of_lt hv]
  apply Nat.mod_eq_of_lt
  exact lt_of_lt_of_le hv (Nat.pow_le_pow_right (by norm_num) hn)

/-- The decoder on a buffer that reads as the RC5 start levels followed by the
unit levels of the bits `bs`. -/
theorem decodeRC5_of_readsFrom (E : Env) (hE : acceptsUnits E RC5_T1 = true)
    (results : decode_results) (bs : List Bool)
    (hlen : MIN_RC5_SAMPLES + 2 ≤ results.rawlen)
    (h : ReadsFrom RC5_T1 results.rawbuf 1 0 (true :: false :: true :: rc5Units bs)) :
    decodeRC5 E results
      = (true, { results with bits := bs.length, value := shiftIn 0 bs,
                              decode_type := decode_type_t.RC5 }) := by
  obtain ⟨o1, u1, hc1, h1⟩ := readsFrom_step E RC5_T1 hE results 1 0 _ _ h
  obtain ⟨o2, u2, hc2, h2⟩ := readsFrom_step E RC5_T1 hE results o1 u1 _ _ h1
  obtain ⟨o3, u3, hc3, h3⟩ := readsFrom_step E RC5_T1 hE results o2 u2 _ _ h2
  have hloop := decodeRC5Loop_bits E hE results bs o3 u3 0 0 h3
  unfold decodeRC5
  simp only [Nat.not_lt.2 hlen, if_false, hc1, hc2, hc3, levelOf_true, levelOf_false, ne_eq,
    not_true_eq_false, hloop, Nat.zero_add]

/-! ## The runs of an RC5 emission -/

theorem trimMerge_cons (x : Bool × Nat) (r : List (Bool × Nat)) :
    mergeRuns (dropTrailingSpace (x :: r)) = mergeStep x (mergeRuns (dropTrailingSpace r)) := by
  rw [dropTrailingSpace_cons]
  by_cases h : dropTrailingSpace r = []
  · by_cases hx : x.1 = true <;> simp [h, hx, mergeRuns, mergeStep]
  · simp only [h, if_false]
    rw [mergeRuns_cons]
    cases hm : mergeRuns (dropTrailingSpace r) with
    | nil => exact absurd ((mergeRuns_eq_nil _).1 hm) h
    | cons y t => simp [mergeStep]

theorem mergeStep_pair (a b : Bool) (w : Nat) (hab : a ≠ b) (F : List (Bool × Nat)) :
    mergeStep (a, w) (mergeStep (b, w) F) = (a, w) :: mergeStep (b, w) F := by
  cases F with
  | nil => cases a <;> cases b <;> simp_all [mergeStep]
  | cons y t =>
    by_cases h : b = y.1
    · simp [mergeStep, h]
      intro h'
      exact absurd (h'.trans h.symm) hab
    · simp [mergeStep, h, hab]

theorem mergeStep_bound (b : Bool) (w m : Nat) (F : List (Bool × Nat))
    (hhd : ∀ p ∈ F.head?, w + p.2 ≤ m) (hw : w ≤ m) (hF : ∀ p ∈ F, p.2 ≤ m) :
    ∀ p ∈ mergeStep (b, w) F, p.2 ≤ m := by
  cases F with
  | nil =>
    intro p hp
    cases b <;> simp [mergeStep] at hp
    rw [hp]; exact hw
  | cons y t =>
    have hy := hhd y (by simp)
    intro p hp
    by_cases h : b = y.1
    · simp only [mergeStep, h, if_true, List.mem_cons] at hp
      rcases hp with hp | hp
      · rw [hp]; exact hy
      · exact hF p (List.mem_cons_of_mem _ hp)
    · simp only [mergeStep, h, if_false, List.mem_cons] at hp
      rcases hp with hp | hp | hp
      · rw [hp]; exact hw
      · rw [hp]; exact hF y (List.mem_cons_self _ _)
      · exact hF p (List.mem_cons_of_mem _ hp)

theorem mergeStep_length (x : Bool × Nat) (F : List (Bool × Nat)) :
    F.length ≤ (mergeStep x F).length := by
  cases F with
  | nil => simp
  | cons y t => by_cases h : x.1 = y.1 <;> simp [mergeStep, h]

theorem rc5Segs_cons (b : Bool) (bs : List Bool) :
    rc5Segs (b :: bs) = (!b, 1) :: (b, 1) :: rc5Segs bs := by
  cases b <;> simp [rc5Segs]

theorem rc5_runs (bs : List Bool) :
    (∀ p ∈ (mergeRuns (dropTrailingSpace (rc5Segs bs))).head?, p.2 = 1)
    ∧ (∀ p ∈ mergeRuns (dropTrailingSpace (rc5Segs bs)), p.2 ≤ 2)
    ∧ bs.length ≤ (mergeRuns (dropTrailingSpace (rc5Segs bs))).length := by
  induction bs with
  | nil => simp [rc5Segs, dropTrailingSpace, mergeRuns]
  | cons b bs ih =>
    obtain ⟨ih1, ih2, ih3⟩ := ih
    rw [rc5Segs_cons, trimMerge_cons, trimMerge_cons, mergeStep_pair _ _ _ (by cases b <;> simp)]
    refine ⟨by simp, ?_, ?_⟩
    · intro p hp
      rcases List.mem_cons.1 hp with hp | hp
      · rw [hp]; simp
      · exact mergeStep_bound b 1 2 _
          (fun q hq => by have := ih1 q hq; omega) (by omega) ih2 p hp
    · have := mergeStep_length (b, 1) (mergeRuns (dropTrailingSpace (rc5Segs bs)))
      simp only [List.length_cons]
      omega

theorem rc5_frame_runs (bs : List Bool) :
    (∀ p ∈ mergeRuns (dropTrailingSpace ((true, 1) :: (false, 1) :: (true, 1) :: rc5Segs bs)),
      p.2 ≤ 3)
    ∧ bs.length + 2
        ≤ (mergeRuns (dropTrailingSpace
            ((true, 1) :: (false, 1) :: (true, 1) :: rc5Segs bs))).length := by
  obtain ⟨h1, h2, h3⟩ := rc5_runs bs
  rw [trimMerge_cons, trimMerge_cons, trimMerge_cons,
    mergeStep_pair _ _ _ (by simp), ]
  have hb : ∀ p ∈ mergeStep (true, 1) (mergeRuns (dropTrailingSpace (rc5Segs bs))), p.2 ≤ 3 :=
    mergeStep_bound true 1 3 _ (fun q hq => by have := h1 q hq; omega) (by omega)
      (fun q hq => by have := h2 q hq; omega)
  have hl := mergeStep_length (true, 1) (mergeRuns (dropTrailingSpace (rc5Segs bs)))
  have hne : ∃ k t, mergeStep (true, 1) (mergeRuns (dropTrailingSpace (rc5Segs bs)))
      = (true, k) :: t := by
    cases mergeRuns (dropTrailingSpace (rc5Segs bs)) with
    | nil => exact ⟨1, [], by simp [mergeStep]⟩
    | cons y t =>
      by_cases h : true = y.1
      · exact ⟨1 + y.2, t, by simp [mergeStep, h]⟩
      · exact ⟨1, y :: t, by simp [mergeStep, h]⟩
  obtain ⟨k, t, hkt⟩ := hne
  rw [hkt] at hb hl ⊢
  constructor
  · intro p hp
    simp only [mergeStep, Bool.false_eq_true, if_false, List.mem_cons] at hp
    rcases hp with hp | hp | hp | hp
    · rw [hp]; simp
    · rw [hp]; simp
    · rw [hp]; exact hb _ (List.mem_cons_self _ _)
    · exact hb p (List.mem_cons_of_mem _ hp)
  · simp only [mergeStep, Bool.false_eq_true, if_false, List.length_cons] at hl ⊢
    omega

/-! ## From an emission to the captured buffer -/

theorem readsFrom_runs (T : Nat) (pre : List Nat) (hpre : pre.length % 2 = 1)
    (k0 : Nat) (r : List (Bool × Nat))
    (hpos : ∀ p ∈ (true, k0) :: r, 1 ≤ p.2)
    (hub : ∀ p ∈ mergeRuns (dropTrailingSpace ((true, k0) :: r)), p.2 ≤ 3) :
    ReadsFrom T
      (pre ++ (mergeRuns (dropTrailingSpace (((true, k0) :: r).map (scaleRun T)))).map Prod.snd)
      pre.length 0 (unitsOf ((true, k0) :: r)) := by
  obtain ⟨pad, hpad, hunits⟩ := unitsOf_dropTrailingSpace ((true, k0) :: r)
  rw [← unitsOf_mergeRuns] at hunits
  refine ⟨_, pad, ?_, hpad, hunits⟩
  refine ⟨pre, mergeRuns (dropTrailingSpace ((true, k0) :: r)), ?_, rfl, chain_mergeRuns _, ?_,
    ?_, by simp⟩
  · rw [dropTrailingSpace_map_scale, mergeRuns_map_scale, List.map_map]
    rfl
  · intro p hp
    exact ⟨pos_mergeRuns _ (fun q hq => hpos q (mem_dropTrailingSpace _ q hq)) p hp, hub p hp⟩
  · intro p hp
    have hp1 : 1 ≤ p.2 := by
      apply pos_mergeRuns _ (fun q hq => hpos q (mem_dropTrailingSpace _ q hq)) p
      exact List.mem_of_mem_head? hp
    refine ⟨?_, by omega⟩
    rw [trimMerge_cons] at hp
    simp only [hpre, decide_True]
    cases hF : mergeRuns (dropTrailingSpace r) with
    | nil =>
      rw [hF] at hp
      simp [mergeStep] at hp
      rw [← hp]
    | cons y t =>
      rw [hF] at hp
      by_cases h : true = y.1
      · simp [mergeStep, h] at hp
        rw [← hp]
        exact h.symm
      · simp [mergeStep, h] at hp
        rw [← hp]

theorem segments_append (a b : List Out) : segments (a ++ b) = segments a ++ segments b := by
  induction a with
  | nil => simp [segments]
  | cons x r ih => cases x <;> simp [segments, ih]

theorem segments_rc5_bits (bs : List Bool) :
    segments (bs.flatMap (fun b =>
        if b then [Out.space 889, Out.mark 889] else [Out.mark 889, Out.space 889]))
      = (rc5Segs bs).map (scaleRun 889) := by
  induction bs with
  | nil => simp [segments, rc5Segs]
  | cons b bs ih =>
    rw [List.flatMap_cons, segments_append, ih, rc5Segs_cons]
    cases b <;> simp [segments, scaleRun]

theorem filter_scaled (T : Nat) (hT : 0 < T) (s : List (Bool × Nat)) (hs : ∀ p ∈ s, 1 ≤ p.2) :
    ((s.map (scaleRun T)) ++ [(false, 0)]).filter (fun p => p.2 ≠ 0) = s.map (scaleRun T) := by
  rw [List.filter_append]
  have h1 : (s.map (scaleRun T)).filter (fun p => p.2 ≠ 0) = s.map (scaleRun T) := by
    apply List.filter_eq_self.2
    intro p hp
    obtain ⟨q, hq, rfl⟩ := List.mem_map.1 hp
    have := hs q hq
    have : 0 < q.2 * T := Nat.mul_pos (by omega) hT
    simp [scaleRun]
    omega
  rw [h1]
  simp

theorem rc5Segs_pos (bs : List Bool) : ∀ p ∈ rc5Segs bs, 1 ≤ p.2 := by
  induction bs with
  | nil => simp [rc5Segs]
  | cons b bs ih =>
    rw [rc5Segs_cons]
    intro p hp
    simp only [List.mem_cons] at hp
    rcases hp with hp | hp | hp
    · rw [hp]
    · rw [hp]
    · exact ih p hp

theorem unitsOf_rc5Segs (bs : List Bool) : unitsOf (rc5Segs bs) = rc5Units bs := by
  induction bs with
  | nil => simp [rc5Segs, rc5Units, unitsOf]
  | cons b bs ih =>
    rw [rc5Segs_cons, unitsOf_cons, unitsOf_cons, ih]
    cases b <;> simp [rc5Units]

theorem capture_sendRC5 (gap v n : Nat) (h1 : 1 ≤ n) (h32 : n ≤ 32) :
    capture gap (sendRC5 v n)
      = [gap] ++ (mergeRuns (dropTrailingSpace
          (((true, 1) :: (false, 1) :: (true, 1) :: rc5Segs (msbBits v n)).map
            (scaleRun 889)))).map Prod.snd := by
  have hseg : segments (sendRC5 v n)
      = (((true, 1) :: (false, 1) :: (true, 1) :: rc5Segs (msbBits v n)).map (scaleRun 889))
        ++ [(false, 0)] := by
    rw [sendRC5_eq v n h1 h32, segments_append, segments_append, segments_rc5_bits]
    simp [segments, scaleRun]
  unfold capture
  rw [hseg, filter_scaled 889 (by decide) _ (by
    intro p hp
    simp only [List.mem_cons] at hp
    rcases hp with hp | hp | hp | hp
    · rw [hp]
    · rw [hp]
    · rw [hp]
    · exact rc5Segs_pos _ p hp)]
  simp [scaleRun]

theorem readsFrom_capture_sendRC5 (gap v n : Nat) (h1 : 1 ≤ n) (h32 : n ≤ 32) :
    ReadsFrom RC5_T1 (capture gap (sendRC5 v n)) 1 0
      (true :: false :: true :: rc5Units (msbBits v n)) := by
  have h := readsFrom_runs 889 [gap] (by simp) 1 ((false, 1) :: (true, 1) :: rc5Segs (msbBits v n))
    (by
      intro p hp
      simp only [List.mem_cons] at hp
      rcases hp with hp | hp | hp | hp
      · rw [hp]
      · rw [hp]
      · rw [hp]
      · exact rc5Segs_pos _ p hp)
    (rc5_frame_runs (msbBits v n)).1
  rw [← capture_sendRC5 gap v n h1 h32] at h
  simpa [unitsOf_cons, unitsOf_rc5Segs, RC5_T1] using h

theorem length_capture_sendRC5 (gap v n : Nat) (h1 : 1 ≤ n) (h32 : n ≤ 32) :
    n + 3 ≤ (capture gap (sendRC5 v n)).length := by
  rw [capture_sendRC5 gap v n h1 h32, dropTrailingSpace_map_scale, mergeRuns_map_scale]
  have h := (rc5_frame_runs (msbBits v n)).2
  rw [length_msbBits] at h
  simp only [List.length_append, List.length_map, List.length_cons, List.length_nil]
  omega

/-- C1 (amended): for every width `n` in `1 .. 20` and value `v < 2 ^ n`, with a
match predicate that accepts a captured interval of `k` units (`k` in `1 .. 3`)
against the target `k * RC5_T1` with bias and against no smaller multiple:
when the capture of `sendRC5 v n` holds at least `MIN_RC5_SAMPLES + 2 = 13`
entries, `decodeRC5` returns true with `bits = n`, `value = v` and
`decode_type = RC5`; when it holds fewer, `decodeRC5` returns false and leaves
the result record alone; and for `n ≥ 10` the capture always holds at least 13
entries. -/
theorem decodeRC5_roundtrip (E : Env) (results : decode_results) (gap v n : Nat)
    (hE : acceptsUnits E RC5_T1 = true) (hn1 : 1 ≤ n) (hn20 : n ≤ 20) (hv : v < 2 ^ n)
    (hbuf : results.rawbuf = capture gap (sendRC5 v n)) :
    (MIN_RC5_SAMPLES + 2 ≤ results.rawlen →
      decodeRC5 E results
        = (true, { results with bits := n, value := v, decode_type := decode_type_t.RC5 }))
    ∧ (results.rawlen < MIN_RC5_SAMPLES + 2 → decodeRC5 E results = (false, results))
    ∧ (10 ≤ n → MIN_RC5_SAMPLES + 2 ≤ results.rawlen) := by
  refine ⟨fun hlen => ?_, fun hlen => ?_, fun h10 => ?_⟩
  · have hr := readsFrom_capture_sendRC5 gap v n hn1 (by omega)
    rw [← hbuf] at hr
    rw [decodeRC5_of_readsFrom E hE results (msbBits v n) hlen hr, length_msbBits,
      shiftIn_msbBits_zero v n (by omega) hv]
  · simp [decodeRC5, hlen]
  · have := length_capture_sendRC5 gap v n hn1 (by omega)
    rw [← hbuf] at this
    simp only [decode_results.rawlen, MIN_RC5_SAMPLES]
    omega

/-- C1, witness: the 12-bit value `0x5A5` is sent, captured and decoded. -/
theorem decodeRC5_roundtrip_witness :
    decodeRC5 exampleEnv (resultsOf (capture 0 (sendRC5 0x5A5 12)))
      = (true, { resultsOf (capture 0 (sendRC5 0x5A5 12)) with
                  bits := 12, value := 0x5A5, decode_type := decode_type_t.RC5 }) :=
  (decodeRC5_roundtrip exampleEnv (resultsOf (capture 0 (sendRC5 0x5A5 12))) 0 0x5A5 12
      (by decide) (by decide) (by decide) (by decide) rfl).1
    ((decodeRC5_roundtrip exampleEnv (resultsOf (capture 0 (sendRC5 0x5A5 12))) 0 0x5A5 12
      (by decide) (by decide) (by decide) (by decide) rfl).2.2 (by decide))

/-- C1, counterexample: the 5-bit value `0b10101` is in range and the match
predicate accepts unit multiples, yet the capture of `sendRC5 0b10101 5` has
only 10 entries and `decodeRC5` returns false. -/
theorem decodeRC5_roundtrip_fails_short :
    acceptsUnits exampleEnv RC5_T1 = true ∧ 1 ≤ 5 ∧ 5 ≤ 20 ∧ 0b10101 < 2 ^ 5
    ∧ (capture 0 (sendRC5 0b10101 5)).length = 10
    ∧ (decodeRC5 exampleEnv (resultsOf (capture 0 (sendRC5 0b10101 5)))).1 = false := by
  rw [sendRC5_eq 0b10101 5 (by decide) (by decide)]
  decide

/-! ## The RC6 bit loop on a buffer of unit runs -/

theorem rc6Units_has_mark (j : Nat) (b : Bool) (bs : List Bool) :
    true ∈ rc6Units j (b :: bs) := by
  by_cases hj : j = 3 <;> cases b <;> simp [rc6Units, hj]

theorem decodeRC6Loop_bits (E : Env) (hE : acceptsUnits E RC6_T1 = true)
    (results : decode_results) :
    ∀ (bs : List Bool) (o u nbits data : Nat),
      ReadsFrom RC6_T1 results.rawbuf o u (rc6Units nbits bs) →
      decodeRC6Loop E results o u nbits data = some (nbits + bs.length, shiftIn data bs) := by
  have hsm : E.SPACE ≠ E.MARK := fun h => E.mark_ne_space h.symm
  intro bs
  induction bs with
  | nil =>
    intro o u nbits data h
    have hlen := readsFrom_nil _ _ o u h
    rw [decodeRC6Loop]
    simp [decode_results.rawlen, Nat.not_lt.2 hlen, shiftIn]
  | cons b bs ih =>
    intro o u nbits data h
    have hlt : o < results.rawbuf.length :=
      readsFrom_lt _ _ o u _ h (rc6Units_has_mark nbits b bs)
    by_cases h3 : nbits = 3
    · subst h3
      have hU : rc6Units 3 (b :: bs) = b :: b :: (!b) :: (!b) :: rc6Units (3 + 1) bs := by
        simp [rc6Units]
      rw [hU] at h
      obtain ⟨o1, u1, hc1, h1⟩ := readsFrom_step E RC6_T1 hE results o u _ _ h
      obtain ⟨o2, u2, hc2, h2⟩ := readsFrom_step E RC6_T1 hE results o1 u1 _ _ h1
      obtain ⟨o3, u3, hc3, h3'⟩ := readsFrom_step E RC6_T1 hE results o2 u2 _ _ h2
      obtain ⟨o4, u4, hc4, h4⟩ := readsFrom_step E RC6_T1 hE results o3 u3 _ _ h3'
      have hrec := ih o4 u4 (3 + 1)
      rw [decodeRC6Loop]
      simp only [decode_results.rawlen, hlt, dite_true, if_true, true_and, hc1, hc2, hc3, hc4,
        ne_eq, not_true_eq_false, and_false, dite_false]
      cases b
      · simp only [Bool.not_false, levelOf_true, levelOf_false, hsm, false_and, dite_false,
          and_self, dite_true]
        rw [hrec _ h4]
        simp [shiftIn]
        try omega
      · simp only [Bool.not_true, levelOf_true, levelOf_false, and_self, dite_true]
        rw [hrec _ h4]
        simp [shiftIn]
        try omega
    · have hU : rc6Units nbits (b :: bs) = b :: (!b) :: rc6Units (nbits + 1) bs := by
        simp [rc6Units, h3]
      rw [hU] at h
      obtain ⟨o1, u1, hc1, h1⟩ := readsFrom_step E RC6_T1 hE results o u _ _ h
      obtain ⟨o2, u2, hc2, h2⟩ := readsFrom_step E RC6_T1 hE results o1 u1 _ _ h1
      have hrec := ih o2 u2 (nbits + 1)
      rw [decodeRC6Loop]
      simp only [decode_results.rawlen, hlt, dite_true, h3, if_false, false_and, dite_false,
        hc1, hc2]
      cases b
      · simp only [Bool.not_false, levelOf_true, levelOf_false, hsm, false_and, dite_false,
          and_self, dite_true]
        rw [hrec _ h2]
        simp [shiftIn]
        try omega
      · simp only [Bool.not_true, levelOf_true, levelOf_false, and_self, dite_true]
        rw [hrec _ h2]
        simp [shiftIn]
        try omega

/-! ## The runs of an RC6 emission -/

theorem rc6_runs (bs : List Bool) :
    ∀ j, (∀ p ∈ (mergeRuns (dropTrailingSpace (rc6Segs j bs))).head?,
            p.2 = if j = 3 then 2 else 1)
      ∧ (∀ p ∈ mergeRuns (dropTrailingSpace (rc6Segs j bs)), p.2 ≤ 3) := by
  induction bs with
  | nil =>
    intro j
    simp [rc6Segs, dropTrailingSpace, mergeRuns]
  | cons b bs ih =>
    intro j
    obtain ⟨ih1, ih2⟩ := ih (j + 1)
    rw [rc6Segs, trimMerge_cons, trimMerge_cons, mergeStep_pair _ _ _ (by cases b <;> simp)]
    refine ⟨by simp, ?_⟩
    intro p hp
    rcases List.mem_cons.1 hp with hp | hp
    · rw [hp]
      simp only
      split_ifs <;> omega
    · refine mergeStep_bound (!b) _ 3 _ (fun q hq => ?_) (by split_ifs <;> omega) ih2 p hp
      have := ih1 q hq
      rw [this]
      split_ifs <;> omega

theorem mergeStep_true (k : Nat) (F : List (Bool × Nat)) :
    ∃ k' t, mergeStep (true, k) F = (true, k') :: t := by
  cases F with
  | nil => exact ⟨k, [], by simp [mergeStep]⟩
  | cons y t =>
    by_cases h : true = y.1
    · exact ⟨k + y.2, t, by simp [mergeStep, h]⟩
    · exact ⟨k, y :: t, by simp [mergeStep, h]⟩

theorem rc6_frame_runs (bs : List Bool) :
    ∀ p ∈ mergeRuns (dropTrailingSpace ((true, 1) :: (false, 1) :: rc6Segs 0 bs)), p.2 ≤ 3 := by
  obtain ⟨h1, h2⟩ := rc6_runs bs 0
  rw [trimMerge_cons, trimMerge_cons, mergeStep_pair _ _ _ (by simp)]
  intro p hp
  rcases List.mem_cons.1 hp with hp | hp
  · rw [hp]; simp
  · exact mergeStep_bound false 1 3 _
      (fun q hq => by have := h1 q hq; simp at this; omega) (by omega) h2 p hp

theorem rc6Segs_pos (bs : List Bool) : ∀ j, ∀ p ∈ rc6Segs j bs, 1 ≤ p.2 := by
  induction bs with
  | nil => simp [rc6Segs]
  | cons b bs ih =>
    intro j p hp
    simp only [rc6Segs, List.mem_cons] at hp
    rcases hp with hp | hp | hp
    · rw [hp]; simp only; split_ifs <;> omega
    · rw [hp]; simp only; split_ifs <;> omega
    · exact ih (j + 1) p hp

theorem unitsOf_rc6Segs (bs : List Bool) : ∀ j, unitsOf (rc6Segs j bs) = rc6Units j bs := by
  induction bs with
  | nil => simp [rc6Segs, rc6Units, unitsOf]
  | cons b bs ih =>
    intro j
    rw [rc6Segs, unitsOf_cons, unitsOf_cons, ih]
    by_cases hj : j = 3 <;> simp [rc6Units, hj, List.replicate]

theorem segments_sendRC6Loop (d k : Nat) :
    ∀ j, j + k + 2 < 2 ^ 32 →
      segments (sendRC6Loop d (j + 1) (2 ^ k))
        = (rc6Segs j (msbBits d (k + 1))).map (scaleRun 444) := by
  induction k with
  | zero =>
    intro j _
    rw [sendRC6Loop_step, msbBits_succ]
    have h0 : (2 ^ 0) >>> 1 = 0 := by decide
    rw [h0, sendRC6Loop_zero]
    by_cases hj : j = 3 <;> cases d.testBit 0 <;>
      simp [msbBits, rc6Segs, segments, scaleRun, hj]
  | succ k ih =>
    intro j hj
    rw [sendRC6Loop_step, two_pow_shiftRight_one, Nat.mod_eq_of_lt (by omega), segments_append,
      ih (j + 1) (by omega), msbBits_succ d (k + 1)]
    by_cases hj3 : j = 3 <;> cases d.testBit (k + 1) <;>
      simp [rc6Segs, segments, scaleRun, hj3]

theorem capture_sendRC6 (gap v n : Nat) (h1 : 1 ≤ n) (h32 : n ≤ 32) :
    capture gap (sendRC6 v n)
      = [gap, 2666, 889] ++ (mergeRuns (dropTrailingSpace
          (((true, 1) :: (false, 1) :: rc6Segs 0 (msbBits v n)).map (scaleRun 444)))).map
            Prod.snd := by
  obtain ⟨k, rfl⟩ : ∃ k, n = k + 1 := ⟨n - 1, by omega⟩
  have hpos : ∀ p ∈ (true, 1) :: (false, 1) :: rc6Segs 0 (msbBits v (k + 1)), 1 ≤ p.2 := by
    intro p hp
    simp only [List.mem_cons] at hp
    rcases hp with hp | hp | hp
    · rw [hp]
    · rw [hp]
    · exact rc6Segs_pos _ 0 p hp
  have hseg : segments (sendRC6 v (k + 1))
      = (true, 2666) :: (false, 889)
        :: ((((true, 1) :: (false, 1) :: rc6Segs 0 (msbBits v (k + 1))).map (scaleRun 444))
          ++ [(false, 0)]) := by
    unfold sendRC6
    rw [one_shiftLeft_mod (k + 1) h1 h32]
    simp only [Nat.add_sub_cancel]
    rw [segments_append, segments_append, segments_sendRC6Loop _ _ 0 (by omega),
      msbBits_mod _ _ h32]
    simp [segments, scaleRun, RC6_HDR_MARK, RC6_HDR_SPACE, RC6_T1]
  unfold capture
  rw [hseg]
  have hf : ((true, 2666) :: (false, 889)
        :: ((((true, 1) :: (false, 1) :: rc6Segs 0 (msbBits v (k + 1))).map (scaleRun 444))
          ++ [(false, 0)])).filter (fun p => p.2 ≠ 0)
      = (true, 2666) :: (false, 889)
        :: (((true, 1) :: (false, 1) :: rc6Segs 0 (msbBits v (k + 1))).map (scaleRun 444)) := by
    rw [List.filter_cons_of_pos (by simp), List.filter_cons_of_pos (by simp),
      filter_scaled 444 (by decide) _ hpos]
  rw [hf]
  simp only [List.dropWhile_cons_of_neg, Bool.not_true, Bool.false_eq_true, not_false_eq_true]
  rw [trimMerge_cons, trimMerge_cons]
  rw [List.map_cons, trimMerge_cons]
  obtain ⟨k', t, hkt⟩ := mergeStep_true (scaleRun 444 (true, 1)).2
    (mergeRuns (dropTrailingSpace
      (List.map (scaleRun 444) ((false, 1) :: rc6Segs 0 (msbBits v (k + 1))))))
  have hs : scaleRun 444 (true, 1) = (true, (scaleRun 444 (true, 1)).2) := rfl
  rw [hs, hkt]
  simp [mergeStep]

theorem readsFrom_capture_sendRC6 (gap v n : Nat) (h1 : 1 ≤ n) (h32 : n ≤ 32) :
    ReadsFrom RC6_T1 (capture gap (sendRC6 v n)) 3 0
      (true :: false :: rc6Units 0 (msbBits v n)) := by
  have h := readsFrom_runs 444 [gap, 2666, 889] (by simp) 1
    ((false, 1) :: rc6Segs 0 (msbBits v n))
    (by
      intro p hp
      simp only [List.mem_cons] at hp
      rcases hp with hp | hp | hp
      · rw [hp]
      · rw [hp]
      · exact rc6Segs_pos _ 0 p hp)
    (rc6_frame_runs (msbBits v n))
  rw [← capture_sendRC6 gap v n h1 h32] at h
  simpa [unitsOf_cons, unitsOf_rc6Segs, RC6_T1] using h

/-- The decoder on a buffer with the RC6 header at indices 1 and 2 that reads,
from index 3, as the start bit followed by the unit levels of the bits `bs`. -/
theorem decodeRC6_of_readsFrom (E : Env) (hE : acceptsUnits E RC6_T1 = true)
    (hM : E.MATCH_MARK 2666 2666 = true) (hS : E.MATCH_SPACE 889 889 = true)
    (results : decode_results) (bs : List Bool)
    (h1 : results.rawbuf[1]? = some 2666) (h2 : results.rawbuf[2]? = some 889)
    (h : ReadsFrom RC6_T1 results.rawbuf 3 0 (true :: false :: rc6Units 0 bs)) :
    decodeRC6 E results
      = some (true, { results with bits := bs.length, value := shiftIn 0 bs,
                                   decode_type := decode_type_t.RC6 }) := by
  obtain ⟨o1, u1, hc1, hr1⟩ := readsFrom_step E RC6_T1 hE results 3 0 _ _ h
  obtain ⟨o2, u2, hc2, hr2⟩ := readsFrom_step E RC6_T1 hE results o1 u1 _ _ hr1
  have hloop := decodeRC6Loop_bits E hE results bs o2 u2 0 0 hr2
  have hlen : ¬ results.rawlen < MIN_RC6_SAMPLES := by
    have : 1 < results.rawbuf.length := by
      by_contra hc
      rw [List.getElem?_eq_none (by omega)] at h1
      exact absurd h1 (by simp)
    simp only [decode_results.rawlen, MIN_RC6_SAMPLES]
    omega
  unfold decodeRC6
  simp only [hlen, if_false, h1, h2, RC6_HDR_MARK, RC6_HDR_SPACE, Nat.cast_ofNat, hM, hS,
    Bool.not_true, Bool.false_eq_true, hc1, hc2, levelOf_true, levelOf_false, ne_eq,
    not_true_eq_false, hloop, Nat.zero_add]

/-- C2: for every width `n` in `1 .. 20` and value `v < 2 ^ n`, with a match
predicate that accepts the header mark 2666 and the header space 889 and
accepts a captured interval of `k` units (`k` in `1 .. 3`) against the target
`k * RC6_T1` with bias and against no smaller multiple, `decodeRC6` applied to
the capture of `sendRC6 v n` returns true with `bits = n`, `value = v` and
`decode_type = RC6`; the double-width bit counts as one bit. -/
theorem decodeRC6_roundtrip (E : Env) (results : decode_results) (gap v n : Nat)
    (hE : acceptsUnits E RC6_T1 = true)
    (hM : E.MATCH_MARK 2666 2666 = true) (hS : E.MATCH_SPACE 889 889 = true)
    (hn1 : 1 ≤ n) (hn20 : n ≤ 20) (hv : v < 2 ^ n)
    (hbuf : results.rawbuf = capture gap (sendRC6 v n)) :
    decodeRC6 E results
      = some (true, { results with bits := n, value := v,
                                   decode_type := decode_type_t.RC6 }) := by
  have hr := readsFrom_capture_sendRC6 gap v n hn1 (by omega)
  have hc := capture_sendRC6 gap v n hn1 (by omega)
  rw [← hbuf] at hr hc
  rw [decodeRC6_of_readsFrom E hE hM hS results (msbBits v n) (by rw [hc]; simp)
    (by rw [hc]; simp) hr, length_msbBits, shiftIn_msbBits_zero v n (by omega) hv]

/-- C2, witness: the 6-bit value `0b100110`, whose fourth bit is sent at double
width, is sent, captured and decoded. -/
theorem decodeRC6_roundtrip_witness :
    decodeRC6 exampleEnv (resultsOf (capture 0 (sendRC6 0b100110 6)))
      = some (true, { resultsOf (capture 0 (sendRC6 0b100110 6)) with
                        bits := 6, value := 0b100110, decode_type := decode_type_t.RC6 }) :=
  decodeRC6_roundtrip exampleEnv (resultsOf (capture 0 (sendRC6 0b100110 6))) 0 0b100110 6
    (by decide) (by decide) (by decide) (by decide) (by decide) (by decide) rfl

/-! ## `decodeRC5`: minimum sample count -/

/-- C11: for every raw buffer whose length `rawlen` is less than
`MIN_RC5_SAMPLES + 2 = 13`, `decodeRC5` returns false at once, whatever the
buffer contains and whatever the match predicate is (the quantizer is not
consulted), and leaves the result record alone. -/
theorem decodeRC5_min_samples (E : Env) (results : decode_results)
    (h : results.rawlen < MIN_RC5_SAMPLES + 2) :
    MIN_RC5_SAMPLES + 2 = 13 ∧ decodeRC5 E results = (false, results) := by
  refine ⟨rfl, ?_⟩
  simp [decodeRC5, h]

/-- C11, witness: twelve samples that would otherwise read as a valid start. -/
theorem decodeRC5_min_samples_witness :
    MIN_RC5_SAMPLES + 2 = 13
    ∧ decodeRC5 exampleEnv
        (resultsOf [0, 889, 889, 889, 889, 889, 889, 889, 889, 889, 889, 889])
      = (false, resultsOf [0, 889, 889, 889, 889, 889, 889, 889, 889, 889, 889, 889]) :=
  decodeRC5_min_samples exampleEnv
    (resultsOf [0, 889, 889, 889, 889, 889, 889, 889, 889, 889, 889, 889]) (by decide)

/-! ## The quantizer past the end of the buffer -/

theorem getRClevels_past_end (E : Env) (results : decode_results) (offset used : Nat) (t1 : Int)
    (h : results.rawbuf.length ≤ offset) :
    ∀ n, getRClevels E results t1 n offset used = (List.replicate n E.SPACE, offset, used) := by
  intro n
  induction n with
  | zero => simp [getRClevels]
  | succ n ih =>
    simp only [getRClevels, getRClevel_past_end E results offset used t1 h, ih,
      List.replicate_succ]

/-- C16: for every buffer, unit `t1` and cursor `(offset, used)` with `offset`
not below `rawlen`, `getRClevel` returns `SPACE` and leaves `offset` and `used`
unchanged, whatever the buffer and the match predicate are; so any number of
further calls return `SPACE` again, never the mismatch value `-1`. -/
theorem getRClevel_sentinel (E : Env) (results : decode_results) (offset used : Nat) (t1 : Int)
    (h : results.rawlen ≤ offset) :
    getRClevel E results offset used t1 = (E.SPACE, offset, used)
    ∧ (∀ n, getRClevels E results t1 n offset used = (List.replicate n E.SPACE, offset, used))
    ∧ E.SPACE ≠ -1 :=
  ⟨getRClevel_past_end E results offset used t1 h,
    getRClevels_past_end E results offset used t1 h, E.space_ne_err⟩

/-- C16, witness: a buffer of two samples and the cursor `(2, 1)`. -/
theorem getRClevel_sentinel_witness :
    getRClevel exampleEnv (resultsOf [0, 889]) 2 1 889 = (exampleEnv.SPACE, 2, 1)
    ∧ (∀ n, getRClevels exampleEnv (resultsOf [0, 889]) 889 n 2 1
        = (List.replicate n exampleEnv.SPACE, 2, 1))
    ∧ exampleEnv.SPACE ≠ -1 :=
  getRClevel_sentinel exampleEnv (resultsOf [0, 889]) 2 1 889 (by decide)

/-! ## `decodeRC6`: reads of the header -/

/-- C19, the failing inputs: a buffer of one sample has
`rawlen = 1 ≥ MIN_RC6_SAMPLES`, yet `decodeRC6` reads `rawbuf[1]`, outside the
recorded samples; a buffer of two samples whose mark passes the header check
makes it read `rawbuf[2]`. -/
theorem decodeRC6_reads_past_rawlen :
    MIN_RC6_SAMPLES ≤ (resultsOf [0]).rawlen
    ∧ decodeRC6 exampleEnv (resultsOf [0]) = none
    ∧ MIN_RC6_SAMPLES ≤ (resultsOf [0, 2666]).rawlen
    ∧ decodeRC6 exampleEnv (resultsOf [0, 2666]) = none := by
  decide

/-! ## The bit loops as iterated passes -/

theorem decodeRC5Loop_unfold (E : Env) (results : decode_results) (o u n d : Nat) :
    decodeRC5Loop E results o u n d
      = if o < results.rawlen then
          match decodeRC5Body E results o u n d with
          | none => none
          | some s => decodeRC5Loop E results s.1 s.2.1 s.2.2.1 s.2.2.2
        else some (n, d) := by
  rw [decodeRC5Loop]
  by_cases h : o < results.rawlen
  · simp only [h, dite_true, if_true, decodeRC5Body]
    split_ifs <;> rfl
  · simp [h]

theorem decodeRC6Loop_unfold (E : Env) (results : decode_results) (o u n d : Nat) :
    decodeRC6Loop E results o u n d
      = if o < results.rawlen then
          match decodeRC6Body E results o u n d with
          | none => none
          | some s => decodeRC6Loop E results s.1 s.2.1 s.2.2.1 s.2.2.2
        else some (n, d) := by
  rw [decodeRC6Loop]
  by_cases h : o < results.rawlen
  · simp only [h, dite_true, if_true, decodeRC6Body]
    split_ifs <;> rfl
  · simp [h]

theorem matchedUnits_bound (E : Env) (results : decode_results) (t1 : Int) (o a : Nat)
    (h : matchedUnits E results t1 o = some a) : o < results.rawbuf.length ∧ 1 ≤ a ∧ a ≤ 3 := by
  unfold matchedUnits at h
  by_cases ho : o < results.rawbuf.length
  · simp only [ho, dite_true] at h
    refine ⟨ho, ?_⟩
    split_ifs at h <;> simp at h <;> omega
  · simp [ho] at h

theorem getRClevel_eq (E : Env) (results : decode_results) (o u : Nat) (t1 : Int) :
    getRClevel E results o u t1
      = if o < results.rawbuf.length then
          match matchedUnits E results t1 o with
          | none => (-1, o, u)
          | some a =>
            if u + 1 ≥ a then (if o % 2 ≠ 0 then E.MARK else E.SPACE, o + 1, 0)
            else (if o % 2 ≠ 0 then E.MARK else E.SPACE, o, u + 1)
        else (E.SPACE, o, u) := by
  unfold getRClevel matchedUnits
  by_cases ho : o < results.rawbuf.length
  · simp only [ho, dite_true, if_true]
  · simp [ho]

theorem getRClevel_matched (E : Env) (results : decode_results) (o u a : Nat) (t1 : Int)
    (h : matchedUnits E results t1 o = some a) :
    getRClevel E results o u t1
      = (if o % 2 ≠ 0 then E.MARK else E.SPACE,
         if u + 1 ≥ a then (o + 1, 0) else (o, u + 1)) := by
  have hb := matchedUnits_bound E results t1 o a h
  rw [getRClevel_eq]
  simp only [hb.1, if_true, h]
  split_ifs <;> rfl

theorem getRClevel_unmatched (E : Env) (results : decode_results) (o u : Nat) (t1 : Int)
    (ho : o < results.rawbuf.length) (h : matchedUnits E results t1 o = none) :
    getRClevel E results o u t1 = (-1, o, u) := by
  rw [getRClevel_eq]
  simp only [ho, if_true, h]

theorem getRClevel_ne_err (E : Env) (results : decode_results) (o u : Nat) (t1 : Int)
    (ho : o < results.rawbuf.length) (h : (getRClevel E results o u t1).1 ≠ -1) :
    ∃ a, matchedUnits E results t1 o = some a := by
  cases hm : matchedUnits E results t1 o with
  | none =>
    rw [getRClevel_unmatched E results o u t1 ho hm] at h
    exact absurd rfl h
  | some a => exact ⟨a, rfl⟩

theorem getRClevel_measure (E : Env) (results : decode_results) (o u : Nat) (t1 : Int) :
    4 * (results.rawlen - (getRClevel E results o u t1).2.1)
        + (3 - (getRClevel E results o u t1).2.2)
      ≤ 4 * (results.rawlen - o) + (3 - u)
    ∧ (o < results.rawlen → (getRClevel E results o u t1).1 ≠ -1 →
      4 * (results.rawlen - (getRClevel E results o u t1).2.1)
          + (3 - (getRClevel E results o u t1).2.2)
        < 4 * (results.rawlen - o) + (3 - u)) := by
  unfold decode_results.rawlen
  by_cases ho : o < results.rawbuf.length
  · cases hm : matchedUnits E results t1 o with
    | none =>
      rw [getRClevel_unmatched E results o u t1 ho hm]
      simp
    | some a =>
      have hb := matchedUnits_bound E results t1 o a hm
      rw [getRClevel_matched E results o u a t1 hm]
      by_cases hadv : u + 1 ≥ a
      · simp only [hadv, if_true]
        exact ⟨by omega, fun _ _ => by omega⟩
      · simp only [hadv, if_false]
        exact ⟨by omega, fun _ _ => by omega⟩
  · rw [getRClevel_past_end E results o u t1 (by omega)]
    simp
    omega

theorem decodeRC5Body_measure (E : Env) (results : decode_results) (o u n d : Nat)
    (s : Nat × Nat × Nat × Nat) (ho : o < results.rawlen)
    (h : decodeRC5Body E results o u n d = some s) :
    4 * (results.rawlen - s.1) + (3 - s.2.1) < 4 * (results.rawlen - o) + (3 - u)
    ∧ s.2.2.1 = n + 1 := by
  have k1 := getRClevel_measure E results o u RC5_T1
  have k2 := getRClevel_measure E results (getRClevel E results o u RC5_T1).2.1
    (getRClevel E results o u RC5_T1).2.2 RC5_T1
  unfold decodeRC5Body at h
  simp only at h
  split_ifs at h with h1 h0
  · have hne : (getRClevel E results o u RC5_T1).1 ≠ -1 := by
      rw [h1.1]; exact E.space_ne_err
    have := k1.2 ho hne
    have := k2.1
    simp only [Option.some.injEq] at h
    subst h
    simp only
    exact ⟨by omega, trivial⟩
  · have hne : (getRClevel E results o u RC5_T1).1 ≠ -1 := by
      rw [h0.1]; exact E.mark_ne_err
    have := k1.2 ho hne
    have := k2.1
    simp only [Option.some.injEq] at h
    subst h
    simp only
    exact ⟨by omega, trivial⟩

theorem decodeRC5Iter_of_loop (E : Env) (results : decode_results) :
    ∀ (m o u n d n' d' : Nat), 4 * (results.rawlen - o) + (3 - u) = m →
      decodeRC5Loop E results o u n d = some (n', d') →
      ∃ k o' u', decodeRC5Iter E results k (o, u, n, d) = some (o', u', n', d')
        ∧ results.rawlen ≤ o' := by
  intro m
  induction m using Nat.strong_induction_on with
  | _ m ih =>
    intro o u n d n' d' hm h
    rw [decodeRC5Loop_unfold] at h
    by_cases ho : o < results.rawlen
    · simp only [ho, if_true] at h
      cases hb : decodeRC5Body E results o u n d with
      | none => simp [hb] at h
      | some s =>
        simp only [hb] at h
        have hmeas := (decodeRC5Body_measure E results o u n d s ho hb).1
        obtain ⟨k, o', u', hk, ho'⟩ := ih _ (by omega) s.1 s.2.1 s.2.2.1 s.2.2.2 n' d' rfl h
        refine ⟨k + 1, o', u', ?_, ho'⟩
        simp only [decodeRC5Iter, ho, if_true, hb]
        exact hk
    · simp only [ho, if_false, Option.some.injEq, Prod.mk.injEq] at h
      refine ⟨0, o, u, ?_, by omega⟩
      simp [decodeRC5Iter, h.1, h.2]

theorem decodeRC5Loop_of_iter (E : Env) (results : decode_results) :
    ∀ (k : Nat) (s s' : Nat × Nat × Nat × Nat), decodeRC5Iter E results k s = some s' →
      decodeRC5Loop E results s.1 s.2.1 s.2.2.1 s.2.2.2
        = decodeRC5Loop E results s'.1 s'.2.1 s'.2.2.1 s'.2.2.2 := by
  intro k
  induction k with
  | zero =>
    intro s s' h
    simp only [decodeRC5Iter, Option.some.injEq] at h
    rw [h]
  | succ k ih =>
    intro s s' h
    obtain ⟨o, u, n, d⟩ := s
    simp only [decodeRC5Iter] at h
    by_cases ho : o < results.rawlen
    · simp only [ho, if_true] at h
      cases hb : decodeRC5Body E results o u n d with
      | none => simp [hb] at h
      | some t =>
        simp only [hb] at h
        rw [decodeRC5Loop_unfold]
        simp only [ho, if_true, hb]
        exact ih t s' h
    · simp [ho] at h

theorem decodeRC5Iter_nbits (E : Env) (results : decode_results) :
    ∀ (k : Nat) (s s' : Nat × Nat × Nat × Nat), decodeRC5Iter E results k s = some s' →
      s'.2.2.1 = s.2.2.1 + k := by
  intro k
  induction k with
  | zero =>
    intro s s' h
    simp only [decodeRC5Iter, Option.some.injEq] at h
    rw [h]; rfl
  | succ k ih =>
    intro s s' h
    obtain ⟨o, u, n, d⟩ := s
    simp only [decodeRC5Iter] at h
    by_cases ho : o < results.rawlen
    · simp only [ho, if_true] at h
      cases hb : decodeRC5Body E results o u n d with
      | none => simp [hb] at h
      | some t =>
        simp only [hb] at h
        have := ih t s' h
        have hn := (decodeRC5Body_measure E results o u n d t ho hb).2
        simp only at this ⊢
        omega
    · simp [ho] at h

theorem decodeRC6Body_measure (E : Env) (results : decode_results) (o u n d : Nat)
    (s : Nat × Nat × Nat × Nat) (ho : o < results.rawlen)
    (h : decodeRC6Body E results o u n d = some s) :
    4 * (results.rawlen - s.1) + (3 - s.2.1) < 4 * (results.rawlen - o) + (3 - u)
    ∧ s.2.2.1 = n + 1 := by
  have k1 := getRClevel_measure E results o u RC6_T1
  have k2 := getRClevel_measure E results (getRClevel E results o u RC6_T1).2.1
    (getRClevel E results o u RC6_T1).2.2 RC6_T1
  unfold decodeRC6Body at h
  by_cases h3 : n = 3
  · simp only [h3, if_true, true_and] at h
    have k3 := getRClevel_measure E results
      (getRClevel E results (getRClevel E results o u RC6_T1).2.1
        (getRClevel E results o u RC6_T1).2.2 RC6_T1).2.1
      (getRClevel E results (getRClevel E results o u RC6_T1).2.1
        (getRClevel E results o u RC6_T1).2.2 RC6_T1).2.2 RC6_T1
    have k4 := getRClevel_measure E results
      (getRClevel E results
        (getRClevel E results (getRClevel E results o u RC6_T1).2.1
          (getRClevel E results o u RC6_T1).2.2 RC6_T1).2.1
        (getRClevel E results (getRClevel E results o u RC6_T1).2.1
          (getRClevel E results o u RC6_T1).2.2 RC6_T1).2.2 RC6_T1).2.1
      (getRClevel E results
        (getRClevel E results (getRClevel E results o u RC6_T1).2.1
          (getRClevel E results o u RC6_T1).2.2 RC6_T1).2.1
        (getRClevel E results (getRClevel E results o u RC6_T1).2.1
          (getRClevel E results o u RC6_T1).2.2 RC6_T1).2.2 RC6_T1).2.2 RC6_T1
    split_ifs at h with ha hb h1 h0
    · have hne : (getRClevel E results o u RC6_T1).1 ≠ -1 := by
        rw [h1.1]; exact E.mark_ne_err
      have := k1.2 ho hne
      simp only [Option.some.injEq] at h
      subst h
      simp only
      exact ⟨by omega, by omega⟩
    · have hne : (getRClevel E results o u RC6_T1).1 ≠ -1 := by
        rw [h0.1]; exact E.space_ne_err
      have := k1.2 ho hne
      simp only [Option.some.injEq] at h
      subst h
      simp only
      exact ⟨by omega, by omega⟩
  · simp only [h3, if_false, false_and] at h
    split_ifs at h with h1 h0
    · have hne : (getRClevel E results o u RC6_T1).1 ≠ -1 := by
        rw [h1.1]; exact E.mark_ne_err
      have := k1.2 ho hne
      simp only [Option.some.injEq] at h
      subst h
      simp only
      exact ⟨by omega, trivial⟩
    · have hne : (getRClevel E results o u RC6_T1).1 ≠ -1 := by
        rw [h0.1]; exact E.space_ne_err
      have := k1.2 ho hne
      simp only [Option.some.injEq] at h
      subst h
      simp only
      exact ⟨by omega, trivial⟩

theorem decodeRC6Iter_of_loop (E : Env) (results : decode_results) :
    ∀ (m o u n d n' d' : Nat), 4 * (results.rawlen - o) + (3 - u) = m →
      decodeRC6Loop E results o u n d = some (n', d') →
      ∃ k o' u', decodeRC6Iter E results k (o, u, n, d) = some (o', u', n', d')
        ∧ results.rawlen ≤ o' := by
  intro m
  induction m using Nat.strong_induction_on with
  | _ m ih =>
    intro o u n d n' d' hm h
    rw [decodeRC6Loop_unfold] at h
    by_cases ho : o < results.rawlen
    · simp only [ho, if_true] at h
      cases hb : decodeRC6Body E results o u n d with
      | none => simp [hb] at h
      | some s =>
        simp only [hb] at h
        have hmeas := (decodeRC6Body_measure E results o u n d s ho hb).1
        obtain ⟨k, o', u', hk, ho'⟩ := ih _ (by omega) s.1 s.2.1 s.2.2.1 s.2.2.2 n' d' rfl h
        refine ⟨k + 1, o', u', ?_, ho'⟩
        simp only [decodeRC6Iter, ho, if_true, hb]
        exact hk
    · simp only [ho, if_false, Option.some.injEq, Prod.mk.injEq] at h
      refine ⟨0, o, u, ?_, by omega⟩
      simp [decodeRC6Iter, h.1, h.2]

theorem decodeRC6Loop_of_iter (E : Env) (results : decode_results) :
    ∀ (k : Nat) (s s' : Nat × Nat × Nat × Nat), decodeRC6Iter E results k s = some s' →
      decodeRC6Loop E results s.1 s.2.1 s.2.2.1 s.2.2.2
        = decodeRC6Loop E results s'.1 s'.2.1 s'.2.2.1 s'.2.2.2 := by
  intro k
  induction k with
  | zero =>
    intro s s' h
    simp only [decodeRC6Iter, Option.some.injEq] at h
    rw [h]
  | succ k ih =>
    intro s s' h
    obtain ⟨o, u, n, d⟩ := s
    simp only [decodeRC6Iter] at h
    by_cases ho : o < results.rawlen
    · simp only [ho, if_true] at h
      cases hb : decodeRC6Body E results o u n d with
      | none => simp [hb] at h
      | some t =>
        simp only [hb] at h
        rw [decodeRC6Loop_unfold]
        simp only [ho, if_true, hb]
        exact ih t s' h
    · simp [ho] at h

theorem decodeRC6Iter_nbits (E : Env) (results : decode_results) :
    ∀ (k : Nat) (s s' : Nat × Nat × Nat × Nat), decodeRC6Iter E results k s = some s' →
      s'.2.2.1 = s.2.2.1 + k := by
  intro k
  induction k with
  | zero =>
    intro s s' h
    simp only [decodeRC6Iter, Option.some.injEq] at h
    rw [h]; rfl
  | succ k ih =>
    intro s s' h
    obtain ⟨o, u, n, d⟩ := s
    simp only [decodeRC6Iter] at h
    by_cases ho : o < results.rawlen
    · simp only [ho, if_true] at h
      cases hb : decodeRC6Body E results o u n d with
      | none => simp [hb] at h
      | some t =>
        simp only [hb] at h
        have := ih t s' h
        have hn := (decodeRC6Body_measure E results o u n d t ho hb).2
        simp only at this ⊢
        omega
    · simp [ho] at h

theorem decodeRC5Loop_exit (E : Env) (results : decode_results) (o u n d : Nat)
    (h : results.rawlen ≤ o) : decodeRC5Loop E results o u n d = some (n, d) := by
  rw [decodeRC5Loop_unfold]
  simp [Nat.not_lt.2 h]

theorem decodeRC6Loop_exit (E : Env) (results : decode_results) (o u n d : Nat)
    (h : results.rawlen ≤ o) : decodeRC6Loop E results o u n d = some (n, d) := by
  rw [decodeRC6Loop_unfold]
  simp [Nat.not_lt.2 h]

/-! ## What a return value of the decoders tells -/

theorem decodeRC5_false (E : Env) (results : decode_results)
    (h : (decodeRC5 E results).1 = false) : decodeRC5 E results = (false, results) := by
  unfold decodeRC5 at h ⊢
  simp only at h ⊢
  split_ifs at h ⊢ with h0 h1 h2 h3
  · rfl
  · rfl
  · rfl
  · rfl
  · cases hl : decodeRC5Loop E results
        (getRClevel E results
          (getRClevel E results (getRClevel E results 1 0 RC5_T1).2.1
            (getRClevel E results 1 0 RC5_T1).2.2 RC5_T1).2.1
          (getRClevel E results (getRClevel E results 1 0 RC5_T1).2.1
            (getRClevel E results 1 0 RC5_T1).2.2 RC5_T1).2.2 RC5_T1).2.1
        (getRClevel E results
          (getRClevel E results (getRClevel E results 1 0 RC5_T1).2.1
            (getRClevel E results 1 0 RC5_T1).2.2 RC5_T1).2.1
          (getRClevel E results (getRClevel E results 1 0 RC5_T1).2.1
            (getRClevel E results 1 0 RC5_T1).2.2 RC5_T1).2.2 RC5_T1).2.2 0 0 with
    | none => rfl
    | some p => rw [hl] at h; simp at h

theorem decodeRC5_true (E : Env) (results r : decode_results)
    (h : decodeRC5 E results = (true, r)) :
    MIN_RC5_SAMPLES + 2 ≤ results.rawlen
    ∧ (getRClevels E results RC5_T1 3 1 0).1 = [E.MARK, E.SPACE, E.MARK]
    ∧ (∃ o u, decodeRC5Iter E results r.bits
          ((getRClevels E results RC5_T1 3 1 0).2.1, (getRClevels E results RC5_T1 3 1 0).2.2,
            0, 0)
        = some (o, u, r.bits, r.value) ∧ results.rawlen ≤ o)
    ∧ r = { results with bits := r.bits, value := r.value, decode_type := decode_type_t.RC5 } := by
  unfold decodeRC5 at h
  simp only [getRClevels]
  simp only at h
  split_ifs at h with h0 h1 h2 h3
  · simp at h
  · simp at h
  · simp at h
  · simp at h
  · simp only [ne_eq, not_not] at h1 h2 h3
    cases hl : decodeRC5Loop E results
        (getRClevel E results
          (getRClevel E results (getRClevel E results 1 0 RC5_T1).2.1
            (getRClevel E results 1 0 RC5_T1).2.2 RC5_T1).2.1
          (getRClevel E results (getRClevel E results 1 0 RC5_T1).2.1
            (getRClevel E results 1 0 RC5_T1).2.2 RC5_T1).2.2 RC5_T1).2.1
        (getRClevel E results
          (getRClevel E results (getRClevel E results 1 0 RC5_T1).2.1
            (getRClevel E results 1 0 RC5_T1).2.2 RC5_T1).2.1
          (getRClevel E results (getRClevel E results 1 0 RC5_T1).2.1
            (getRClevel E results 1 0 RC5_T1).2.2 RC5_T1).2.2 RC5_T1).2.2 0 0 with
    | none => rw [hl] at h; simp at h
    | some p =>
      obtain ⟨nb, dt⟩ := p
      rw [hl] at h
      simp only [Prod.mk.injEq, true_and] at h
      obtain ⟨k, o', u', hk, ho'⟩ := decodeRC5Iter_of_loop E results _ _ _ 0 0 nb dt rfl hl
      have hnb := decodeRC5Iter_nbits E results k _ _ hk
      simp only [Nat.zero_add] at hnb
      subst h
      simp only
      refine ⟨Nat.not_lt.1 h0, by rw [h1, h2, h3], ⟨o', u', ?_, ho'⟩, trivial⟩
      rw [← hnb] at hk
      exact hk

theorem decodeRC6_cases (E : Env) (results : decode_results) :
    decodeRC6 E results = none
    ∨ decodeRC6 E results = some (false, results)
    ∨ ∃ w1 w2 nb dt, results.rawbuf[1]? = some w1 ∧ results.rawbuf[2]? = some w2
        ∧ E.MATCH_MARK (w1 : Nat) RC6_HDR_MARK = true
        ∧ E.MATCH_SPACE (w2 : Nat) RC6_HDR_SPACE = true
        ∧ (getRClevels E results RC6_T1 2 3 0).1 = [E.MARK, E.SPACE]
        ∧ decodeRC6Loop E results (getRClevels E results RC6_T1 2 3 0).2.1
            (getRClevels E results RC6_T1 2 3 0).2.2 0 0 = some (nb, dt)
        ∧ decodeRC6 E results
            = some (true, { results with bits := nb, value := dt,
                                         decode_type := decode_type_t.RC6 }) := by
  unfold decodeRC6
  simp only [getRClevels]
  by_cases h0 : results.rawlen < MIN_RC6_SAMPLES
  · simp [h0]
  simp only [h0, if_false]
  cases h1 : (results.rawbuf[1]? : Option Nat) with
  | none => simp
  | some w1 =>
    simp only
    by_cases hM : E.MATCH_MARK (w1 : Nat) RC6_HDR_MARK = true
    swap
    · simp [hM]
    simp only [hM, Bool.not_true, Bool.false_eq_true, if_false]
    cases h2 : (results.rawbuf[2]? : Option Nat) with
    | none => simp
    | some w2 =>
      simp only
      by_cases hS : E.MATCH_SPACE (w2 : Nat) RC6_HDR_SPACE = true
      swap
      · simp [hS]
      simp only [hS, Bool.not_true, Bool.false_eq_true, if_false]
      by_cases hs1 : (getRClevel E results 3 0 RC6_T1).1 = E.MARK
      swap
      · simp [hs1]
      by_cases hs2 : (getRClevel E results (getRClevel E results 3 0 RC6_T1).2.1
          (getRClevel E results 3 0 RC6_T1).2.2 RC6_T1).1 = E.SPACE
      swap
      · simp [hs1, hs2]
      simp only [hs1, hs2, ne_eq, not_true_eq_false, if_false]
      cases hl : decodeRC6Loop E results
          (getRClevel E results (getRClevel E results 3 0 RC6_T1).2.1
            (getRClevel E results 3 0 RC6_T1).2.2 RC6_T1).2.1
          (getRClevel E results (getRClevel E results 3 0 RC6_T1).2.1
            (getRClevel E results 3 0 RC6_T1).2.2 RC6_T1).2.2 0 0 with
      | none => simp
      | some p =>
        obtain ⟨nb, dt⟩ := p
        right; right
        refine ⟨w1, w2, nb, dt, rfl, rfl, hM, hS, ?_, ?_, ?_⟩ <;> trivial

theorem decodeRC6_false (E : Env) (results r : decode_results)
    (h : decodeRC6 E results = some (false, r)) : r = results := by
  rcases decodeRC6_cases E results with hc | hc | ⟨w1, w2, nb, dt, _, _, _, _, _, _, hc⟩
  · rw [hc] at h; simp at h
  · rw [hc] at h
    simp only [Option.some.injEq, Prod.mk.injEq, true_and] at h
    exact h.symm
  · rw [hc] at h; simp at h

theorem decodeRC6_true (E : Env) (results r : decode_results)
    (h : decodeRC6 E results = some (true, r)) :
    (∃ w1 w2, results.rawbuf[1]? = some w1 ∧ results.rawbuf[2]? = some w2
        ∧ E.MATCH_MARK (w1 : Nat) RC6_HDR_MARK = true
        ∧ E.MATCH_SPACE (w2 : Nat) RC6_HDR_SPACE = true)
    ∧ (getRClevels E results RC6_T1 2 3 0).1 = [E.MARK, E.SPACE]
    ∧ (∃ o u, decodeRC6Iter E results r.bits
          ((getRClevels E results RC6_T1 2 3 0).2.1, (getRClevels E results RC6_T1 2 3 0).2.2,
            0, 0)
        = some (o, u, r.bits, r.value) ∧ results.rawlen ≤ o)
    ∧ r = { results with bits := r.bits, value := r.value, decode_type := decode_type_t.RC6 } := by
  rcases decodeRC6_cases E results with hc | hc | ⟨w1, w2, nb, dt, h1, h2, hM, hS, hst, hl, hc⟩
  · rw [hc] at h; simp at h
  · rw [hc] at h; simp at h
  · rw [hc] at h
    simp only [Option.some.injEq, Prod.mk.injEq, true_and] at h
    obtain ⟨k, o', u', hk, ho'⟩ := decodeRC6Iter_of_loop E results _ _ _ 0 0 nb dt rfl hl
    have hnb := decodeRC6Iter_nbits E results k _ _ hk
    simp only [Nat.zero_add] at hnb
    rw [← hnb] at hk
    subst h
    exact ⟨⟨w1, w2, h1, h2, hM, hS⟩, hst, ⟨o', u', hk, ho'⟩, rfl⟩

/-- C13: for every raw buffer and every prior content of the result record: if
`decodeRC5` (respectively `decodeRC6`) returns false, the result record, and so
its fields `bits`, `value` and `decode_type`, is what it was before the call;
if it returns true, `decode_type` is `RC5` (respectively `RC6`) and `bits` is
the number of passes through the bit loop that accepted a bit pair: after
exactly `bits` passes from the cursor left by the start checks the loop
condition `offset < rawlen` fails, with `nbits = bits` and `data = value`. -/
theorem decode_all_or_nothing (E : Env) (results : decode_results) :
    ((decodeRC5 E results).1 = false → (decodeRC5 E results).2 = results)
    ∧ ((decodeRC5 E results).1 = true →
        (decodeRC5 E results).2.decode_type = decode_type_t.RC5
        ∧ ∃ o u, decodeRC5Iter E results (decodeRC5 E results).2.bits
              ((getRClevels E results RC5_T1 3 1 0).2.1,
                (getRClevels E results RC5_T1 3 1 0).2.2, 0, 0)
            = some (o, u, (decodeRC5 E results).2.bits, (decodeRC5 E results).2.value)
          ∧ results.rawlen ≤ o)
    ∧ (∀ r, decodeRC6 E results = some (false, r) → r = results)
    ∧ (∀ r, decodeRC6 E results = some (true, r) →
        r.decode_type = decode_type_t.RC6
        ∧ ∃ o u, decodeRC6Iter E results r.bits
              ((getRClevels E results RC6_T1 2 3 0).2.1,
                (getRClevels E results RC6_T1 2 3 0).2.2, 0, 0)
            = some (o, u, r.bits, r.value)
          ∧ results.rawlen ≤ o) := by
  refine ⟨fun h => ?_, fun h => ?_, fun r h => decodeRC6_false E results r h, fun r h => ?_⟩
  · rw [decodeRC5_false E results h]
  · have ht := decodeRC5_true E results (decodeRC5 E results).2
      (by rw [← h])
    refine ⟨?_, ht.2.2.1⟩
    rw [ht.2.2.2]
  · have ht := decodeRC6_true E results r h
    refine ⟨?_, ht.2.2.1⟩
    rw [ht.2.2.2]

/-! ## `decodeRC6`: the double-width bit -/

theorem decodeRC6_of_header (E : Env) (results : decode_results) (w1 w2 : Nat)
    (h1 : results.rawbuf[1]? = some w1) (h2 : results.rawbuf[2]? = some w2)
    (hM : E.MATCH_MARK (w1 : Nat) RC6_HDR_MARK = true)
    (hS : E.MATCH_SPACE (w2 : Nat) RC6_HDR_SPACE = true)
    (hst : (getRClevels E results RC6_T1 2 3 0).1 = [E.MARK, E.SPACE]) :
    decodeRC6 E results
      = match decodeRC6Loop E results (getRClevels E results RC6_T1 2 3 0).2.1
          (getRClevels E results RC6_T1 2 3 0).2.2 0 0 with
        | none => some (false, results)
        | some (nbits, data) =>
          some (true, { results with bits := nbits, value := data,
                                     decode_type := decode_type_t.RC6 }) := by
  have hlen : ¬ results.rawlen < MIN_RC6_SAMPLES := by
    have : 1 < results.rawbuf.length := by
      by_contra hc
      rw [List.getElem?_eq_none (by omega)] at h1
      exact absurd h1 (by simp)
    simp only [decode_results.rawlen, MIN_RC6_SAMPLES]
    omega
  simp only [getRClevels, List.cons.injEq, and_true] at hst
  unfold decodeRC6
  simp only [hlen, if_false, h1, h2, hM, hS, Bool.not_true, Bool.false_eq_true, hst.1, hst.2,
    ne_eq, not_true_eq_false, getRClevels]

theorem decodeRC6Body_double_width (E : Env) (results : decode_results) (o u d : Nat)
    (a a2 b b2 : Int)
    (hl : (getRClevels E results RC6_T1 4 o u).1 = [a, a2, b, b2])
    (hbad : a ≠ a2 ∨ b ≠ b2 ∨ a = -1 ∨ a2 = -1 ∨ b = -1 ∨ b2 = -1) :
    decodeRC6Body E results o u 3 d = none := by
  simp only [getRClevels, List.cons.injEq, and_true] at hl
  obtain ⟨ha, ha2, hb, hb2⟩ := hl
  unfold decodeRC6Body
  simp only [if_true, true_and, ha, ha2, hb, hb2]
  have hM := E.mark_ne_err
  have hS := E.space_ne_err
  by_cases e1 : a = a2
  swap
  · simp [e1]
  by_cases e2 : b = b2
  swap
  · simp [e1, e2]
  subst e1 e2
  simp only [ne_eq, not_true_eq_false, if_false]
  have hab : a = -1 ∨ b = -1 := by
    rcases hbad with h | h | h | h | h | h
    · exact absurd rfl h
    · exact absurd rfl h
    · exact Or.inl h
    · exact Or.inl h
    · exact Or.inr h
    · exact Or.inr h
  rcases hab with h | h
  · have n1 : ¬ a = E.MARK := fun e => hM (e.symm.trans h)
    have n2 : ¬ a = E.SPACE := fun e => hS (e.symm.trans h)
    simp [n1, n2]
  · have n1 : ¬ b = E.MARK := fun e => hM (e.symm.trans h)
    have n2 : ¬ b = E.SPACE := fun e => hS (e.symm.trans h)
    simp [n1, n2]

/-- C12: for every raw buffer that passes the RC6 header and start-bit checks
and whose bit loop reaches bit index 3 (three passes accepted, the loop
condition still true) with the cursor `(o, u)`: if of the four unit levels
`a, a2, b, b2` read for that bit the two of the first half differ, or the two
of the second half differ, or one of the four is the mismatch value `-1`,
`decodeRC6` returns false. -/
theorem decodeRC6_double_width (E : Env) (results : decode_results) (w1 w2 o u data : Nat)
    (a a2 b b2 : Int)
    (h1 : results.rawbuf[1]? = some w1) (h2 : results.rawbuf[2]? = some w2)
    (hM : E.MATCH_MARK (w1 : Nat) RC6_HDR_MARK = true)
    (hS : E.MATCH_SPACE (w2 : Nat) RC6_HDR_SPACE = true)
    (hst : (getRClevels E results RC6_T1 2 3 0).1 = [E.MARK, E.SPACE])
    (hreach : decodeRC6Iter E results 3
        ((getRClevels E results RC6_T1 2 3 0).2.1, (getRClevels E results RC6_T1 2 3 0).2.2, 0, 0)
      = some (o, u, 3, data))
    (ho : o < results.rawlen)
    (hl : (getRClevels E results RC6_T1 4 o u).1 = [a, a2, b, b2])
    (hbad : a ≠ a2 ∨ b ≠ b2 ∨ a = -1 ∨ a2 = -1 ∨ b = -1 ∨ b2 = -1) :
    decodeRC6 E results = some (false, results) := by
  have hloop := decodeRC6Loop_of_iter E results 3 _ _ hreach
  simp only at hloop
  have hnone : decodeRC6Loop E results o u 3 data = none := by
    rw [decodeRC6Loop_unfold]
    simp only [ho, if_true, decodeRC6Body_double_width E results o u data a a2 b b2 hl hbad]
  rw [decodeRC6_of_header E results w1 w2 h1 h2 hM hS hst, hloop, hnone]

/-- C12, witness: after the header, the start bit and three bits the fourth
bit comes at single width, so the two levels of its first half are `MARK` and
`SPACE`. -/
theorem decodeRC6_double_width_witness :
    decodeRC6 exampleEnv
        (resultsOf [0, 2666, 889, 444, 444, 444, 444, 444, 444, 444, 444, 444, 444, 444])
      = some (false,
          resultsOf [0, 2666, 889, 444, 444, 444, 444, 444, 444, 444, 444, 444, 444, 444]) :=
  decodeRC6_double_width exampleEnv
    (resultsOf [0, 2666, 889, 444, 444, 444, 444, 444, 444, 444, 444, 444, 444, 444])
    2666 889 11 0 7 1 0 1 0
    (by decide) (by decide) (by decide) (by decide) (by decide) (by decide) (by decide)
    (by decide) (by decide)

/-! ## The last sample used up in the middle of a bit pair -/

theorem decodeRC5_of_start (E : Env) (results : decode_results)
    (hlen : MIN_RC5_SAMPLES + 2 ≤ results.rawlen)
    (hst : (getRClevels E results RC5_T1 3 1 0).1 = [E.MARK, E.SPACE, E.MARK]) :
    decodeRC5 E results
      = match decodeRC5Loop E results (getRClevels E results RC5_T1 3 1 0).2.1
          (getRClevels E results RC5_T1 3 1 0).2.2 0 0 with
        | none => (false, results)
        | some (nbits, data) =>
          (true, { results with bits := nbits, value := data,
                                decode_type := decode_type_t.RC5 }) := by
  simp only [getRClevels, List.cons.injEq, and_true] at hst
  unfold decodeRC5
  simp only [Nat.not_lt.2 hlen, if_false, hst.1, hst.2.1, hst.2.2, ne_eq, not_true_eq_false,
    getRClevels]

theorem decodeRC5_half_pair (E : Env) (results : decode_results) (k o u d : Nat)
    (lvl : Int) (o1 u1 : Nat)
    (hlen : MIN_RC5_SAMPLES + 2 ≤ results.rawlen)
    (hst : (getRClevels E results RC5_T1 3 1 0).1 = [E.MARK, E.SPACE, E.MARK])
    (hreach : decodeRC5Iter E results k
        ((getRClevels E results RC5_T1 3 1 0).2.1, (getRClevels E results RC5_T1 3 1 0).2.2, 0, 0)
      = some (o, u, k, d))
    (ho : o < results.rawlen)
    (hA : getRClevel E results o u RC5_T1 = (lvl, o1, u1)) (hend : results.rawlen ≤ o1) :
    decodeRC5 E results
      = if lvl = E.MARK then
          (true, { results with bits := k + 1, value := (d * 2) % 2 ^ 32,
                                decode_type := decode_type_t.RC5 })
        else (false, results) := by
  have hsm : E.SPACE ≠ E.MARK := fun h => E.mark_ne_space h.symm
  have hloop := decodeRC5Loop_of_iter E results k _ _ hreach
  simp only at hloop
  have hB : getRClevel E results o1 u1 RC5_T1 = (E.SPACE, o1, u1) :=
    getRClevel_past_end E results o1 u1 RC5_T1 hend
  have hbody : decodeRC5Body E results o u k d
      = if lvl = E.MARK then some (o1, u1, k + 1, (d * 2) % 2 ^ 32) else none := by
    unfold decodeRC5Body
    simp only [hA, hB, hsm, and_false, if_false, and_true]
  rw [decodeRC5_of_start E results hlen hst, hloop, decodeRC5Loop_unfold]
  simp only [ho, if_true, hbody]
  by_cases hl : lvl = E.MARK
  · simp only [hl, if_true]
    rw [decodeRC5Loop_exit E results o1 u1 _ _ hend]
  · simp only [hl, if_false]

theorem decodeRC6_half_pair (E : Env) (results : decode_results) (w1 w2 k o u d : Nat)
    (ls : List Int) (o1 u1 : Nat)
    (h1 : results.rawbuf[1]? = some w1) (h2 : results.rawbuf[2]? = some w2)
    (hM : E.MATCH_MARK (w1 : Nat) RC6_HDR_MARK = true)
    (hS : E.MATCH_SPACE (w2 : Nat) RC6_HDR_SPACE = true)
    (hst : (getRClevels E results RC6_T1 2 3 0).1 = [E.MARK, E.SPACE])
    (hreach : decodeRC6Iter E results k
        ((getRClevels E results RC6_T1 2 3 0).2.1, (getRClevels E results RC6_T1 2 3 0).2.2, 0, 0)
      = some (o, u, k, d))
    (ho : o < results.rawlen)
    (hA : getRClevels E results RC6_T1 (if k = 3 then 2 else 1) o u = (ls, o1, u1))
    (hend : results.rawlen ≤ o1) :
    decodeRC6 E results
      = if ∀ l ∈ ls, l = E.MARK then
          some (true, { results with bits := k + 1, value := (d * 2 + 1) % 2 ^ 32,
                                     decode_type := decode_type_t.RC6 })
        else some (false, results) := by
  have hsm : E.SPACE ≠ E.MARK := fun h => E.mark_ne_space h.symm
  have hloop := decodeRC6Loop_of_iter E results k _ _ hreach
  simp only at hloop
  have hB : getRClevel E results o1 u1 RC6_T1 = (E.SPACE, o1, u1) :=
    getRClevel_past_end E results o1 u1 RC6_T1 hend
  have hbody : decodeRC6Body E results o u k d
      = if ∀ l ∈ ls, l = E.MARK then some (o1, u1, k + 1, (d * 2 + 1) % 2 ^ 32) else none := by
    unfold decodeRC6Body
    by_cases h3 : k = 3
    · simp only [h3, if_true, getRClevels, Prod.mk.injEq] at hA
      obtain ⟨hls, ho1, hu1⟩ := hA
      subst hls
      simp only [h3, if_true, true_and, ho1, hu1, hB, ne_eq, not_true_eq_false, if_false,
        and_true, hsm, and_false, List.mem_cons, List.mem_singleton, forall_eq_or_imp, forall_eq,
        List.not_mem_nil, false_implies, implies_true]
      by_cases e : (getRClevel E results o u RC6_T1).1
          = (getRClevel E results (getRClevel E results o u RC6_T1).2.1
              (getRClevel E results o u RC6_T1).2.2 RC6_T1).1
      · rw [← e]
        simp only [not_true_eq_false, if_false, and_self]
      · simp only [e, not_false_eq_true, if_true]
        rw [if_neg]
        intro hc
        exact e (hc.1.trans hc.2.symm)
    · simp only [h3, if_false, getRClevels, Prod.mk.injEq] at hA
      obtain ⟨hls, ho1, hu1⟩ := hA
      subst hls
      simp only [h3, if_false, false_and, ho1, hu1, hB, hsm, and_false, and_true,
        List.mem_singleton, forall_eq]
  rw [decodeRC6_of_header E results w1 w2 h1 h2 hM hS hst, hloop, decodeRC6Loop_unfold]
  simp only [ho, if_true, hbody]
  by_cases hl : ∀ l ∈ ls, l = E.MARK
  · rw [if_pos hl, if_pos hl]
    simp only
    rw [decodeRC6Loop_exit E results o1 u1 _ _ hend]
  · rw [if_neg hl, if_neg hl]

/-- C17 (amended): for both decoders, for every raw buffer that passes the
start / header checks and whose bit loop, after `k` accepted bit pairs, starts
a pass (the loop condition `offset < rawlen` true) in which the read of
`levelA` uses up the last sample: `levelB` is read past the end of the buffer
as `SPACE`.  For `decodeRC5` and for `decodeRC6` at a bit index `k` other than
3, `levelA` is one unit read; at bit index 3 of `decodeRC6` it is the two unit
reads of the double-width first half.  If `levelA` is `MARK` (at bit index 3
of `decodeRC6`: both of its unit reads are `MARK`) the pair is accepted and
counted as one more bit, 0 for RC5 and 1 for RC6, the loop then ends through
its condition, and the decoder returns true with `bits = k + 1`; otherwise the
decoder returns false. -/
theorem decode_half_pair (E : Env) (results : decode_results) :
    (∀ (k o u d : Nat) (lvl : Int) (o1 u1 : Nat),
      MIN_RC5_SAMPLES + 2 ≤ results.rawlen →
      (getRClevels E results RC5_T1 3 1 0).1 = [E.MARK, E.SPACE, E.MARK] →
      decodeRC5Iter E results k
          ((getRClevels E results RC5_T1 3 1 0).2.1, (getRClevels E results RC5_T1 3 1 0).2.2,
            0, 0)
        = some (o, u, k, d) →
      o < results.rawlen →
      getRClevel E results o u RC5_T1 = (lvl, o1, u1) → results.rawlen ≤ o1 →
      decodeRC5 E results
        = if lvl = E.MARK then
            (true, { results with bits := k + 1, value := (d * 2) % 2 ^ 32,
                                  decode_type := decode_type_t.RC5 })
          else (false, results))
    ∧ (∀ (w1 w2 k o u d : Nat) (ls : List Int) (o1 u1 : Nat),
      results.rawbuf[1]? = some w1 → results.rawbuf[2]? = some w2 →
      E.MATCH_MARK (w1 : Nat) RC6_HDR_MARK = true →
      E.MATCH_SPACE (w2 : Nat) RC6_HDR_SPACE = true →
      (getRClevels E results RC6_T1 2 3 0).1 = [E.MARK, E.SPACE] →
      decodeRC6Iter E results k
          ((getRClevels E results RC6_T1 2 3 0).2.1, (getRClevels E results RC6_T1 2 3 0).2.2,
            0, 0)
        = some (o, u, k, d) →
      o < results.rawlen →
      getRClevels E results RC6_T1 (if k = 3 then 2 else 1) o u = (ls, o1, u1) →
      results.rawlen ≤ o1 →
      decodeRC6 E results
        = if ∀ l ∈ ls, l = E.MARK then
            some (true, { results with bits := k + 1, value := (d * 2 + 1) % 2 ^ 32,
                                       decode_type := decode_type_t.RC6 })
          else some (false, results)) :=
  ⟨fun k o u d lvl o1 u1 hlen hst hreach ho hA hend =>
      decodeRC5_half_pair E results k o u d lvl o1 u1 hlen hst hreach ho hA hend,
    fun w1 w2 k o u d ls o1 u1 h1 h2 hM hS hst hreach ho hA hend =>
      decodeRC6_half_pair E results w1 w2 k o u d ls o1 u1 h1 h2 hM hS hst hreach ho hA hend⟩

/-- C17, witness: an RC5 buffer whose sixth pair has only its mark, an RC6
buffer whose first pair has only its mark, and an RC6 buffer whose last sample
is the double-width mark of the pair at bit index 3. -/
theorem decode_half_pair_witness :
    decodeRC5 exampleEnv
        (resultsOf [0, 889, 889, 1778, 889, 889, 889, 889, 889, 889, 889, 889, 889, 889])
      = (if exampleEnv.MARK = exampleEnv.MARK then
          (true, { resultsOf
                    [0, 889, 889, 1778, 889, 889, 889, 889, 889, 889, 889, 889, 889, 889] with
                   bits := 5 + 1, value := (0 * 2) % 2 ^ 32, decode_type := decode_type_t.RC5 })
        else (false,
          resultsOf [0, 889, 889, 1778, 889, 889, 889, 889, 889, 889, 889, 889, 889, 889]))
    ∧ decodeRC6 exampleEnv (resultsOf [0, 2666, 889, 444, 444, 444])
      = (if ∀ l ∈ [exampleEnv.MARK], l = exampleEnv.MARK then
          some (true, { resultsOf [0, 2666, 889, 444, 444, 444] with
                        bits := 0 + 1, value := (0 * 2 + 1) % 2 ^ 32,
                        decode_type := decode_type_t.RC6 })
        else some (false, resultsOf [0, 2666, 889, 444, 444, 444]))
    ∧ decodeRC6 exampleEnv (resultsOf [0, 2666, 889, 444, 444, 444, 444, 444, 444, 444, 444, 888])
      = (if ∀ l ∈ [exampleEnv.MARK, exampleEnv.MARK], l = exampleEnv.MARK then
          some (true, { resultsOf [0, 2666, 889, 444, 444, 444, 444, 444, 444, 444, 444, 888] with
                        bits := 3 + 1, value := (7 * 2 + 1) % 2 ^ 32,
                        decode_type := decode_type_t.RC6 })
        else some (false, resultsOf [0, 2666, 889, 444, 444, 444, 444, 444, 444, 444, 444, 888])) :=
  ⟨(decode_half_pair exampleEnv
      (resultsOf [0, 889, 889, 1778, 889, 889, 889, 889, 889, 889, 889, 889, 889, 889])).1
      5 13 0 0 exampleEnv.MARK 14 0
      (by decide) (by decide) (by decide) (by decide) (by decide) (by decide),
   (decode_half_pair exampleEnv (resultsOf [0, 2666, 889, 444, 444, 444])).2
      2666 889 0 5 0 0 [exampleEnv.MARK] 6 0
      (by decide) (by decide) (by decide) (by decide) (by decide) (by decide) (by decide)
      (by decide) (by decide),
   (decode_half_pair exampleEnv
      (resultsOf [0, 2666, 889, 444, 444, 444, 444, 444, 444, 444, 444, 888])).2
      2666 889 3 11 0 7 [exampleEnv.MARK, exampleEnv.MARK] 12 0
      (by decide) (by decide) (by decide) (by decide) (by decide) (by decide) (by decide)
      (by decide) (by decide)⟩

/-- C17, counterexample: the buffer passes the RC5 start checks, five bit
pairs are accepted, and the sixth pass reads `levelA = MARK` from the last
sample (index 13), leaving none for `levelB`; `decodeRC5` returns true with
`bits = 6`: the half-present pair is counted as a bit.  Likewise the RC6 buffer
passes the header and start-bit checks, three bit pairs are accepted, and the
fourth pass reads the two units of `levelA = MARK` from the last sample (index
11), leaving none for `levelB`; `decodeRC6` returns true with `bits = 4`. -/
theorem decodeRC5_counts_half_pair :
    MIN_RC5_SAMPLES + 2
      ≤ (resultsOf [0, 889, 889, 1778, 889, 889, 889, 889, 889, 889, 889, 889, 889, 889]).rawlen
    ∧ (getRClevels exampleEnv
        (resultsOf [0, 889, 889, 1778, 889, 889, 889, 889, 889, 889, 889, 889, 889, 889])
        RC5_T1 3 1 0)
      = ([exampleEnv.MARK, exampleEnv.SPACE, exampleEnv.MARK], (3, 1))
    ∧ decodeRC5Iter exampleEnv
        (resultsOf [0, 889, 889, 1778, 889, 889, 889, 889, 889, 889, 889, 889, 889, 889])
        5 (3, 1, 0, 0) = some (13, 0, 5, 0)
    ∧ getRClevel exampleEnv
        (resultsOf [0, 889, 889, 1778, 889, 889, 889, 889, 889, 889, 889, 889, 889, 889])
        13 0 RC5_T1 = (exampleEnv.MARK, 14, 0)
    ∧ (resultsOf [0, 889, 889, 1778, 889, 889, 889, 889, 889, 889, 889, 889, 889, 889]).rawlen
      = 14
    ∧ decodeRC5 exampleEnv
        (resultsOf [0, 889, 889, 1778, 889, 889, 889, 889, 889, 889, 889, 889, 889, 889])
      = (true, { resultsOf
                  [0, 889, 889, 1778, 889, 889, 889, 889, 889, 889, 889, 889, 889, 889] with
                 bits := 6, value := 0, decode_type := decode_type_t.RC5 })
    ∧ (getRClevels exampleEnv
        (resultsOf [0, 2666, 889, 444, 444, 444, 444, 444, 444, 444, 444, 888]) RC6_T1 2 3 0)
      = ([exampleEnv.MARK, exampleEnv.SPACE], (5, 0))
    ∧ decodeRC6Iter exampleEnv
        (resultsOf [0, 2666, 889, 444, 444, 444, 444, 444, 444, 444, 444, 888]) 3 (5, 0, 0, 0)
      = some (11, 0, 3, 7)
    ∧ getRClevels exampleEnv
        (resultsOf [0, 2666, 889, 444, 444, 444, 444, 444, 444, 444, 444, 888]) RC6_T1 2 11 0
      = ([exampleEnv.MARK, exampleEnv.MARK], (12, 0))
    ∧ (resultsOf [0, 2666, 889, 444, 444, 444, 444, 444, 444, 444, 444, 888]).rawlen = 12
    ∧ decodeRC6 exampleEnv (resultsOf [0, 2666, 889, 444, 444, 444, 444, 444, 444, 444, 444, 888])
      = some (true, { resultsOf [0, 2666, 889, 444, 444, 444, 444, 444, 444, 444, 444, 888] with
                       bits := 4, value := 15, decode_type := decode_type_t.RC6 }) := by
  refine ⟨by decide, by decide, by decide, by decide, by decide, ?_, by decide, by decide,
    by decide, by decide, ?_⟩
  · rw [decodeRC5_half_pair exampleEnv
      (resultsOf [0, 889, 889, 1778, 889, 889, 889, 889, 889, 889, 889, 889, 889, 889])
      5 13 0 0 exampleEnv.MARK 14 0
      (by decide) (by decide) (by decide) (by decide) (by decide) (by decide)]
    rfl
  · rw [decodeRC6_half_pair exampleEnv (resultsOf [0, 2666, 889, 444, 444, 444, 444, 444, 444, 444, 444, 888])
      2666 889 3 11 0 7 [exampleEnv.MARK, exampleEnv.MARK] 12 0
      (by decide) (by decide) (by decide) (by decide) (by decide) (by decide) (by decide)
      (by decide) (by decide)]
    rfl

/-! ## The measure `3 * (rawlen - offset) - used` -/

theorem getRClevel_measure3 (E : Env) (results : decode_results) (o u : Nat) (t1 : Int)
    (hu : u ≤ 2) :
    (getRClevel E results o u t1).2.2 ≤ 2
    ∧ 3 * (results.rawlen - (getRClevel E results o u t1).2.1)
          - (getRClevel E results o u t1).2.2
        ≤ 3 * (results.rawlen - o) - u
    ∧ (o < results.rawlen → (getRClevel E results o u t1).1 ≠ -1 →
        3 * (results.rawlen - (getRClevel E results o u t1).2.1)
            - (getRClevel E results o u t1).2.2
          < 3 * (results.rawlen - o) - u) := by
  unfold decode_results.rawlen
  by_cases ho : o < results.rawbuf.length
  · cases hm : matchedUnits E results t1 o with
    | none =>
      rw [getRClevel_unmatched E results o u t1 ho hm]
      simp [hu]
    | some a =>
      have hb := matchedUnits_bound E results t1 o a hm
      rw [getRClevel_matched E results o u a t1 hm]
      by_cases hadv : u + 1 ≥ a
      · simp only [hadv, if_true]
        exact ⟨by omega, by omega, fun _ _ => by omega⟩
      · simp only [hadv, if_false]
        exact ⟨by omega, by omega, fun _ _ => by omega⟩
  · rw [getRClevel_past_end E results o u t1 (by omega)]
    simp only
    exact ⟨hu, le_refl _, fun h => absurd h ho⟩

theorem getRClevels_used_le (E : Env) (results : decode_results) (t1 : Int) :
    ∀ (n o u : Nat), u ≤ 2 → (getRClevels E results t1 n o u).2.2 ≤ 2 := by
  intro n
  induction n with
  | zero => intro o u hu; simpa [getRClevels] using hu
  | succ n ih =>
    intro o u hu
    simp only [getRClevels]
    exact ih _ _ (getRClevel_measure3 E results o u t1 hu).1

theorem decodeRC5Body_measure3 (E : Env) (results : decode_results) (o u n d : Nat)
    (s : Nat × Nat × Nat × Nat) (ho : o < results.rawlen) (hu : u ≤ 2)
    (h : decodeRC5Body E results o u n d = some s) :
    s.2.1 ≤ 2 ∧ 3 * (results.rawlen - s.1) - s.2.1 < 3 * (results.rawlen - o) - u := by
  have k1 := getRClevel_measure3 E results o u RC5_T1 hu
  have k2 := getRClevel_measure3 E results (getRClevel E results o u RC5_T1).2.1
    (getRClevel E results o u RC5_T1).2.2 RC5_T1 k1.1
  unfold decodeRC5Body at h
  simp only at h
  split_ifs at h with h1 h0
  · have hne : (getRClevel E results o u RC5_T1).1 ≠ -1 := by
      rw [h1.1]; exact E.space_ne_err
    have := k1.2.2 ho hne
    simp only [Option.some.injEq] at h
    subst h
    exact ⟨k2.1, by have := k2.2.1; simp only; omega⟩
  · have hne : (getRClevel E results o u RC5_T1).1 ≠ -1 := by
      rw [h0.1]; exact E.mark_ne_err
    have := k1.2.2 ho hne
    simp only [Option.some.injEq] at h
    subst h
    exact ⟨k2.1, by have := k2.2.1; simp only; omega⟩

theorem decodeRC6Body_measure3 (E : Env) (results : decode_results) (o u n d : Nat)
    (s : Nat × Nat × Nat × Nat) (ho : o < results.rawlen) (hu : u ≤ 2)
    (h : decodeRC6Body E results o u n d = some s) :
    s.2.1 ≤ 2 ∧ 3 * (results.rawlen - s.1) - s.2.1 < 3 * (results.rawlen - o) - u := by
  have k1 := getRClevel_measure3 E results o u RC6_T1 hu
  have k2 := getRClevel_measure3 E results (getRClevel E results o u RC6_T1).2.1
    (getRClevel E results o u RC6_T1).2.2 RC6_T1 k1.1
  unfold decodeRC6Body at h
  by_cases h3 : n = 3
  · simp only [h3, if_true, true_and] at h
    have k3 := getRClevel_measure3 E results
      (getRClevel E results (getRClevel E results o u RC6_T1).2.1 (getRClevel E results o u RC6_T1).2.2 RC6_T1).2.1
      (getRClevel E results (getRClevel E results o u RC6_T1).2.1 (getRClevel E results o u RC6_T1).2.2 RC6_T1).2.2 RC6_T1 k2.1
    have k4 := getRClevel_measure3 E results
      (getRClevel E results (getRClevel E results (getRClevel E results o u RC6_T1).2.1 (getRClevel E results o u RC6_T1).2.2 RC6_T1).2.1 (getRClevel E results (getRClevel E results o u RC6_T1).2.1 (getRClevel E results o u RC6_T1).2.2 RC6_T1).2.2 RC6_T1).2.1
      (getRClevel E results (getRClevel E results (getRClevel E results o u RC6_T1).2.1 (getRClevel E results o u RC6_T1).2.2 RC6_T1).2.1 (getRClevel E results (getRClevel E results o u RC6_T1).2.1 (getRClevel E results o u RC6_T1).2.2 RC6_T1).2.2 RC6_T1).2.2 RC6_T1 k3.1
    split_ifs at h with ha hb h1 h0
    · have hne : (getRClevel E results o u RC6_T1).1 ≠ -1 := by
        rw [h1.1]; exact E.mark_ne_err
      have := k1.2.2 ho hne
      simp only [Option.some.injEq] at h
      subst h
      exact ⟨k4.1, by have := k2.2.1; have := k3.2.1; have := k4.2.1; simp only; omega⟩
    · have hne : (getRClevel E results o u RC6_T1).1 ≠ -1 := by
        rw [h0.1]; exact E.space_ne_err
      have := k1.2.2 ho hne
      simp only [Option.some.injEq] at h
      subst h
      exact ⟨k4.1, by have := k2.2.1; have := k3.2.1; have := k4.2.1; simp only; omega⟩
  · simp only [h3, if_false, false_and] at h
    split_ifs at h with h1 h0
    · have hne : (getRClevel E results o u RC6_T1).1 ≠ -1 := by
        rw [h1.1]; exact E.mark_ne_err
      have := k1.2.2 ho hne
      simp only [Option.some.injEq] at h
      subst h
      exact ⟨k2.1, by have := k2.2.1; simp only; omega⟩
    · have hne : (getRClevel E results o u RC6_T1).1 ≠ -1 := by
        rw [h0.1]; exact E.space_ne_err
      have := k1.2.2 ho hne
      simp only [Option.some.injEq] at h
      subst h
      exact ⟨k2.1, by have := k2.2.1; simp only; omega⟩

theorem decodeRC5Iter_measure3 (E : Env) (results : decode_results) :
    ∀ (k : Nat) (s s' : Nat × Nat × Nat × Nat), s.2.1 ≤ 2 →
      decodeRC5Iter E results k s = some s' →
      s'.2.1 ≤ 2 ∧ 3 * (results.rawlen - s'.1) - s'.2.1 + k ≤ 3 * (results.rawlen - s.1) - s.2.1 := by
  intro k
  induction k with
  | zero =>
    intro s s' hu h
    simp only [decodeRC5Iter, Option.some.injEq] at h
    subst h
    exact ⟨hu, le_refl _⟩
  | succ k ih =>
    intro s s' hu h
    obtain ⟨o, u, n, d⟩ := s
    simp only [decodeRC5Iter] at h
    by_cases ho : o < results.rawlen
    · simp only [ho, if_true] at h
      cases hb : decodeRC5Body E results o u n d with
      | none => simp [hb] at h
      | some t =>
        simp only [hb] at h
        have hm := decodeRC5Body_measure3 E results o u n d t ho hu hb
        have := ih t s' hm.1 h
        simp only at hm this ⊢
        exact ⟨this.1, by omega⟩
    · simp [ho] at h

theorem decodeRC6Iter_measure3 (E : Env) (results : decode_results) :
    ∀ (k : Nat) (s s' : Nat × Nat × Nat × Nat), s.2.1 ≤ 2 →
      decodeRC6Iter E results k s = some s' →
      s'.2.1 ≤ 2 ∧ 3 * (results.rawlen - s'.1) - s'.2.1 + k ≤ 3 * (results.rawlen - s.1) - s.2.1 := by
  intro k
  induction k with
  | zero =>
    intro s s' hu h
    simp only [decodeRC6Iter, Option.some.injEq] at h
    subst h
    exact ⟨hu, le_refl _⟩
  | succ k ih =>
    intro s s' hu h
    obtain ⟨o, u, n, d⟩ := s
    simp only [decodeRC6Iter] at h
    by_cases ho : o < results.rawlen
    · simp only [ho, if_true] at h
      cases hb : decodeRC6Body E results o u n d with
      | none => simp [hb] at h
      | some t =>
        simp only [hb] at h
        have hm := decodeRC6Body_measure3 E results o u n d t ho hu hb
        have := ih t s' hm.1 h
        simp only at hm this ⊢
        exact ⟨this.1, by omega⟩
    · simp [ho] at h

/-- C18: for every raw buffer and every match predicate the decoders terminate
(they are total functions, defined by recursion on a measure of the cursor),
and: each `getRClevel` call made with `offset < rawlen` and `used ≤ 2` either
returns the mismatch value `-1`, leaving the cursor alone, or strictly
decreases `3 * (rawlen - offset) - used` and keeps `used ≤ 2`; hence a bit loop
entered with `used ≤ 2` makes at most `3 * rawlen` passes, and a successful
decode reports `bits ≤ 3 * rawlen`. -/
theorem decode_bounded (E : Env) (results : decode_results) :
    (∀ (t1 : Int) (o u : Nat), o < results.rawlen → u ≤ 2 →
      getRClevel E results o u t1 = (-1, o, u)
      ∨ ((getRClevel E results o u t1).1 ≠ -1
        ∧ (getRClevel E results o u t1).2.2 ≤ 2
        ∧ 3 * (results.rawlen - (getRClevel E results o u t1).2.1)
              - (getRClevel E results o u t1).2.2
            < 3 * (results.rawlen - o) - u))
    ∧ (∀ (k o u n d : Nat) (s : Nat × Nat × Nat × Nat), u ≤ 2 →
        decodeRC5Iter E results k (o, u, n, d) = some s → k ≤ 3 * results.rawlen)
    ∧ (∀ (k o u n d : Nat) (s : Nat × Nat × Nat × Nat), u ≤ 2 →
        decodeRC6Iter E results k (o, u, n, d) = some s → k ≤ 3 * results.rawlen)
    ∧ (∀ r, decodeRC5 E results = (true, r) → r.bits ≤ 3 * results.rawlen)
    ∧ (∀ r, decodeRC6 E results = some (true, r) → r.bits ≤ 3 * results.rawlen) := by
  refine ⟨?_, ?_, ?_, ?_, ?_⟩
  · intro t1 o u ho hu
    by_cases hne : (getRClevel E results o u t1).1 = -1
    · left
      cases hm : matchedUnits E results t1 o with
      | none => exact getRClevel_unmatched E results o u t1 ho hm
      | some a =>
        exfalso
        rw [getRClevel_matched E results o u a t1 hm] at hne
        simp only at hne
        split_ifs at hne
        · exact E.mark_ne_err hne
        · exact E.space_ne_err hne
    · right
      have h := getRClevel_measure3 E results o u t1 hu
      exact ⟨hne, h.1, h.2.2 ho hne⟩
  · intro k o u n d s hu h
    have := (decodeRC5Iter_measure3 E results k _ _ hu h).2
    simp only at this
    omega
  · intro k o u n d s hu h
    have := (decodeRC6Iter_measure3 E results k _ _ hu h).2
    simp only at this
    omega
  · intro r h
    obtain ⟨o, u, hk, _⟩ := (decodeRC5_true E results r h).2.2.1
    have := (decodeRC5Iter_measure3 E results _ _ _
      (getRClevels_used_le E results RC5_T1 3 1 0 (by omega)) hk).2
    simp only at this
    omega
  · intro r h
    obtain ⟨o, u, hk, _⟩ := (decodeRC6_true E results r h).2.2.1
    have := (decodeRC6Iter_measure3 E results _ _ _
      (getRClevels_used_le E results RC6_T1 2 3 0 (by omega)) hk).2
    simp only at this
    omega

/-! ## Every sample is passed through a successful match -/

theorem decodeRC5Body_preserves (E : Env) (results : decode_results) (P : Nat → Nat → Prop)
    (hP : ∀ o u, P o u → P (getRClevel E results o u RC5_T1).2.1
      (getRClevel E results o u RC5_T1).2.2)
    (o u n d : Nat) (s : Nat × Nat × Nat × Nat)
    (h : decodeRC5Body E results o u n d = some s) (h0 : P o u) : P s.1 s.2.1 := by
  unfold decodeRC5Body at h
  simp only at h
  have h2 := hP _ _ (hP o u h0)
  split_ifs at h <;> simp only [Option.some.injEq] at h <;> subst h <;> exact h2

theorem decodeRC6Body_preserves (E : Env) (results : decode_results) (P : Nat → Nat → Prop)
    (hP : ∀ o u, P o u → P (getRClevel E results o u RC6_T1).2.1
      (getRClevel E results o u RC6_T1).2.2)
    (o u n d : Nat) (s : Nat × Nat × Nat × Nat)
    (h : decodeRC6Body E results o u n d = some s) (h0 : P o u) : P s.1 s.2.1 := by
  unfold decodeRC6Body at h
  have h2 := hP _ _ (hP o u h0)
  have h4 := hP _ _ (hP _ _ h2)
  by_cases h3 : n = 3
  · simp only [h3, if_true, true_and] at h
    split_ifs at h <;> simp only [Option.some.injEq] at h <;> subst h <;> exact h4
  · simp only [h3, if_false, false_and] at h
    split_ifs at h <;> simp only [Option.some.injEq] at h <;> subst h <;> exact h2

theorem decodeRC5Iter_preserves (E : Env) (results : decode_results) (P : Nat → Nat → Prop)
    (hP : ∀ o u, P o u → P (getRClevel E results o u RC5_T1).2.1
      (getRClevel E results o u RC5_T1).2.2) :
    ∀ (k : Nat) (s s' : Nat × Nat × Nat × Nat), decodeRC5Iter E results k s = some s' →
      P s.1 s.2.1 → P s'.1 s'.2.1 := by
  intro k
  induction k with
  | zero =>
    intro s s' h h0
    simp only [decodeRC5Iter, Option.some.injEq] at h
    subst h
    exact h0
  | succ k ih =>
    intro s s' h h0
    obtain ⟨o, u, n, d⟩ := s
    simp only [decodeRC5Iter] at h
    by_cases ho : o < results.rawlen
    · simp only [ho, if_true] at h
      cases hb : decodeRC5Body E results o u n d with
      | none => simp [hb] at h
      | some t =>
        simp only [hb] at h
        exact ih t s' h (decodeRC5Body_preserves E results P hP o u n d t hb h0)
    · simp [ho] at h

theorem decodeRC6Iter_preserves (E : Env) (results : decode_results) (P : Nat → Nat → Prop)
    (hP : ∀ o u, P o u → P (getRClevel E results o u RC6_T1).2.1
      (getRClevel E results o u RC6_T1).2.2) :
    ∀ (k : Nat) (s s' : Nat × Nat × Nat × Nat), decodeRC6Iter E results k s = some s' →
      P s.1 s.2.1 → P s'.1 s'.2.1 := by
  intro k
  induction k with
  | zero =>
    intro s s' h h0
    simp only [decodeRC6Iter, Option.some.injEq] at h
    subst h
    exact h0
  | succ k ih =>
    intro s s' h h0
    obtain ⟨o, u, n, d⟩ := s
    simp only [decodeRC6Iter] at h
    by_cases ho : o < results.rawlen
    · simp only [ho, if_true] at h
      cases hb : decodeRC6Body E results o u n d with
      | none => simp [hb] at h
      | some t =>
        simp only [hb] at h
        exact ih t s' h (decodeRC6Body_preserves E results P hP o u n d t hb h0)
    · simp [ho] at h

theorem getRClevels_preserves (E : Env) (results : decode_results) (t1 : Int)
    (P : Nat → Nat → Prop)
    (hP : ∀ o u, P o u → P (getRClevel E results o u t1).2.1 (getRClevel E results o u t1).2.2) :
    ∀ (n o u : Nat), P o u →
      P (getRClevels E results t1 n o u).2.1 (getRClevels E results t1 n o u).2.2 := by
  intro n
  induction n with
  | zero => intro o u h; simpa [getRClevels] using h
  | succ n ih =>
    intro o u h
    simp only [getRClevels]
    exact ih _ _ (hP o u h)

theorem getRClevel_matched_below (E : Env) (results : decode_results) (t1 : Int) (b o u : Nat)
    (h : ∀ i, b ≤ i → i < o → ∃ a, matchedUnits E results t1 i = some a) :
    ∀ i, b ≤ i → i < (getRClevel E results o u t1).2.1 →
      ∃ a, matchedUnits E results t1 i = some a := by
  by_cases ho : o < results.rawbuf.length
  · cases hm : matchedUnits E results t1 o with
    | none =>
      rw [getRClevel_unmatched E results o u t1 ho hm]
      exact h
    | some a =>
      rw [getRClevel_matched E results o u a t1 hm]
      intro i hb hi
      by_cases hadv : u + 1 ≥ a
      · simp only [hadv, if_true] at hi
        by_cases hio : i = o
        · exact ⟨a, by rw [hio]; exact hm⟩
        · exact h i hb (by omega)
      · simp only [hadv, if_false] at hi
        exact h i hb hi
  · rw [getRClevel_past_end E results o u t1 (by omega)]
    exact h

theorem decodeRC5_all_matched (E : Env) (results r : decode_results)
    (h : decodeRC5 E results = (true, r)) :
    ∀ i, 1 ≤ i → i < results.rawlen → ∃ a, matchedUnits E results RC5_T1 i = some a := by
  obtain ⟨_, _, ⟨o, u, hk, ho⟩, _⟩ := decodeRC5_true E results r h
  have hP : ∀ o u, (fun (o _ : Nat) => ∀ i, 1 ≤ i → i < o →
        ∃ a, matchedUnits E results RC5_T1 i = some a) o u →
      (fun (o _ : Nat) => ∀ i, 1 ≤ i → i < o →
        ∃ a, matchedUnits E results RC5_T1 i = some a)
        (getRClevel E results o u RC5_T1).2.1 (getRClevel E results o u RC5_T1).2.2 :=
    fun o u h0 => getRClevel_matched_below E results RC5_T1 1 o u h0
  have h1 := getRClevels_preserves E results RC5_T1 _ hP 3 1 0 (fun i h1 h2 => by omega)
  have h2 := decodeRC5Iter_preserves E results _ hP _ _ _ hk h1
  intro i hi1 hi2
  exact h2 i hi1 (by simp only; omega)

theorem decodeRC6_all_matched (E : Env) (results r : decode_results)
    (h : decodeRC6 E results = some (true, r)) :
    ∀ i, 3 ≤ i → i < results.rawlen → ∃ a, matchedUnits E results RC6_T1 i = some a := by
  obtain ⟨_, _, ⟨o, u, hk, ho⟩, _⟩ := decodeRC6_true E results r h
  have hP : ∀ o u, (fun (o _ : Nat) => ∀ i, 3 ≤ i → i < o →
        ∃ a, matchedUnits E results RC6_T1 i = some a) o u →
      (fun (o _ : Nat) => ∀ i, 3 ≤ i → i < o →
        ∃ a, matchedUnits E results RC6_T1 i = some a)
        (getRClevel E results o u RC6_T1).2.1 (getRClevel E results o u RC6_T1).2.2 :=
    fun o u h0 => getRClevel_matched_below E results RC6_T1 3 o u h0
  have h1 := getRClevels_preserves E results RC6_T1 _ hP 2 3 0 (fun i h1 h2 => by omega)
  have h2 := decodeRC6Iter_preserves E results _ hP _ _ _ hk h1
  intro i hi1 hi2
  exact h2 i hi1 (by simp only; omega)

theorem decodeRC5_unmatched (E : Env) (results : decode_results) (i : Nat)
    (hi1 : 1 ≤ i) (hi2 : i < results.rawlen) (hm : matchedUnits E results RC5_T1 i = none) :
    decodeRC5 E results = (false, results) := by
  apply decodeRC5_false
  cases hb : (decodeRC5 E results).1 with
  | false => rfl
  | true =>
    exfalso
    obtain ⟨a, ha⟩ := decodeRC5_all_matched E results (decodeRC5 E results).2
      (by rw [← hb]) i hi1 hi2
    rw [hm] at ha
    exact absurd ha (by simp)

theorem decodeRC6_ne_none (E : Env) (results : decode_results) (h3 : 3 ≤ results.rawlen) :
    decodeRC6 E results ≠ none := by
  have hl : 3 ≤ results.rawbuf.length := h3
  have h1 : results.rawbuf[1]? = some results.rawbuf[1] := List.getElem?_eq_getElem (by omega)
  have h2 : results.rawbuf[2]? = some results.rawbuf[2] := List.getElem?_eq_getElem (by omega)
  unfold decodeRC6
  simp only [h1, h2]
  split_ifs <;> intro hc <;> first | (simp at hc) | (split at hc <;> simp at hc)

theorem decodeRC6_unmatched (E : Env) (results : decode_results) (i : Nat)
    (h3 : 3 ≤ results.rawlen)
    (hi1 : 3 ≤ i) (hi2 : i < results.rawlen) (hm : matchedUnits E results RC6_T1 i = none) :
    decodeRC6 E results = some (false, results) := by
  rcases decodeRC6_cases E results with hc | hc | ⟨w1, w2, nb, dt, _, _, _, _, _, _, hc⟩
  · exact absurd hc (decodeRC6_ne_none E results h3)
  · exact hc
  · exfalso
    obtain ⟨a, ha⟩ := decodeRC6_all_matched E results _ hc i hi1 hi2
    rw [hm] at ha
    exact absurd ha (by simp)

/-- C14: for every raw buffer with `rawlen ≥ 13`, if some sample at an index in
`1 .. rawlen - 1` matches none of 1x, 2x, 3x `RC5_T1` with its bias correction
(`matchedUnits` is `none` there), `decodeRC5` returns false; for every raw
buffer with `rawlen ≥ 3`, if some sample at an index in `3 .. rawlen - 1`
matches none of 1x, 2x, 3x `RC6_T1`, `decodeRC6` returns false.  Put the other
way round, a successful decode has passed every sample after the leading gap
(after the header, for RC6) through a successful match. -/
theorem decode_malformed_interval (E : Env) (results : decode_results) :
    (∀ i, MIN_RC5_SAMPLES + 2 ≤ results.rawlen → 1 ≤ i → i < results.rawlen →
        matchedUnits E results RC5_T1 i = none → decodeRC5 E results = (false, results))
    ∧ (∀ i, 3 ≤ results.rawlen → 3 ≤ i → i < results.rawlen →
        matchedUnits E results RC6_T1 i = none → decodeRC6 E results = some (false, results))
    ∧ (∀ r, decodeRC5 E results = (true, r) →
        ∀ i, 1 ≤ i → i < results.rawlen → ∃ a, matchedUnits E results RC5_T1 i = some a)
    ∧ (∀ r, decodeRC6 E results = some (true, r) →
        ∀ i, 3 ≤ i → i < results.rawlen → ∃ a, matchedUnits E results RC6_T1 i = some a) :=
  ⟨fun i _ hi1 hi2 hm => decodeRC5_unmatched E results i hi1 hi2 hm,
    fun i h3 hi1 hi2 hm => decodeRC6_unmatched E results i h3 hi1 hi2 hm,
    fun r h => decodeRC5_all_matched E results r h,
    fun r h => decodeRC6_all_matched E results r h⟩

/-- C14, witness: an RC5 buffer of 14 samples whose sample 9 is out of every
band, and an RC6 buffer whose sample 6 is. -/
theorem decode_malformed_interval_witness :
    decodeRC5 exampleEnv
        (resultsOf [0, 889, 889, 889, 889, 889, 889, 889, 889, 5000, 889, 889, 889, 889])
      = (false,
          resultsOf [0, 889, 889, 889, 889, 889, 889, 889, 889, 5000, 889, 889, 889, 889])
    ∧ decodeRC6 exampleEnv (resultsOf [0, 2666, 889, 444, 444, 444, 5000, 444])
      = some (false, resultsOf [0, 2666, 889, 444, 444, 444, 5000, 444]) :=
  ⟨(decode_malformed_interval exampleEnv
      (resultsOf [0, 889, 889, 889, 889, 889, 889, 889, 889, 5000, 889, 889, 889, 889])).1
      9 (by decide) (by decide) (by decide) (by decide),
   (decode_malformed_interval exampleEnv
      (resultsOf [0, 2666, 889, 444, 444, 444, 5000, 444])).2.1
      6 (by decide) (by decide) (by decide) (by decide)⟩


/-! ## The capture of an RC5X emission -/

theorem sendRC5xLoop_split (data : Nat) :
    sendRC5xLoop data ((1 <<< 19) % 2 ^ 32) 0
      = ((List.range' 0 8).map (fun j => data.testBit (19 - j))).flatMap (fun b =>
            if b then [Out.space 889, Out.mark 889] else [Out.mark 889, Out.space 889])
        ++ [Out.space 3556]
        ++ ((List.range' 8 12).map (fun j => data.testBit (19 - j))).flatMap (fun b =>
            if b then [Out.space 889, Out.mark 889] else [Out.mark 889, Out.space 889]) := by
  rw [sendRC5xLoop_eq data 20 0 _ (by omega) (by intro _; decide)]
  have hr : List.range' 0 20 = List.range' 0 7 ++ 7 :: List.range' 8 12 := by decide
  have hr8 : List.range' 0 8 = List.range' 0 7 ++ [7] := by decide
  rw [hr, hr8, List.flatMap_append, List.flatMap_cons, List.map_append, List.flatMap_append,
    List.flatMap_map, List.flatMap_map]
  have e1 : (List.range' 0 7).flatMap (fun j =>
        (if data.testBit (19 - j) then [Out.space 889, Out.mark 889]
         else [Out.mark 889, Out.space 889])
          ++ (if j = 7 then [Out.space 3556] else []))
      = (List.range' 0 7).flatMap (fun j =>
        if data.testBit (19 - j) then [Out.space 889, Out.mark 889]
        else [Out.mark 889, Out.space 889]) := by
    apply List.flatMap_congr
    intro j hj
    have : j ≠ 7 := by
      obtain ⟨i, hi, rfl⟩ := List.mem_range'.1 hj
      omega
    simp [this]
  have e2 : (List.range' 8 12).flatMap (fun j =>
        (if data.testBit (19 - j) then [Out.space 889, Out.mark 889]
         else [Out.mark 889, Out.space 889])
          ++ (if j = 7 then [Out.space 3556] else []))
      = (List.range' 8 12).flatMap (fun j =>
        if data.testBit (19 - j) then [Out.space 889, Out.mark 889]
        else [Out.mark 889, Out.space 889]) := by
    apply List.flatMap_congr
    intro j hj
    have : j ≠ 7 := by
      obtain ⟨i, hi, rfl⟩ := List.mem_range'.1 hj
      omega
    simp [this]
  rw [e1, e2, List.flatMap_map]
  simp

theorem segments_enable (k : Nat) (r : List Out) :
    segments (Out.enableIROut k :: r) = segments r := rfl

theorem segments_mark (t : Nat) (r : List Out) :
    segments (Out.mark t :: r) = (true, t) :: segments r := rfl

theorem segments_space (t : Nat) (r : List Out) :
    segments (Out.space t :: r) = (false, t) :: segments r := rfl

theorem segments_nil : segments [] = [] := rfl

theorem segments_sendRC5x (toggle system command extension : Nat) :
    ∃ hi lo : List Bool, hi ≠ [] ∧ lo ≠ [] ∧
      segments (sendRC5x toggle system command extension)
        = ((false, 1) :: (true, 1) :: (rc5Segs hi ++ (false, 4) :: rc5Segs lo)).map (scaleRun 889)
          ++ [(false, 0)] := by
  have hb := sendRC5xData_bits toggle system command extension
  have h19 : (sendRC5xData toggle system command extension).testBit 19 = true := by
    rw [msbBits_succ] at hb
    exact (List.cons.inj hb).1
  refine ⟨(List.range' 1 7).map
      (fun j => (sendRC5xData toggle system command extension).testBit (19 - j)),
    (List.range' 8 12).map
      (fun j => (sendRC5xData toggle system command extension).testBit (19 - j)),
    by simp [List.range'], by simp [List.range'], ?_⟩
  unfold sendRC5x
  rw [sendRC5xLoop_split]
  have hr : List.range' 0 8 = 0 :: List.range' 1 7 := by decide
  rw [hr, List.map_cons, List.flatMap_cons]
  simp only [Nat.sub_zero, h19, if_true]
  simp only [List.cons_append, List.nil_append, List.append_assoc, segments_enable,
    segments_space, segments_mark, segments_append, segments_rc5_bits, segments_nil,
    List.map_cons, List.map_append, scaleRun]

theorem mergeStep_tail (x p : Bool × Nat) (F : List (Bool × Nat)) (h : p ∈ F.tail) :
    p ∈ (mergeStep x F).tail := by
  cases F with
  | nil => simp at h
  | cons y t =>
    simp only [List.tail_cons] at h
    by_cases hxy : x.1 = y.1
    · simpa [mergeStep, hxy] using h
    · simp only [mergeStep, hxy, if_false, List.tail_cons]
      exact List.mem_cons_of_mem _ h

theorem rc5Segs_gap (hi : List Bool) (Z : List (Bool × Nat)) (d : Nat) (t : List (Bool × Nat))
    (hZ : mergeRuns (dropTrailingSpace Z) = (false, d) :: t) :
    hi = [] ∨ ∃ d1, (d1 = d ∨ d1 = d + 1)
      ∧ (false, d1) ∈ (mergeRuns (dropTrailingSpace (rc5Segs hi ++ Z))).tail := by
  induction hi with
  | nil => exact Or.inl rfl
  | cons b bs ih =>
    right
    rw [rc5Segs_cons, List.cons_append, List.cons_append, trimMerge_cons, trimMerge_cons]
    rcases ih with rfl | ⟨d1, hd1, hmem⟩
    · have : rc5Segs [] ++ Z = Z := by simp [rc5Segs]
      rw [this, hZ]
      cases b
      · exact ⟨d + 1, Or.inr rfl, by simp [mergeStep, Nat.add_comm]⟩
      · exact ⟨d, Or.inl rfl, by simp [mergeStep]⟩
    · exact ⟨d1, hd1, mergeStep_tail _ _ _ (mergeStep_tail _ _ _ hmem)⟩

theorem rc5x_gap_run (hi lo : List Bool) (hhi : hi ≠ []) (hlo : lo ≠ []) :
    ∃ d, 4 ≤ d ∧ d ≤ 6 ∧ (false, d) ∈ (mergeRuns (dropTrailingSpace
      ((true, 1) :: (rc5Segs hi ++ (false, 4) :: rc5Segs lo)))).tail := by
  obtain ⟨h1, _, h3⟩ := rc5_runs lo
  have hZ : ∃ d t, 4 ≤ d ∧ d ≤ 5
      ∧ mergeRuns (dropTrailingSpace ((false, 4) :: rc5Segs lo)) = (false, d) :: t := by
    rw [trimMerge_cons]
    cases hF : mergeRuns (dropTrailingSpace (rc5Segs lo)) with
    | nil =>
      rw [hF] at h3
      cases lo with
      | nil => exact absurd rfl hlo
      | cons b bs => simp at h3
    | cons y t =>
      rw [hF] at h1
      have hy : y.2 = 1 := h1 y (by simp)
      obtain ⟨l, c⟩ := y
      simp only at hy
      subst hy
      cases l
      · exact ⟨5, t, by omega, by omega, by simp [mergeStep]⟩
      · exact ⟨4, (true, 1) :: t, by omega, by omega, by simp [mergeStep]⟩
  obtain ⟨d, t, hd4, hd5, hZ⟩ := hZ
  rcases rc5Segs_gap hi _ d t hZ with h | ⟨d1, hd1, hmem⟩
  · exact absurd h hhi
  · rw [trimMerge_cons]
    exact ⟨d1, by omega, by omega, mergeStep_tail _ _ _ hmem⟩

theorem capture_sendRC5x (gap toggle system command extension : Nat) :
    ∃ d, 4 ≤ d ∧ d ≤ 6
      ∧ d * 889 ∈ (capture gap (sendRC5x toggle system command extension)).tail := by
  obtain ⟨hi, lo, hhi, hlo, hseg⟩ := segments_sendRC5x toggle system command extension
  obtain ⟨d, hd4, hd6, hmem⟩ := rc5x_gap_run hi lo hhi hlo
  refine ⟨d, hd4, hd6, ?_⟩
  unfold capture
  rw [hseg, filter_scaled 889 (by decide) _ (by
    intro p hp
    simp only [List.mem_cons, List.mem_append] at hp
    rcases hp with hp | hp | hp | hp | hp
    · rw [hp]
    · rw [hp]
    · exact rc5Segs_pos _ p hp
    · rw [hp]; decide
    · exact rc5Segs_pos _ p hp)]
  have hdw : (List.map (scaleRun 889)
        ((false, 1) :: (true, 1) :: (rc5Segs hi ++ (false, 4) :: rc5Segs lo))).dropWhile
        (fun s => !s.1)
      = List.map (scaleRun 889) ((true, 1) :: (rc5Segs hi ++ (false, 4) :: rc5Segs lo)) := by
    simp [scaleRun, List.dropWhile]
  rw [hdw, dropTrailingSpace_map_scale, mergeRuns_map_scale, List.tail_cons, List.map_map]
  exact List.mem_map.2 ⟨(false, d), List.mem_of_mem_tail hmem, by simp [scaleRun]⟩

theorem rejectsGap_spec (E : Env) (T : Nat) (h : rejectsGap E T = true)
    (d : Nat) (hd4 : 4 ≤ d) (hd6 : d ≤ 6) (c : Int)
    (hc : c = E.MARK_EXCESS ∨ c = - E.MARK_EXCESS) :
    E.MATCH ((d * T : Nat) : Int) ((T : Int) + c) = false
    ∧ E.MATCH ((d * T : Nat) : Int) (2 * (T : Int) + c) = false
    ∧ E.MATCH ((d * T : Nat) : Int) (3 * (T : Int) + c) = false := by
  unfold rejectsGap at h
  simp only [List.all_cons, List.all_nil, Bool.and_true, Bool.and_eq_true,
    Bool.not_eq_true', if_true, Bool.false_eq_true, if_false, Nat.cast_one, one_mul,
    Nat.cast_ofNat] at h
  have hk : d = 4 ∨ d = 5 ∨ d = 6 := by omega
  rcases hk with rfl | rfl | rfl <;> rcases hc with rfl | rfl <;> simp_all

theorem matchedUnits_gap (E : Env) (results : decode_results) (T d i : Nat)
    (h : rejectsGap E T = true) (hd4 : 4 ≤ d) (hd6 : d ≤ 6)
    (hi : i < results.rawbuf.length) (hv : results.rawbuf[i] = d * T) :
    matchedUnits E results T i = none := by
  unfold matchedUnits
  simp only [hi, dite_true, hv]
  have hc : (if (if i % 2 ≠ 0 then E.MARK else E.SPACE) = E.MARK then E.MARK_EXCESS
      else - E.MARK_EXCESS) = E.MARK_EXCESS
      ∨ (if (if i % 2 ≠ 0 then E.MARK else E.SPACE) = E.MARK then E.MARK_EXCESS
      else - E.MARK_EXCESS) = - E.MARK_EXCESS := by
    split_ifs <;> simp
  obtain ⟨h1, h2, h3⟩ := rejectsGap_spec E T h d hd4 hd6 _ hc
  simp only [h1, h2, h3, Bool.false_eq_true, if_false]

theorem decodeRC5_gap (E : Env) (results : decode_results) (d : Nat)
    (h : rejectsGap E RC5_T1 = true) (hd4 : 4 ≤ d) (hd6 : d ≤ 6)
    (hmem : d * RC5_T1 ∈ results.rawbuf.tail) :
    decodeRC5 E results = (false, results) := by
  cases hb : results.rawbuf with
  | nil => rw [hb] at hmem; simp at hmem
  | cons g r =>
    rw [hb, List.tail_cons] at hmem
    obtain ⟨n, hn, hv⟩ := List.getElem_of_mem hmem
    have hlen : n + 1 < results.rawbuf.length := by rw [hb]; simpa using hn
    have hval : results.rawbuf[n + 1] = d * RC5_T1 := by
      simp only [hb, List.getElem_cons_succ]
      exact hv
    exact decodeRC5_unmatched E results (n + 1) (by omega) hlen
      (matchedUnits_gap E results RC5_T1 d (n + 1) h hd4 hd6 hlen hval)

theorem capture_sendRC5x_zero :
    capture 0 (sendRC5x 0 0 0 0)
      = [0, 889, 889, 1778, 889, 889, 889, 889, 889, 889, 889, 889, 889, 889, 4445, 889, 889,
          889, 889, 889, 889, 889, 889, 889, 889, 889, 889, 889, 889, 889, 889, 889, 889, 889,
          889, 889, 889, 889] := by
  unfold sendRC5x
  rw [sendRC5xLoop_split]
  decide

/-- C15 (amended): for every toggle, system, command and extension, with a match
predicate that accepts no interval of 4, 5 or 6 units against a target of 1, 2
or 3 units of `RC5_T1`, `decodeRC5` applied to the capture of the emission of
`sendRC5x` returns false and leaves the result record alone: the space of four
units after the eighth bit, merged with its neighbours, is a sample that the
quantizer matches against none of its three targets. -/
theorem decodeRC5_rejects_RC5X (E : Env) (results : decode_results)
    (gap toggle system command extension : Nat)
    (hE : rejectsGap E RC5_T1 = true)
    (hbuf : results.rawbuf = capture gap (sendRC5x toggle system command extension)) :
    decodeRC5 E results = (false, results) := by
  obtain ⟨d, hd4, hd6, hmem⟩ := capture_sendRC5x gap toggle system command extension
  rw [← hbuf] at hmem
  exact decodeRC5_gap E results d hE hd4 hd6 hmem

/-- C15, witness: the RC5X frame of toggle 1, system 5, command 70 and
extension 3 is sent, captured and rejected. -/
theorem decodeRC5_rejects_RC5X_witness :
    decodeRC5 exampleEnv (resultsOf (capture 0 (sendRC5x 1 5 70 3)))
      = (false, resultsOf (capture 0 (sendRC5x 1 5 70 3))) :=
  decodeRC5_rejects_RC5X exampleEnv (resultsOf (capture 0 (sendRC5x 1 5 70 3))) 0 1 5 70 3
    (by decide) rfl

/-- C15, counterexample: the match predicate accepts unit multiples of 1 to 3
against their own target only, the capture of `sendRC5x 0 0 0 0` has a sample of
`5 * 889` at index 14 (the space of four units merged with the space half of the
bit before it), and `decodeRC5` returns false on it. -/
theorem decodeRC5_fails_on_RC5X :
    acceptsUnits exampleEnv RC5_T1 = true
    ∧ (capture 0 (sendRC5x 0 0 0 0))[14]? = some (5 * 889)
    ∧ (decodeRC5 exampleEnv (resultsOf (capture 0 (sendRC5x 0 0 0 0)))).1 = false := by
  have hc := capture_sendRC5x_zero
  refine ⟨by decide, by rw [hc]; rfl, ?_⟩
  rw [decodeRC5_gap exampleEnv (resultsOf (capture 0 (sendRC5x 0 0 0 0))) 5 (by decide)
    (by decide) (by decide) (by rw [hc]; decide)]

/-! ## Soundness of the RC5 decoder -/

theorem unitLevelsFrom_past (E : Env) (results : decode_results) (t1 : Int) (o : Nat)
    (h : results.rawlen ≤ o) : unitLevelsFrom E results t1 o = [] := by
  unfold unitLevelsFrom
  rw [Nat.sub_eq_zero_of_le h]
  rfl

theorem unitLevelsFrom_lt (E : Env) (results : decode_results) (t1 : Int) (o a : Nat)
    (h : o < results.rawlen) (hm : matchedUnits E results t1 o = some a) :
    unitLevelsFrom E results t1 o
      = List.replicate a (decide (o % 2 ≠ 0)) ++ unitLevelsFrom E results t1 (o + 1) := by
  unfold unitLevelsFrom
  have : results.rawlen - o = (results.rawlen - (o + 1)) + 1 := by omega
  rw [this, List.range'_succ, List.flatMap_cons, hm]
  rfl

theorem levelOf_inj (E : Env) (p q : Bool) (h : levelOf E p = levelOf E q) : p = q := by
  cases p <;> cases q <;> simp [levelOf] at h ⊢
  · exact E.mark_ne_space h.symm
  · exact E.mark_ne_space h

theorem getRClevel_read (E : Env) (results : decode_results) (t1 : Int) (o u : Nat)
    (hall : ∀ i, 1 ≤ i → i < results.rawlen → ∃ a, matchedUnits E results t1 i = some a)
    (ho1 : 1 ≤ o) (ho : o < results.rawlen)
    (hv : ∀ a, matchedUnits E results t1 o = some a → u < a) :
    ∃ p : Bool, (getRClevel E results o u t1).1 = levelOf E p
      ∧ (unitLevelsFrom E results t1 o).drop u
          = p :: (unitLevelsFrom E results t1 (getRClevel E results o u t1).2.1).drop
              (getRClevel E results o u t1).2.2
      ∧ (∀ a, matchedUnits E results t1 (getRClevel E results o u t1).2.1 = some a →
          (getRClevel E results o u t1).2.2 < a)
      ∧ o ≤ (getRClevel E results o u t1).2.1
      ∧ (getRClevel E results o u t1).2.1 ≤ o + 1 := by
  obtain ⟨a, hm⟩ := hall o ho1 ho
  have hu := hv a hm
  refine ⟨decide (o % 2 ≠ 0), ?_⟩
  rw [getRClevel_matched E results o u a t1 hm, unitLevelsFrom_lt E results t1 o a ho hm,
    List.drop_append_of_le_length (by simp; omega), List.drop_replicate]
  by_cases hadv : u + 1 ≥ a
  · have ha : a - u = 1 := by omega
    simp only [hadv, if_true, ha, List.drop_zero]
    refine ⟨by simp [levelOf], by simp, ?_, by omega, by omega⟩
    intro a1 h1
    exact (matchedUnits_bound E results t1 _ a1 h1).2.1
  · have ha : a - u = (a - (u + 1)) + 1 := by omega
    simp only [hadv, if_false]
    refine ⟨by simp [levelOf], ?_, ?_, by omega, by omega⟩
    · rw [unitLevelsFrom_lt E results t1 o a ho hm,
        List.drop_append_of_le_length (by simp; omega), List.drop_replicate, ha,
        List.replicate_succ]
      rfl
    · intro a1 h1
      rw [hm] at h1
      have : a = a1 := Option.some.inj h1
      omega

theorem decodeRC5Body_reads (E : Env) (results : decode_results) (o u nb d : Nat)
    (s : Nat × Nat × Nat × Nat)
    (hall : ∀ i, 1 ≤ i → i < results.rawlen → ∃ a, matchedUnits E results RC5_T1 i = some a)
    (ho1 : 1 ≤ o) (ho : o < results.rawlen)
    (hv : ∀ a, matchedUnits E results RC5_T1 o = some a → u < a)
    (hb : decodeRC5Body E results o u nb d = some s) :
    ∃ b : Bool, s.2.2.2 = (d * 2 + b.toNat) % 2 ^ 32
      ∧ (∀ a, matchedUnits E results RC5_T1 s.1 = some a → s.2.1 < a)
      ∧ 1 ≤ s.1
      ∧ ((unitLevelsFrom E results RC5_T1 o).drop u
            = (!b) :: b :: (unitLevelsFrom E results RC5_T1 s.1).drop s.2.1
          ∨ (b = false ∧ results.rawlen ≤ s.1
              ∧ (unitLevelsFrom E results RC5_T1 o).drop u = [true])) := by
  obtain ⟨p1, hp1, hd1, hv1, hle1, _⟩ := getRClevel_read E results RC5_T1 o u hall ho1 ho hv
  unfold decodeRC5Body at hb
  simp only at hb
  by_cases ho2 : (getRClevel E results o u RC5_T1).2.1 < results.rawlen
  · obtain ⟨p2, hp2, hd2, hv2, hle2, _⟩ := getRClevel_read E results RC5_T1 _ _ hall
      (by omega) ho2 hv1
    rw [hd2] at hd1
    split_ifs at hb with hc1 hc2
    · have e1 : p1 = false := levelOf_inj E _ _ (by rw [← hp1, hc1.1, levelOf_false])
      have e2 : p2 = true := levelOf_inj E _ _ (by rw [← hp2, hc1.2, levelOf_true])
      subst e1 e2
      have hs := Option.some.inj hb
      subst hs
      exact ⟨true, by simp, hv2, by omega, Or.inl hd1⟩
    · have e1 : p1 = true := levelOf_inj E _ _ (by rw [← hp1, hc2.1, levelOf_true])
      have e2 : p2 = false := levelOf_inj E _ _ (by rw [← hp2, hc2.2, levelOf_false])
      subst e1 e2
      have hs := Option.some.inj hb
      subst hs
      exact ⟨false, by simp, hv2, by omega, Or.inl hd1⟩
  · have hpe := getRClevel_past_end E results (getRClevel E results o u RC5_T1).2.1
      (getRClevel E results o u RC5_T1).2.2 RC5_T1 (Nat.not_lt.1 ho2)
    rw [hpe] at hb
    rw [unitLevelsFrom_past E results RC5_T1 _ (Nat.not_lt.1 ho2), List.drop_nil] at hd1
    split_ifs at hb with hc1 hc2
    · exact absurd hc1.2.symm E.mark_ne_space
    · have e1 : p1 = true := levelOf_inj E _ _ (by rw [← hp1, hc2.1, levelOf_true])
      subst e1
      have hs := Option.some.inj hb
      subst hs
      exact ⟨false, by simp, hv1,
        by show 1 ≤ (getRClevel E results o u RC5_T1).2.1; omega,
        Or.inr ⟨rfl, Nat.not_lt.1 ho2, hd1⟩⟩

theorem rc5Units_cons (b : Bool) (bs : List Bool) :
    rc5Units (b :: bs) = (!b) :: b :: rc5Units bs := by
  cases b <;> simp [rc5Units]

theorem length_rc5Units (bs : List Bool) : (rc5Units bs).length = 2 * bs.length := by
  induction bs with
  | nil => simp [rc5Units]
  | cons b bs ih => rw [rc5Units_cons]; simp [ih]; omega

theorem decodeRC5Iter_reads (E : Env) (results : decode_results)
    (hall : ∀ i, 1 ≤ i → i < results.rawlen → ∃ a, matchedUnits E results RC5_T1 i = some a) :
    ∀ (k o u nb d o2 u2 nb2 d2 : Nat), 1 ≤ o →
      (∀ a, matchedUnits E results RC5_T1 o = some a → u < a) →
      decodeRC5Iter E results k (o, u, nb, d) = some (o2, u2, nb2, d2) →
      results.rawlen ≤ o2 →
      ∃ bs : List Bool, bs.length = k ∧ d2 = shiftIn d bs
        ∧ ((unitLevelsFrom E results RC5_T1 o).drop u = rc5Units bs
            ∨ (unitLevelsFrom E results RC5_T1 o).drop u ++ [false] = rc5Units bs) := by
  intro k
  induction k with
  | zero =>
    intro o u nb d o2 u2 nb2 d2 ho1 hv hk hend
    simp only [decodeRC5Iter, Option.some.injEq, Prod.mk.injEq] at hk
    obtain ⟨rfl, rfl, rfl, rfl⟩ := hk
    refine ⟨[], rfl, rfl, Or.inl ?_⟩
    rw [unitLevelsFrom_past E results RC5_T1 o hend]
    simp [rc5Units]
  | succ k ih =>
    intro o u nb d o2 u2 nb2 d2 ho1 hv hk hend
    simp only [decodeRC5Iter] at hk
    by_cases ho : o < results.rawlen
    · simp only [ho, if_true] at hk
      cases hb : decodeRC5Body E results o u nb d with
      | none => rw [hb] at hk; simp at hk
      | some s =>
        rw [hb] at hk
        simp only at hk
        obtain ⟨b, hd, hv2, hs1, hcase⟩ :=
          decodeRC5Body_reads E results o u nb d s hall ho1 ho hv hb
        obtain ⟨so, su, snb, sd⟩ := s
        simp only at hd hv2 hs1 hcase
        rcases hcase with hcase | ⟨hb0, hpast, hcase⟩
        · obtain ⟨bs, hlen, hval, hrest⟩ := ih so su snb sd o2 u2 nb2 d2 hs1 hv2 hk hend
          refine ⟨b :: bs, by simp [hlen], ?_, ?_⟩
          · rw [hval, hd]
            simp [shiftIn]
          · rw [hcase, rc5Units_cons]
            rcases hrest with hrest | hrest
            · exact Or.inl (by rw [hrest])
            · exact Or.inr (by rw [← hrest]; rfl)
        · cases k with
          | zero =>
            simp only [decodeRC5Iter, Option.some.injEq, Prod.mk.injEq] at hk
            refine ⟨[false], rfl, ?_, Or.inr ?_⟩
            · rw [← hk.2.2.2, hd, hb0]
              simp [shiftIn]
            · rw [hcase]
              rfl
          | succ k =>
            simp only [decodeRC5Iter, Nat.not_lt.2 hpast, if_false] at hk
            exact absurd hk (by simp)
    · simp [ho] at hk

theorem exists_msbBits (bs : List Bool) :
    ∃ w, w < 2 ^ bs.length ∧ msbBits w bs.length = bs := by
  induction bs with
  | nil => exact ⟨0, by simp, by simp [msbBits]⟩
  | cons b bs ih =>
    obtain ⟨w, hw, hbits⟩ := ih
    refine ⟨2 ^ bs.length * b.toNat + w, ?_, ?_⟩
    · have : b.toNat ≤ 1 := by cases b <;> simp
      simp only [List.length_cons, pow_succ]
      nlinarith
    · rw [List.length_cons, msbBits_succ]
      congr 1
      · rw [Nat.testBit_mul_pow_two_add _ hw]
        cases b <;> simp
      · have hm : msbBits (2 ^ bs.length * b.toNat + w) bs.length = msbBits w bs.length := by
          unfold msbBits
          apply List.map_congr_left
          intro i hi
          have hlt : i < bs.length := by simpa using hi
          rw [Nat.testBit_mul_pow_two_add _ hw]
          simp only [hlt, if_true]
        rw [hm, hbits]

theorem shiftIn_bits (bs : List Bool) (h32 : bs.length ≤ 32) :
    shiftIn 0 bs < 2 ^ bs.length ∧ msbBits (shiftIn 0 bs) bs.length = bs := by
  obtain ⟨w, hw, hbits⟩ := exists_msbBits bs
  have hv : shiftIn 0 bs = w := by
    conv_lhs => rw [← hbits]
    exact shiftIn_msbBits_zero w bs.length h32 hw
  rw [hv]
  exact ⟨hw, hbits⟩

theorem emittedUnits_sendRC5 (v n : Nat) (h1 : 1 ≤ n) (h32 : n ≤ 32) :
    emittedUnits RC5_T1 (sendRC5 v n) = true :: false :: true :: rc5Units (msbBits v n) := by
  unfold emittedUnits
  rw [sendRC5_eq v n h1 h32]
  simp only [List.cons_append, List.nil_append, List.append_assoc, segments_enable,
    segments_space, segments_mark, segments_append, segments_rc5_bits, segments_nil]
  have hu : ∀ l : List (Bool × Nat),
      (l.map (scaleRun 889)).flatMap (fun p => List.replicate (p.2 / RC5_T1) p.1) = unitsOf l := by
    intro l
    rw [List.flatMap_map]
    unfold unitsOf
    apply List.flatMap_congr
    intro p _
    simp [scaleRun, RC5_T1]
  simp only [List.flatMap_cons, List.flatMap_append, hu, unitsOf_rc5Segs]
  simp [RC5_T1]

theorem decodeRC5_levels (E : Env) (results r : decode_results)
    (h : decodeRC5 E results = (true, r)) :
    ∃ bs : List Bool, bs.length = r.bits ∧ r.value = shiftIn 0 bs ∧ 1 ≤ r.bits
      ∧ (unitLevelsFrom E results RC5_T1 1 = true :: false :: true :: rc5Units bs
          ∨ unitLevelsFrom E results RC5_T1 1 ++ [false]
              = true :: false :: true :: rc5Units bs) := by
  have hall := decodeRC5_all_matched E results r h
  obtain ⟨hlen, hstart, ⟨o, u, hk, hend⟩, _⟩ := decodeRC5_true E results r h
  simp only [MIN_RC5_SAMPLES] at hlen
  simp only [getRClevels] at hstart hk
  obtain ⟨p1, hp1, hd1, hv1, hle1, hge1⟩ := getRClevel_read E results RC5_T1 1 0 hall
    (by omega) (by omega)
    (fun a ha => (matchedUnits_bound E results RC5_T1 1 a ha).2.1)
  obtain ⟨p2, hp2, hd2, hv2, hle2, hge2⟩ := getRClevel_read E results RC5_T1 _ _ hall
    hle1 (by omega) hv1
  obtain ⟨p3, hp3, hd3, hv3, hle3, hge3⟩ := getRClevel_read E results RC5_T1 _ _ hall
    (by omega) (by omega) hv2
  simp only [List.cons.injEq, and_true] at hstart
  have e1 : p1 = true := levelOf_inj E _ _ (by rw [← hp1, hstart.1, levelOf_true])
  have e2 : p2 = false := levelOf_inj E _ _ (by rw [← hp2, hstart.2.1, levelOf_false])
  have e3 : p3 = true := levelOf_inj E _ _ (by rw [← hp3, hstart.2.2, levelOf_true])
  subst e1 e2 e3
  rw [List.drop_zero, hd2, hd3] at hd1
  obtain ⟨bs, hbl, hval, hrest⟩ := decodeRC5Iter_reads E results hall r.bits _ _ 0 0 o u
    r.bits r.value (by omega) hv3 hk hend
  refine ⟨bs, hbl, hval, ?_, ?_⟩
  · by_contra hz
    have h0 : r.bits = 0 := by omega
    rw [h0] at hk
    simp only [decodeRC5Iter, Option.some.injEq, Prod.mk.injEq] at hk
    omega
  · rw [hd1]
    rcases hrest with hrest | hrest
    · exact Or.inl (by rw [hrest])
    · exact Or.inr (by rw [← hrest]; rfl)

/-- C20 (amended): for every raw buffer on which `decodeRC5` returns true with
`bits = n ≤ 32` and `value = v`: `v < 2 ^ n`, and the unit levels obtained by
expanding every sample at the indexes `1 .. rawlen - 1` into its matched number
(1, 2 or 3) of levels of that index's polarity, followed by one implicit SPACE
if their number is even, are the unit levels that `sendRC5 v n` emits before
its final `space(0)`: MARK, SPACE, MARK, then SPACE, MARK for each 1 bit and
MARK, SPACE for each 0 bit, most significant bit first. -/
theorem decodeRC5_sound (E : Env) (results r : decode_results)
    (h : decodeRC5 E results = (true, r)) (hn : r.bits ≤ 32) :
    r.value < 2 ^ r.bits
    ∧ padIfEven (unitLevelsFrom E results RC5_T1 1)
        = emittedUnits RC5_T1 (sendRC5 r.value r.bits)
    ∧ emittedUnits RC5_T1 (sendRC5 r.value r.bits)
        = true :: false :: true :: rc5Units (msbBits r.value r.bits) := by
  obtain ⟨bs, hbl, hval, h1, hlev⟩ := decodeRC5_levels E results r h
  obtain ⟨hlt, hbits⟩ := shiftIn_bits bs (by omega)
  rw [← hval, hbl] at hlt hbits
  have hem := emittedUnits_sendRC5 r.value r.bits h1 hn
  refine ⟨hlt, ?_, hem⟩
  rw [hem, hbits]
  have hl := length_rc5Units bs
  unfold padIfEven
  rcases hlev with hlev | hlev
  · have : (unitLevelsFrom E results RC5_T1 1).length % 2 ≠ 0 := by
      rw [hlev]
      simp only [List.length_cons, hl]
      omega
    rw [if_neg this, hlev]
  · have hlen := congrArg List.length hlev
    simp only [List.length_append, List.length_cons, List.length_nil, hl] at hlen
    have : (unitLevelsFrom E results RC5_T1 1).length % 2 = 0 := by omega
    rw [if_pos this, hlev]

theorem decodeRC5_capture (E : Env) (hE : acceptsUnits E RC5_T1 = true) (gap v n : Nat)
    (hn10 : 10 ≤ n) (hn32 : n ≤ 32) (hv : v < 2 ^ n) :
    decodeRC5 E (resultsOf (capture gap (sendRC5 v n)))
      = (true, { resultsOf (capture gap (sendRC5 v n)) with
                  bits := n, value := v, decode_type := decode_type_t.RC5 }) := by
  have hr := readsFrom_capture_sendRC5 gap v n (by omega) hn32
  have hlen : MIN_RC5_SAMPLES + 2 ≤ (resultsOf (capture gap (sendRC5 v n))).rawlen := by
    have := length_capture_sendRC5 gap v n (by omega) hn32
    simp only [decode_results.rawlen, MIN_RC5_SAMPLES, resultsOf]
    omega
  rw [decodeRC5_of_readsFrom E hE (resultsOf (capture gap (sendRC5 v n))) (msbBits v n) hlen hr,
    length_msbBits, shiftIn_msbBits_zero v n hn32 hv]

/-- C20, witness: the buffer captured from `sendRC5 0x5A4 12` decodes to 12 bits
of value `0x5A4`; its samples stand for 26 unit levels, and with the implicit
SPACE they are the 27 levels of the emission. -/
theorem decodeRC5_sound_witness :
    0x5A4 < 2 ^ 12
    ∧ padIfEven (unitLevelsFrom exampleEnv (resultsOf (capture 0 (sendRC5 0x5A4 12))) RC5_T1 1)
        = emittedUnits RC5_T1 (sendRC5 0x5A4 12)
    ∧ emittedUnits RC5_T1 (sendRC5 0x5A4 12)
        = true :: false :: true :: rc5Units (msbBits 0x5A4 12) :=
  decodeRC5_sound exampleEnv (resultsOf (capture 0 (sendRC5 0x5A4 12)))
    { resultsOf (capture 0 (sendRC5 0x5A4 12)) with
        bits := 12, value := 0x5A4, decode_type := decode_type_t.RC5 }
    (decodeRC5_capture exampleEnv (by decide) 0 0x5A4 12 (by decide) (by decide) (by decide))
    (by decide)

/-- C20, counterexample: `decodeRC5` returns true with 12 bits of value `0x5A5`
on the buffer captured from `sendRC5 0x5A5 12`; its samples stand for 27 unit
levels, an odd number, and these followed by one more SPACE are 28 levels, not
the 27 levels that `sendRC5 0x5A5 12` emits before its final `space(0)`. -/
theorem decodeRC5_sound_pad_if_odd_fails :
    decodeRC5 exampleEnv (resultsOf (capture 0 (sendRC5 0x5A5 12)))
      = (true, { resultsOf (capture 0 (sendRC5 0x5A5 12)) with
                  bits := 12, value := 0x5A5, decode_type := decode_type_t.RC5 })
    ∧ 12 ≤ 32
    ∧ (unitLevelsFrom exampleEnv (resultsOf (capture 0 (sendRC5 0x5A5 12))) RC5_T1 1).length = 27
    ∧ padIfOdd (unitLevelsFrom exampleEnv (resultsOf (capture 0 (sendRC5 0x5A5 12))) RC5_T1 1)
        ≠ emittedUnits RC5_T1 (sendRC5 0x5A5 12) := by
  refine ⟨decodeRC5_capture exampleEnv (by decide) 0 0x5A5 12 (by decide) (by decide)
    (by decide), by decide, ?_, ?_⟩
  · rw [sendRC5_eq 0x5A5 12 (by decide) (by decide)]
    decide
  · rw [sendRC5_eq 0x5A5 12 (by decide) (by decide)]
    decide

end IRremote
